import Mathlib

/-!
# Batch scan orchestration (`internal/scanner/batch.go`)

A shallow embedding of the batch orchestrator: `PerformBatchScan` and the
methods of `batchState` (`do`, `input`, `inputOneScan`, `output`, `save`,
`substitutePlaceholders`, `addIndexToPath`, `copyFile`, `sendProgress`).

Go strings are lists of characters, Go `int` is `Int` (wrapped to 64 bits
where a product can overflow), Go `error` is `Option GoError` with `none`
for `nil`.  Everything outside the orchestrator (the scanner driver, the
context, the clock, the file system, the iteration order of a Go map) is
an explicit environment of answers, indexed by how many calls of that kind
have been made so far; the state records every outside call in a trace.

The drivers follow (`internal/scanner/driver_windows.go`, `driver_linux.go`,
`driver_darwin.go`): `Scan`, `scanADFBatch`, `isBlankPage` and the page size
in pixels of `applyCropToPageSize`.  The worker goroutine and the channels of
`scanADFBatch` are the lists of messages they carry, `select` takes the case
an environment prefers among the ready ones, and `float64` is the rationals
with a rounding function of which only its accuracy is assumed.  Of
`applyImageQuality` the effect on the set of files is followed, and of the
combined driver (`driver_windows_combined.go`) the dispatch of `GetScanner`,
`Scan`, `CancelScan` and `WatchLidStatus` on the protocol of a scanner ID.
-/

namespace Scan

/-- A Go string. -/
abbrev GoString := List Char

/-- A Go `float64`, carried by its bit pattern and never interpreted. -/
structure Float64 where
  bits : Nat
deriving DecidableEq, Repr

/-- A Go `error` value: `leaf` is an error made by `errors.New`, by
`fmt.Errorf` without `%w`, or by a library; `wrap` is `fmt.Errorf` with one
`%w` operand. -/
inductive GoError where
  | leaf (text : GoString)
  | wrap (text : GoString) (inner : GoError)
deriving DecidableEq, Repr

/-- The method `Error()`. -/
def GoError.Error : GoError → GoString
  | .leaf t => t
  | .wrap t _ => t

/-- The verb `%d` of `fmt` applied to an `int`. -/
def fmtD : Int → GoString
  | .ofNat n => Nat.toDigits 10 n
  | .negSucc n => '-' :: Nat.toDigits 10 (n + 1)

/-- Reduction of an integer to the range of a signed 64-bit `int`. -/
def wrapInt64 (x : Int) : Int :=
  (x + 9223372036854775808) % 18446744073709551616 - 9223372036854775808

/-- The `models.ScanParams` record (`pkg/models/scanner.go`). -/
structure ScanParams where
  Resolution : Int
  ColorMode : GoString
  Format : GoString
  UseDuplex : Bool
  UseFeeder : Bool
  PageCount : Int
  PageSize : GoString
  PageWidth : Int
  PageHeight : Int
  PageAlign : GoString
  WiaOffsetWidth : Bool
  Brightness : Int
  Contrast : Int
  ScaleRatio : Int
  StretchToPageSize : Bool
  CropToPageSize : Bool
  MaxQuality : Bool
  JpegQuality : Int
  ExcludeBlankPages : Bool
  BlankPageWhiteThreshold : Int
  BlankPageCoverageThreshold : Int
  AutoDeskew : Bool
  RotateDegrees : Float64
  FlipDuplexedPages : Bool
  Width : Int
  Height : Int
deriving DecidableEq, Repr

/-- The `models.ScanResult` record: one captured page. -/
structure ScanResult where
  PageNumber : Int
  FilePath : GoString
  FileSize : Int
  Format : GoString
  Width : Int
  Height : Int
deriving DecidableEq, Repr

/-- The constants of `models.BatchScanType`. -/
def BatchScanSingle : GoString := "single".toList
def BatchScanMultipleWithPrompt : GoString := "multiple_with_prompt".toList
def BatchScanMultipleWithDelay : GoString := "multiple_with_delay".toList

/-- The constants of `models.BatchOutputType`. -/
def BatchOutputLoad : GoString := "load".toList
def BatchOutputSingleFile : GoString := "single_file".toList
def BatchOutputMultipleFiles : GoString := "multiple_files".toList

/-- The constants of `models.SaveSeparator`. -/
def SaveSeparatorNone : GoString := "none".toList
def SaveSeparatorFilePerScan : GoString := "file_per_scan".toList
def SaveSeparatorFilePerPage : GoString := "file_per_page".toList
def SaveSeparatorPatchT : GoString := "patch_t".toList

/-- The `models.BatchSettings` record. -/
structure BatchSettings where
  ProfileDisplayName : GoString
  ScanType : GoString
  ScanCount : Int
  ScanIntervalSeconds : Float64
  OutputType : GoString
  SaveSeparator : GoString
  SavePath : GoString
  ScanParams : ScanParams
deriving DecidableEq, Repr

/-- The `models.BatchScanProgress` record. -/
structure BatchScanProgress where
  Stage : GoString
  CurrentScan : Int
  TotalScans : Int
  CurrentPage : Int
  TotalPages : Int
  Message : GoString
  PercentComplete : Int
deriving DecidableEq, Repr

/-- What one call of `driver.Scan` does: how many times it calls the
progress callback it was given, and the pair it returns. -/
structure DriverReply where
  ticks : Nat
  results : List ScanResult
  err : Option GoError
deriving DecidableEq, Repr

/-- The fields of the wall-clock time read by `time.Now()`. -/
structure Clock where
  year : Nat
  month : Nat
  day : Nat
  hour : Nat
  minute : Nat
  second : Nat
deriving DecidableEq, Repr

/-- Everything outside the orchestrator.  Each answer is indexed by the
number of earlier calls of the same kind in the run. -/
structure Env where
  /-- Whether `filepath` is the Windows one (`\` is a separator too). -/
  windows : Bool
  /-- Whether the caller passed a non-nil progress callback. -/
  hasCallback : Bool
  /-- The `k`-th call of `driver.Scan`. -/
  driver : Nat → DriverReply
  /-- The `k`-th inter-scan wait: `none` when the timer fires, `some e`
  when `ctx.Done()` is taken, `e` being `ctx.Err()`. -/
  wait : Nat → Option GoError
  /-- The `k`-th call of `time.Now()`. -/
  now : Nat → Clock
  /-- The order in which the `k`-th `range` over the replacement map visits
  its eight entries. -/
  mapOrder : Nat → Equiv.Perm (Fin 8)
  /-- The `k`-th file-system call (`MkdirAll`, `ReadFile`, `WriteFile`). -/
  io : Nat → Option GoError

/-- One outside call, or the entry or return of `output` and `save`. -/
inductive Event where
  /-- The progress callback is called. -/
  | progress (p : BatchScanProgress)
  /-- The `select` of an inter-scan wait is entered. -/
  | wait (seconds : Float64)
  /-- `driver.Scan` is called. -/
  | scan (scannerID : GoString) (params : ScanParams)
  /-- `output` is entered. -/
  | outputBegin
  /-- `save` is entered with these arguments. -/
  | saveBegin (index : Int) (images : List ScanResult)
  /-- `save` returns this error. -/
  | saveEnd (err : Option GoError)
  /-- `os.MkdirAll(filepath.Dir(savePath), 0755)`, recorded by `savePath`. -/
  | mkdirAll (savePath : GoString)
  /-- `os.ReadFile(src)`. -/
  | readFile (src : GoString)
  /-- `os.WriteFile(dst, data, 0644)` with the data read from `src`. -/
  | writeFile (dst : GoString) (src : GoString)
deriving DecidableEq, Repr

/-- The `batchState` record; `driver`, `progressCallback` and `ctx` are in
`Env`.  The last five fields are not in the source: they are the trace and
the call counters that index the answers of `Env`. -/
structure batchState where
  scannerID : GoString
  settings : BatchSettings
  scans : List (List ScanResult)
  trace : List Event
  nScan : Nat
  nWait : Nat
  nNow : Nat
  nIO : Nat
deriving DecidableEq, Repr

/-! ## String and path helpers -/

/-- The function `strings.ReplaceAll` for a non-empty `old`, scanning left to
right over non-overlapping occurrences.  The first argument counts the
characters of the current occurrence that are still to be skipped. -/
def replaceFrom (old new : GoString) : Nat → GoString → GoString
  | _, [] => []
  | skip + 1, _ :: t => replaceFrom old new skip t
  | 0, c :: t =>
    if old.isPrefixOf (c :: t) then new ++ replaceFrom old new (old.length - 1) t
    else c :: replaceFrom old new 0 t

/-- The function `strings.ReplaceAll`; with an empty `old` Go inserts `new`
before the first character and after every character. -/
def replaceAll (s old new : GoString) : GoString :=
  if old.length = 0 then new ++ s.flatMap (fun c => c :: new)
  else replaceFrom old new 0 s

/-- The functions `os.IsPathSeparator` of Unix and of Windows. -/
def isPathSeparator (windows : Bool) (c : Char) : Bool :=
  c = '/' || (windows && c = Char.ofNat 92)

/-- The backward loop of `filepath.Ext`: `rev` is the part of the path not
yet visited, last character first, `acc` the part already visited. -/
def extScan (windows : Bool) : GoString → GoString → GoString
  | [], _ => []
  | c :: rev, acc =>
    if isPathSeparator windows c then []
    else if c = '.' then c :: acc
    else extScan windows rev (c :: acc)

/-- The function `filepath.Ext`. -/
def filepathExt (windows : Bool) (path : GoString) : GoString :=
  extScan windows path.reverse []

/-- The function `strings.TrimSuffix`. -/
def trimSuffix (s suffix : GoString) : GoString :=
  if suffix.isSuffixOf s then s.take (s.length - suffix.length) else s

/-- The function `strings.ToLower` on the ASCII letters, which is all that a
comparison with `.pdf` can see. -/
def toLower (s : GoString) : GoString :=
  s.map Char.toLower

/-- Decimal digits of `n`, padded with zeros on the left to `width` (the
`appendInt` of package `time`). -/
def padInt (width n : Nat) : GoString :=
  List.replicate (width - (Nat.toDigits 10 n).length) '0' ++ Nat.toDigits 10 n

/-! ## The methods of `batchState` -/

namespace batchState

/-- The method `sendProgress`. -/
def sendProgress (s : batchState) (env : Env) (stage : GoString)
    (currentScan totalScans currentPage totalPages : Int) (message : GoString) :
    batchState :=
  if env.hasCallback = false then s
  else
    let percentComplete : Int :=
      if stage = "scanning".toList then
        if totalScans > 0 then Int.tdiv (wrapInt64 (currentScan * 50)) totalScans
        else 25
      else if stage = "saving".toList then 50 + 50
      else 0
    { s with trace := s.trace ++ [Event.progress
        { Stage := stage
          CurrentScan := currentScan
          TotalScans := totalScans
          CurrentPage := currentPage
          TotalPages := totalPages
          Message := message
          PercentComplete := percentComplete }] }

/-- The progress update that `inputOneScan` sends before the scan and from
the callback it hands to the driver. -/
def scanProgress (s : batchState) (env : Env) (scanNumber pageNumber : Int) :
    batchState :=
  if scanNumber = -1 then
    s.sendProgress env "scanning".toList 1 1 pageNumber 0
      ("Scanning page ".toList ++ fmtD pageNumber)
  else
    s.sendProgress env "scanning".toList (scanNumber + 1) s.settings.ScanCount pageNumber 0
      ("Scanning page ".toList ++ fmtD pageNumber ++ " of scan ".toList
        ++ fmtD (scanNumber + 1))

/-- The driver calls the callback of `inputOneScan` the given number of
times; each call increments `pageNumber` and sends a progress update. -/
def driverTicks (env : Env) (scanNumber : Int) : Nat → Int → batchState → batchState
  | 0, _, s => s
  | n + 1, pageNumber, s =>
    driverTicks env scanNumber n (pageNumber + 1)
      (s.scanProgress env scanNumber (pageNumber + 1))

/-- The method `inputOneScan`. -/
def inputOneScan (s : batchState) (env : Env) (scanNumber : Int) :
    batchState × Option GoError :=
  let scan : List ScanResult := []
  let pageNumber : Int := 1
  let s1 := s.scanProgress env scanNumber pageNumber
  let reply := env.driver s1.nScan
  let s2 := { s1 with
    trace := s1.trace ++ [Event.scan s1.scannerID s1.settings.ScanParams]
    nScan := s1.nScan + 1 }
  let s3 := driverTicks env scanNumber reply.ticks pageNumber s2
  match reply.err with
  | some err =>
    if scan.length > 0 then ({ s3 with scans := s3.scans ++ [scan] }, some err)
    else (s3, some err)
  | none =>
    if reply.results.length = 0 then
      (s3, some (GoError.leaf "no pages scanned".toList))
    else ({ s3 with scans := s3.scans ++ [reply.results] }, none)

/-- The loop of the `MultipleWithDelay` case of `input`, with `n` iterations
left and loop variable `i`. -/
def inputDelayLoop (env : Env) : Nat → Int → batchState → batchState × Option GoError
  | 0, _, s => (s, none)
  | n + 1, i, s =>
    let s1 := s.sendProgress env "scanning".toList (i + 1) s.settings.ScanCount 0 0
      ("Waiting for scan ".toList ++ fmtD (i + 1) ++ " of ".toList
        ++ fmtD s.settings.ScanCount)
    if i ≠ 0 then
      let s2 := { s1 with
        trace := s1.trace ++ [Event.wait s1.settings.ScanIntervalSeconds]
        nWait := s1.nWait + 1 }
      match env.wait s1.nWait with
      | some ctxErr => (s2, some ctxErr)
      | none =>
        match s2.inputOneScan env i with
        | (s3, some err) => (s3, some err)
        | (s3, none) => inputDelayLoop env n (i + 1) s3
    else
      match s1.inputOneScan env i with
      | (s3, some err) => (s3, some err)
      | (s3, none) => inputDelayLoop env n (i + 1) s3

/-- The method `input`. -/
def input (s : batchState) (env : Env) : batchState × Option GoError :=
  if s.settings.ScanType = BatchScanSingle then
    s.inputOneScan env (-1)
  else if s.settings.ScanType = BatchScanMultipleWithDelay then
    inputDelayLoop env s.settings.ScanCount.toNat 0 s
  else if s.settings.ScanType = BatchScanMultipleWithPrompt then
    let i : Int := 0
    let s1 := s.sendProgress env "scanning".toList (i + 1) (-1) 0 0
      ("Scanning batch ".toList ++ fmtD (i + 1))
    match s1.inputOneScan env i with
    | (s2, some err) => (s2, some err)
    | (s2, none) => (s2, none)
  else
    (s, some (GoError.leaf ("unknown batch scan type: ".toList ++ s.settings.ScanType)))

/-- The entries of the map `replacements` of `substitutePlaceholders`, in
the order they are written in the source. -/
def replacements (now : Clock) (index : Int) : Fin 8 → GoString × GoString
  | 0 => ("$(n)".toList, fmtD (index + 1))
  | 1 => ("$(yyyy)".toList, padInt 4 now.year)
  | 2 => ("$(yy)".toList, padInt 2 (now.year % 100))
  | 3 => ("$(MM)".toList, padInt 2 now.month)
  | 4 => ("$(dd)".toList, padInt 2 now.day)
  | 5 => ("$(hh)".toList, padInt 2 now.hour)
  | 6 => ("$(mm)".toList, padInt 2 now.minute)
  | 7 => ("$(ss)".toList, padInt 2 now.second)

/-- The entries of `replacements` in the order in which the `range` loop
visits them. -/
def visited (now : Clock) (order : Equiv.Perm (Fin 8)) (index : Int) :
    List (GoString × GoString) :=
  [0, 1, 2, 3, 4, 5, 6, 7].map (fun k => replacements now index (order k))

/-- The method `substitutePlaceholders`, given the time read by `time.Now()`
and the order in which the map is visited. -/
def substitutePlaceholders (now : Clock) (order : Equiv.Perm (Fin 8))
    (path : GoString) (index : Int) : GoString :=
  (visited now order index).foldl (fun result e => replaceAll result e.1 e.2) path

/-- The method `addIndexToPath`. -/
def addIndexToPath (windows : Bool) (path : GoString) (index : Int) : GoString :=
  let ext := filepathExt windows path
  let base := trimSuffix path ext
  base ++ "_".toList ++ fmtD (index + 1) ++ ext

/-- The method `copyFile`. -/
def copyFile (s : batchState) (env : Env) (src dst : GoString) :
    batchState × Option GoError :=
  let s1 := { s with trace := s.trace ++ [Event.readFile src], nIO := s.nIO + 1 }
  match env.io s.nIO with
  | some err =>
    (s1, some (GoError.wrap ("failed to read source file: ".toList ++ err.Error) err))
  | none =>
    let s2 := { s1 with trace := s1.trace ++ [Event.writeFile dst src], nIO := s1.nIO + 1 }
    match env.io s1.nIO with
    | some err =>
      (s2, some (GoError.wrap ("failed to write destination file: ".toList ++ err.Error) err))
    | none => (s2, none)

/-- The last loop of `save`: every image is copied to the indexed path of
its position `i`. -/
def saveIndexed (env : Env) (savePath : GoString) :
    List ScanResult → Int → batchState → batchState × Option GoError
  | [], _, s => (s, none)
  | image :: rest, i, s =>
    let indexedPath := addIndexToPath env.windows savePath i
    match s.copyFile env image.FilePath indexedPath with
    | (s1, some err) => (s1, some err)
    | (s1, none) => saveIndexed env savePath rest (i + 1) s1

/-- The body of the method `save`. -/
def saveBody (s : batchState) (env : Env) (index : Int) (images : List ScanResult) :
    batchState × Option GoError :=
  match images with
  | [] => (s, none)
  | image0 :: _ =>
    let savePath :=
      substitutePlaceholders (env.now s.nNow) (env.mapOrder s.nNow) s.settings.SavePath index
    let s1 := { s with
      nNow := s.nNow + 1
      trace := s.trace ++ [Event.mkdirAll savePath]
      nIO := s.nIO + 1 }
    match env.io s.nIO with
    | some err =>
      (s1, some (GoError.wrap ("failed to create output directory: ".toList ++ err.Error) err))
    | none =>
      let ext := toLower (filepathExt env.windows savePath)
      if ext = ".pdf".toList then
        (s1, some (GoError.leaf "PDF export not yet implemented".toList))
      else if images.length = 1 then
        s1.copyFile env image0.FilePath savePath
      else
        saveIndexed env savePath images 0 s1

/-- The method `save`, with its entry and its return recorded in the
trace. -/
def save (s : batchState) (env : Env) (index : Int) (images : List ScanResult) :
    batchState × Option GoError :=
  let s0 := { s with trace := s.trace ++ [Event.saveBegin index images] }
  let r := s0.saveBody env index images
  ({ r.1 with trace := r.1.trace ++ [Event.saveEnd r.2] }, r.2)

/-- A loop `for i, x := range xs` of `output` whose body is
`if err := s.save(i, f(x)); err != nil { return err }`; the list holds the
arguments of the calls still to make. -/
def saveEach (env : Env) : List (Int × List ScanResult) → batchState →
    batchState × Option GoError
  | [], s => (s, none)
  | (i, images) :: rest, s =>
    match s.save env i images with
    | (s1, some err) => (s1, some err)
    | (s1, none) => saveEach env rest s1

/-- The index and element pairs of a `range` loop over a slice. -/
def rangeOf {α : Type} (xs : List α) : List (Int × α) :=
  xs.enum.map (fun p => ((p.1 : Int), p.2))

/-- The method `output`, with its entry recorded in the trace. -/
def output (s : batchState) (env : Env) : batchState × Option GoError :=
  let s0 := { s with trace := s.trace ++ [Event.outputBegin] }
  let s1 := s0.sendProgress env "saving".toList 0 0 0 s0.scans.length
    "Saving scan results...".toList
  let allImages : List ScanResult := s1.scans.flatten
  if s1.settings.OutputType = BatchOutputLoad then
    (s1, none)
  else if s1.settings.OutputType = BatchOutputSingleFile then
    if allImages.length > 0 then s1.save env 0 allImages
    else (s1, none)
  else if s1.settings.OutputType = BatchOutputMultipleFiles then
    if s1.settings.SaveSeparator = SaveSeparatorFilePerScan then
      match saveEach env (rangeOf s1.scans) s1 with
      | (s2, some err) => (s2, some err)
      | (s2, none) => (s2, none)
    else if s1.settings.SaveSeparator = SaveSeparatorFilePerPage then
      match saveEach env (rangeOf (allImages.map (fun image => [image]))) s1 with
      | (s2, some err) => (s2, some err)
      | (s2, none) => (s2, none)
    else
      match saveEach env (rangeOf s1.scans) s1 with
      | (s2, some err) => (s2, some err)
      | (s2, none) => (s2, none)
  else
    (s1, some (GoError.leaf ("unknown output type: ".toList ++ s1.settings.OutputType)))

/-- The method `do`. -/
def do_ (s : batchState) (env : Env) : List (List ScanResult) × Option GoError × batchState :=
  match s.input env with
  | (s1, some err) =>
    match s1.output env with
    | (s2, some saveErr) =>
      (s2.scans, some (GoError.wrap ("input failed: ".toList ++ err.Error
        ++ ", output failed: ".toList ++ saveErr.Error) err), s2)
    | (s2, none) => (s2.scans, some err, s2)
  | (s1, none) =>
    match s1.output env with
    | (s2, some err) => (s2.scans, some err, s2)
    | (s2, none) => (s2.scans, none, s2)

end batchState

/-- The method `PerformBatchScan`: the two values it returns and the final
state, whose trace lists the outside calls of the run. -/
def PerformBatchScan (env : Env) (scannerID : GoString) (settings : BatchSettings) :
    List (List ScanResult) × Option GoError × batchState :=
  let state : batchState :=
    { scannerID := scannerID
      settings := settings
      scans := []
      trace := []
      nScan := 0
      nWait := 0
      nNow := 0
      nIO := 0 }
  state.do_ env

/-! ## Observations on traces -/

/-- Calls of the progress callback. -/
def isProgress : Event → Bool
  | .progress _ => true
  | _ => false

/-- Inter-scan waits and calls of `driver.Scan`. -/
def isCall : Event → Bool
  | .wait _ => true
  | .scan _ _ => true
  | _ => false

/-- Calls of `driver.Scan`. -/
def isScan : Event → Bool
  | .scan _ _ => true
  | _ => false

/-- Inter-scan waits. -/
def isWait : Event → Bool
  | .wait _ => true
  | _ => false

/-- Entries of `output`. -/
def isOutputBegin : Event → Bool
  | .outputBegin => true
  | _ => false

/-- Entries of `save`. -/
def isSaveBegin : Event → Bool
  | .saveBegin _ _ => true
  | _ => false

/-- Entries and returns of `save`. -/
def isSaveMark : Event → Bool
  | .saveBegin _ _ => true
  | .saveEnd _ => true
  | _ => false

/-- Calls of `os.ReadFile` and `os.WriteFile`. -/
def isCopy : Event → Bool
  | .readFile _ => true
  | .writeFile _ _ => true
  | _ => false

/-- Calls of `os.WriteFile`. -/
def isWrite : Event → Bool
  | .writeFile _ _ => true
  | _ => false

/-- File-system calls. -/
def isFs : Event → Bool
  | .mkdirAll _ => true
  | .readFile _ => true
  | .writeFile _ _ => true
  | _ => false

/-- A trace segment made of progress updates only. -/
def OnlyProgress (l : List Event) : Prop := ∀ e ∈ l, isProgress e = true

/-- The error `inputOneScan` returns for a reply of the driver. -/
def oneScanErr (r : DriverReply) : Option GoError :=
  match r.err with
  | some e => some e
  | none =>
    if r.results.length = 0 then some (GoError.leaf "no pages scanned".toList) else none

/-- The batches `inputOneScan` appends to `scans` for a reply of the driver. -/
def oneScanBatch (r : DriverReply) : List (List ScanResult) :=
  match r.err with
  | some _ => []
  | none => if r.results.length = 0 then [] else [r.results]

/-- The waits and scans of `n` iterations of the delay loop, each iteration
waiting and then scanning. -/
def laterCalls (s : batchState) (n : Nat) : List Event :=
  (List.replicate n
    [Event.wait s.settings.ScanIntervalSeconds,
     Event.scan s.scannerID s.settings.ScanParams]).flatten

/-- The entries and returns of `save` for the calls `calls` that returned
`rs`, call by call. -/
def saveMarks (calls : List (Int × List ScanResult)) (rs : List (Option GoError)) :
    List Event :=
  (List.zipWith (fun c r => [Event.saveBegin c.1 c.2, Event.saveEnd r]) calls rs).flatten

/-- The paths resolved by `save`, in the order of the `MkdirAll` calls made
for them. -/
def resolvedPaths (l : List Event) : List GoString :=
  l.filterMap (fun e => match e with
    | .mkdirAll path => some path
    | _ => none)

/-- The placeholders of `substitutePlaceholders` that stand for a part of
the current time. -/
def timePlaceholders : List GoString :=
  ["$(yyyy)".toList, "$(yy)".toList, "$(MM)".toList, "$(dd)".toList,
   "$(hh)".toList, "$(mm)".toList, "$(ss)".toList]

/-- The initial state built by `PerformBatchScan`. -/
def initialState (scannerID : GoString) (settings : BatchSettings) : batchState :=
  { scannerID := scannerID
    settings := settings
    scans := []
    trace := []
    nScan := 0
    nWait := 0
    nNow := 0
    nIO := 0 }

/-! ## Definitions used by the statements -/

/-- The `WriteFile` calls of the last loop of `save` when no call fails:
the image at position `k` is written to the indexed path of `k`. -/
def indexedWrites (windows : Bool) (savePath : GoString) (images : List ScanResult)
    (k : Nat) : List Event :=
  (images.enumFrom k).map
    (fun p => Event.writeFile (batchState.addIndexToPath windows savePath (p.1 : Int)) p.2.FilePath)

/-- The path `save` resolves in state `s` for the index `index`. -/
def targetPath (env : Env) (s : batchState) (index : Int) : GoString :=
  batchState.substitutePlaceholders (env.now s.nNow) (env.mapOrder s.nNow)
    s.settings.SavePath index

/-- The `WriteFile` calls of `save` for a target that is not a PDF, when no
call fails. -/
def expectedWrites (windows : Bool) (savePath : GoString) (images : List ScanResult) :
    List Event :=
  if images.length = 1 then images.map (fun p => Event.writeFile savePath p.FilePath)
  else indexedWrites windows savePath images 0

namespace batchState

/-- The calls of `save` that `output` makes for `MultipleFiles`: one per
page for the separator `FilePerPage`, one per batch for any other one. -/
def multipleCalls (s : batchState) : List (Int × List ScanResult) :=
  if s.settings.SaveSeparator = SaveSeparatorFilePerPage then
    rangeOf (s.scans.flatten.map (fun image => [image]))
  else rangeOf s.scans

end batchState

/-- The number a list of decimal digits stands for, after the digits read so
far gave `a`. -/
def digitsValue (a : Nat) (l : List Char) : Nat :=
  l.foldl (fun v c => 10 * v + (c.toNat - 48)) a

/-- A character that is neither a path separator nor a dot. -/
def plainChar (windows : Bool) (c : Char) : Prop :=
  isPathSeparator windows c = false ∧ c ≠ '.'

/-- A sample page. -/
def demoPage (n : Int) (path : GoString) : ScanResult :=
  { PageNumber := n, FilePath := path, FileSize := 1024, Format := "jpg".toList,
    Width := 2480, Height := 3508 }

/-- Three sample pages, in capture order. -/
def demoPages : List ScanResult :=
  [demoPage 1 "p1.jpg".toList, demoPage 2 "p2.jpg".toList, demoPage 3 "p3.jpg".toList]

/-- Sample scan parameters. -/
def demoParams : ScanParams :=
  { Resolution := 300, ColorMode := "Color".toList, Format := "JPEG".toList,
    UseDuplex := false, UseFeeder := true, PageCount := 0, PageSize := "A4".toList,
    PageWidth := 0, PageHeight := 0, PageAlign := [], WiaOffsetWidth := false,
    Brightness := 0, Contrast := 0, ScaleRatio := 1, StretchToPageSize := false,
    CropToPageSize := false, MaxQuality := false, JpegQuality := 75,
    ExcludeBlankPages := false, BlankPageWhiteThreshold := 70,
    BlankPageCoverageThreshold := 15, AutoDeskew := false, RotateDegrees := ⟨0⟩,
    FlipDuplexedPages := false, Width := 0, Height := 0 }

/-- Sample settings with the given scan type, count, output type, separator
and save path. -/
def demoSettings (scanType : GoString) (scanCount : Int) (outputType separator
    savePath : GoString) : BatchSettings :=
  { ProfileDisplayName := [], ScanType := scanType, ScanCount := scanCount,
    ScanIntervalSeconds := ⟨0⟩, OutputType := outputType, SaveSeparator := separator,
    SavePath := savePath, ScanParams := demoParams }

/-- A device that yields the three sample pages at every call, calling the
progress callback twice, with a file system and a context that never fail;
the call number `failAt` of the driver fails when it is given. -/
def demoEnv (failAt : Option Nat) : Env :=
  { windows := false
    hasCallback := true
    driver := fun k =>
      if failAt = some k then ⟨0, [], some (GoError.leaf "paper jam".toList)⟩
      else ⟨2, demoPages, none⟩
    wait := fun _ => none
    now := fun _ => ⟨2024, 3, 9, 7, 5, 1⟩
    mapOrder := fun _ => Equiv.refl _
    io := fun _ => none }

/-- A state holding two batches, of two pages and of one page. -/
def demoState (settings : BatchSettings) : batchState :=
  { initialState [] settings with
    scans := [[demoPage 1 "p1.jpg".toList, demoPage 2 "p2.jpg".toList],
      [demoPage 1 "p3.jpg".toList]] }

/-- A run of three scans with a delay, results loaded. -/
def delayDemo : batchState :=
  initialState [] (demoSettings BatchScanMultipleWithDelay 3 BatchOutputLoad SaveSeparatorNone [])

/-- A single scan whose settings ask for seven scans. -/
def singleDemo : batchState :=
  initialState [] (demoSettings BatchScanSingle 7 BatchOutputLoad SaveSeparatorNone [])

/-- Two batches to save as one file. -/
def singleFileDemo : batchState :=
  demoState (demoSettings BatchScanSingle 0 BatchOutputSingleFile SaveSeparatorNone
    "scan.png".toList)

/-- Two batches, of sizes 2 and 1, to save with one file per page. -/
def perPageDemo : batchState :=
  demoState (demoSettings BatchScanSingle 0 BatchOutputMultipleFiles SaveSeparatorFilePerPage
    "out_$(n).png".toList)

/-- Two batches, of sizes 2 and 1, to save with one file per page under a
path with the extension `.pdf`. -/
def perPagePdfDemo : batchState :=
  demoState (demoSettings BatchScanSingle 0 BatchOutputMultipleFiles SaveSeparatorFilePerPage
    "out_$(n).pdf".toList)

/-- The settings of the scenario of C9: a single scan saved as the one file
`out_$(n).pdf`. -/
def pdfSettings : BatchSettings :=
  demoSettings BatchScanSingle 0 BatchOutputSingleFile SaveSeparatorNone "out_$(n).pdf".toList

/-- A run whose scan type and output type are not known ones. -/
def unknownDemo : batchState :=
  initialState [] (demoSettings "burst".toList 0 "print".toList SaveSeparatorNone [])

/-- One pass over a text from left to right that replaces, wherever the key
of an entry begins, that key by the value of the entry and leaves every
other character as it is.  The first argument counts the characters of the
current key that are still to be skipped. -/
def substituteFrom (entries : List (GoString × GoString)) : Nat → GoString → GoString
  | _, [] => []
  | skip + 1, _ :: t => substituteFrom entries skip t
  | 0, c :: t =>
    match entries.find? (fun e => e.1.isPrefixOf (c :: t)) with
    | some e => e.2 ++ substituteFrom entries (e.1.length - 1) t
    | none => c :: substituteFrom entries 0 t

/-- The text with every occurrence of every key replaced by its value, all
occurrences at once. -/
def substituteAll (entries : List (GoString × GoString)) (s : GoString) : GoString :=
  substituteFrom entries 0 s

/-- The table of placeholders and their values for one file, as the
specification lists them. -/
def placeholderTable (now : Clock) (index : Int) : List (GoString × GoString) :=
  [("$(n)".toList, fmtD (index + 1)),
   ("$(yyyy)".toList, padInt 4 now.year),
   ("$(yy)".toList, padInt 2 (now.year % 100)),
   ("$(MM)".toList, padInt 2 now.month),
   ("$(dd)".toList, padInt 2 now.day),
   ("$(hh)".toList, padInt 2 now.hour),
   ("$(mm)".toList, padInt 2 now.minute),
   ("$(ss)".toList, padInt 2 now.second)]

/-- A placeholder: a dollar sign followed by characters that are neither a
dollar sign, nor a digit, nor a minus sign. -/
def IsKey (k : GoString) : Prop :=
  ∃ rest, k = '$' :: rest ∧ ∀ c ∈ rest, c ≠ '$' ∧ c.isDigit = false ∧ c ≠ '-'

/-- A value: a non-empty text of digits and minus signs. -/
def IsValue (v : GoString) : Prop :=
  v ≠ [] ∧ ∀ c ∈ v, c.isDigit = true ∨ c = '-'

/-- A table of placeholders with values, no key being the beginning of the
key of another entry. -/
def IsTable (entries : List (GoString × GoString)) : Prop :=
  (∀ e ∈ entries, IsKey e.1 ∧ IsValue e.2) ∧
  entries.Pairwise (fun e f => ¬ e.1 <+: f.1 ∧ ¬ f.1 <+: e.1)

/-! ## The WIA driver (`internal/scanner/driver_windows.go`)

`WindowsDriver.Scan` and `scanADFBatch`.  The device, the context, the
clock, the files and the scheduling of `select` are an environment of
answers; a run records how many times `Transfer` was called, the values
given to the progress callback and the post-processing steps applied. -/

/-- What one call of the WIA method `Transfer` gives. -/
inductive TransferReply where
  /-- A page was captured. -/
  | image
  /-- The call succeeded and the image is nil. -/
  | nilImage
  /-- The call returned this error. -/
  | failed (err : GoError)
deriving DecidableEq, Repr

/-- The cases of the `select` of the collection loop of `scanADFBatch`. -/
inductive SelectCase where
  | result
  | error
  | done
deriving DecidableEq, Repr

/-- The post-processing steps of a captured page. -/
inductive PostStep where
  | blankCheck
  | scaleRatio
  | cropToPageSize
  | imageQuality
deriving DecidableEq, Repr

/-- The `BlankPageDetector` record. -/
structure BlankPageDetector where
  WhiteThreshold : Int
  CoverageThreshold : Int
deriving DecidableEq, Repr

/-- Everything outside `WindowsDriver.Scan`. -/
structure WiaEnv where
  /-- Whether the caller passed a non-nil progress callback. -/
  hasCallback : Bool
  /-- The error, if any, with which `Scan` returns before it creates the
  output directory and captures (scanner lookup, busy scanner, connection,
  item and property access, `MkdirAll`). -/
  prelude : Option GoError
  /-- The time read by `time.Now()` for the base timestamp. -/
  now : Clock
  /-- The call of `Transfer` in iteration `i` of the capture loop (the only
  call, `i = 0`, outside feeder mode). -/
  transfer : Nat → TransferReply
  /-- Whether `ctx.Done()` is ready at the top of iteration `i` of the
  capture loop. -/
  ctxDone : Nat → Bool
  /-- The value of `ctx.Err()` once the context is done. -/
  ctxErr : GoError
  /-- The error of `SaveFile` for the page with this number (`0` for the
  single page outside feeder mode). -/
  saveFile : Nat → Option GoError
  /-- The answer of `isBlankPage` on the file of the page with this number:
  `none` when it returns an error. -/
  isBlankPage : BlankPageDetector → Nat → Option Bool
  /-- The size `os.Stat` reports for the file of the page with this number
  after post-processing, `0` when `os.Stat` fails. -/
  fileSize : Nat → Int
  /-- The case the scheduler prefers at `select` number `i` of the
  collection loop when that case is ready. -/
  choose : Nat → SelectCase
  /-- Whether `ctx.Done()` is ready at `select` number `i` of the collection
  loop. -/
  ctxDoneCollect : Nat → Bool
  /-- Whether the context is done at some time after a `select` of the
  collection loop started to wait with no case ready. -/
  ctxDoneLater : Bool

/-- How a call ends. -/
inductive ScanOutcome where
  /-- The call returns this pair. -/
  | returned (results : List ScanResult) (err : Option GoError)
  /-- The call waits for ever in a `select`. -/
  | blocked
  /-- The call panics. -/
  | panicked
deriving DecidableEq, Repr

/-- A run of `Scan`: how it ends, the number of calls of `Transfer`, the
values passed to the progress callback in order, and the post-processing
steps applied, each with the number of its page, in order. -/
structure ScanRun where
  outcome : ScanOutcome
  transfers : Nat
  progress : List Int
  steps : List (Nat × PostStep)
deriving DecidableEq, Repr

namespace WindowsDriver

def WIA_ERROR_PAPER_EMPTY : Nat := 0x80210003
def WIA_ERROR_PAPER_JAM : Nat := 0x80210002
def WIA_ERROR_OFFLINE : Nat := 0x80210005
def WIA_ERROR_BUSY : Nat := 0x80210006
def WIA_ERROR_WARMING_UP : Nat := 0x80210007
def WIA_ERROR_COVER_OPEN : Nat := 0x80210016
def WIA_ERROR_NO_MORE_ITEMS : Nat := 0x00210001

/-- The verb `%X` of `fmt` applied to a `uint32`. -/
def fmtX (n : Nat) : GoString :=
  (Nat.toDigits 16 n).map Char.toUpper

/-- The function `isWiaError` on a non-nil error. -/
def isWiaError (err : GoError) (errorCode : Nat) : Bool :=
  let errMsg := err.Error
  let hexCode := "0x".toList ++ fmtX errorCode
  decide (errMsg.length > 0) &&
    (errMsg == hexCode ||
      (decide (errMsg.length > hexCode.length) &&
        errMsg.drop (errMsg.length - hexCode.length) == hexCode))

/-- The function `handleWiaError` on a non-nil error. -/
def handleWiaError (err : GoError) : GoError :=
  if isWiaError err WIA_ERROR_PAPER_EMPTY then
    GoError.leaf "feeder is empty - no more pages to scan".toList
  else if isWiaError err WIA_ERROR_PAPER_JAM then GoError.leaf "paper jam detected".toList
  else if isWiaError err WIA_ERROR_OFFLINE then GoError.leaf "scanner is offline".toList
  else if isWiaError err WIA_ERROR_BUSY then GoError.leaf "scanner is busy".toList
  else if isWiaError err WIA_ERROR_WARMING_UP then GoError.leaf "scanner is warming up".toList
  else if isWiaError err WIA_ERROR_COVER_OPEN then GoError.leaf "scanner cover is open".toList
  else if isWiaError err WIA_ERROR_NO_MORE_ITEMS then
    GoError.leaf "no more pages available".toList
  else err

/-- The base timestamp `time.Now().Format("20060102_150405")`. -/
def baseTimestamp (c : Clock) : GoString :=
  padInt 4 c.year ++ padInt 2 c.month ++ padInt 2 c.day ++ "_".toList ++
    padInt 2 c.hour ++ padInt 2 c.minute ++ padInt 2 c.second

/-- The path `filepath.Join("./scans", filename)` on Windows, for a file
name without separators and dots-only elements. -/
def joinScans (filename : GoString) : GoString :=
  "scans".toList ++ [Char.ofNat 92] ++ filename

/-- The file of a page of a feeder scan. -/
def pagePath (env : WiaEnv) (pageNum : Nat) : GoString :=
  joinScans ("scan_".toList ++ baseTimestamp env.now ++ "_page_".toList ++
    fmtD pageNum ++ ".jpg".toList)

/-- The detector that the worker of `scanADFBatch` builds. -/
def detectorOf (params : ScanParams) : BlankPageDetector :=
  { WhiteThreshold :=
      if params.BlankPageWhiteThreshold = 0 then 70 else params.BlankPageWhiteThreshold
    CoverageThreshold :=
      if params.BlankPageCoverageThreshold = 0 then 15
      else params.BlankPageCoverageThreshold }

/-- What the worker of `scanADFBatch` sends for one task. -/
inductive WorkerMsg where
  /-- An error on `errChan`. -/
  | failed (err : GoError)
  /-- Nothing: the page was blank and its file removed. -/
  | excluded
  /-- A page on `resultChan`. -/
  | page (result : ScanResult)
deriving DecidableEq, Repr

/-- The page that the worker reports for a task. -/
def pageResult (env : WiaEnv) (params : ScanParams) (pageNum : Nat) : ScanResult :=
  { PageNumber := pageNum
    FilePath := pagePath env pageNum
    FileSize := env.fileSize pageNum
    Format := "JPEG".toList
    Width := params.Width
    Height := params.Height }

/-- The steps the worker applies after the blank-page check, in its order. -/
def workerSteps (params : ScanParams) : List PostStep :=
  (if params.ScaleRatio > 1 then [PostStep.scaleRatio] else []) ++
  (if params.CropToPageSize || params.StretchToPageSize then [PostStep.cropToPageSize]
    else []) ++
  (if params.MaxQuality || decide (params.JpegQuality > 0) then [PostStep.imageQuality]
    else [])

/-- One iteration of the worker goroutine of `scanADFBatch`: the message it
sends and the steps it applies. -/
def saveWorker (env : WiaEnv) (params : ScanParams) (pageNum : Nat) :
    WorkerMsg × List PostStep :=
  match env.saveFile pageNum with
  | some err =>
    (WorkerMsg.failed (GoError.wrap ("failed to save page ".toList ++ fmtD pageNum ++
      ": ".toList ++ err.Error) err), [])
  | none =>
    if params.ExcludeBlankPages then
      match env.isBlankPage (detectorOf params) pageNum with
      | some true => (WorkerMsg.excluded, [PostStep.blankCheck])
      | _ => (WorkerMsg.page (pageResult env params pageNum),
          PostStep.blankCheck :: workerSteps params)
    else (WorkerMsg.page (pageResult env params pageNum), workerSteps params)

/-- The variables of the capture loop of `scanADFBatch`. -/
structure Capture where
  scannedPages : Nat
  transfers : Nat
  progress : List Int
deriving DecidableEq, Repr

/-- The capture loop of `scanADFBatch` from iteration `i` with the given
number of iterations left.  The second component is the error with which
the function returns from inside the loop (with nil results), `none` when
the loop is left by its condition or by `break`. -/
def captureLoop (env : WiaEnv) (pageCount : Int) :
    Nat → Nat → Capture → Capture × Option GoError
  | 0, _, c => (c, none)
  | n + 1, i, c =>
    if env.ctxDone i then (c, some env.ctxErr)
    else
      let c1 : Capture :=
        if env.hasCallback && decide (pageCount > 0) then
          { c with progress := c.progress ++ [Int.tdiv (wrapInt64 ((i : Int) * 50)) pageCount] }
        else c
      let c2 : Capture := { c1 with transfers := c1.transfers + 1 }
      match env.transfer i with
      | TransferReply.failed err =>
        if isWiaError err WIA_ERROR_PAPER_EMPTY then (c2, none)
        else if isWiaError err WIA_ERROR_NO_MORE_ITEMS then (c2, none)
        else if i = 0 then (c2, some (handleWiaError err))
        else (c2, none)
      | TransferReply.nilImage => (c2, none)
      | TransferReply.image =>
        captureLoop env pageCount n (i + 1) { c2 with scannedPages := c2.scannedPages + 1 }

/-- What a `select` of the collection loop does. -/
inductive Selected where
  | result (r : ScanResult) (rest : List ScanResult)
  | error (err : GoError)
  | done
  | wait
deriving DecidableEq, Repr

/-- The `select` number `i` of the collection loop: the case the scheduler
prefers when it is ready, otherwise a ready case, otherwise a wait. -/
def selectCase (env : WiaEnv) (i : Nat) (resultChan : List ScanResult)
    (errChan : List GoError) : Selected :=
  match env.choose i, resultChan, errChan, env.ctxDoneCollect i with
  | SelectCase.result, r :: rest, _, _ => Selected.result r rest
  | SelectCase.error, _, e :: _, _ => Selected.error e
  | SelectCase.done, _, _, true => Selected.done
  | _, r :: rest, _, _ => Selected.result r rest
  | _, [], e :: _, _ => Selected.error e
  | _, [], [], true => Selected.done
  | _, [], [], false => Selected.wait

/-- The collection loop of `scanADFBatch` from iteration `i` with the given
number of iterations left, and what follows it. -/
def collectLoop (env : WiaEnv) (scannedPages : Nat) :
    Nat → Nat → List ScanResult → List GoError → List ScanResult → List Int →
      ScanOutcome × List Int
  | 0, _, _, _, results, progress =>
    (ScanOutcome.returned results none,
      if env.hasCallback then progress ++ [100] else progress)
  | n + 1, i, resultChan, errChan, results, progress =>
    match selectCase env i resultChan errChan with
    | Selected.result r rest =>
      collectLoop env scannedPages n (i + 1) rest errChan (results ++ [r])
        (if env.hasCallback then
          progress ++ [50 + Int.tdiv (wrapInt64 (((i : Int) + 1) * 50)) scannedPages]
        else progress)
    | Selected.error err => (ScanOutcome.returned results (some err), progress)
    | Selected.done => (ScanOutcome.returned results (some env.ctxErr), progress)
    | Selected.wait =>
      if env.ctxDoneLater then (ScanOutcome.returned results (some env.ctxErr), progress)
      else (ScanOutcome.blocked, progress)

/-- The pages put on `resultChan`. -/
def resultsOf (msgs : List WorkerMsg) : List ScanResult :=
  msgs.filterMap (fun m => match m with
    | WorkerMsg.page r => some r
    | _ => none)

/-- The errors put on `errChan`. -/
def errorsOf (msgs : List WorkerMsg) : List GoError :=
  msgs.filterMap (fun m => match m with
    | WorkerMsg.failed e => some e
    | _ => none)

/-- The numbers of the pages captured, in capture order. -/
def pageNumbers (scannedPages : Nat) : List Nat :=
  (List.range scannedPages).map (fun j => j + 1)

/-- The method `scanADFBatch`. -/
def scanADFBatch (env : WiaEnv) (pageCount : Int) (params : ScanParams) : ScanRun :=
  let maxPages : Int := if pageCount = 0 then 9999 else pageCount
  if maxPages < 0 then
    { outcome := ScanOutcome.panicked, transfers := 0, progress := [], steps := [] }
  else
    let cap := captureLoop env pageCount maxPages.toNat 0
      { scannedPages := 0, transfers := 0, progress := [] }
    let pages := pageNumbers cap.1.scannedPages
    let steps := pages.flatMap (fun p => (saveWorker env params p).2.map (fun st => (p, st)))
    let msgs := pages.map (fun p => (saveWorker env params p).1)
    match cap.2 with
    | some err =>
      { outcome := ScanOutcome.returned [] (some err), transfers := cap.1.transfers,
        progress := cap.1.progress, steps := steps }
    | none =>
      let fin := collectLoop env cap.1.scannedPages cap.1.scannedPages 0
        (resultsOf msgs) (errorsOf msgs) [] cap.1.progress
      { outcome := fin.1, transfers := cap.1.transfers, progress := fin.2, steps := steps }

/-- The steps `Scan` applies to the single page outside feeder mode, in its
order. -/
def flatbedSteps (params : ScanParams) : List PostStep :=
  (if params.MaxQuality || decide (params.JpegQuality > 0) then [PostStep.imageQuality]
    else []) ++
  (if params.ScaleRatio > 1 then [PostStep.scaleRatio] else []) ++
  (if params.CropToPageSize || params.StretchToPageSize then [PostStep.cropToPageSize]
    else [])

/-- The method `Scan`. -/
def Scan (env : WiaEnv) (params : ScanParams) : ScanRun :=
  match env.prelude with
  | some err =>
    { outcome := ScanOutcome.returned [] (some err), transfers := 0, progress := [],
      steps := [] }
  | none =>
    let pageCount : Int := if params.PageCount = 0 then 1 else params.PageCount
    if params.UseFeeder then scanADFBatch env pageCount params
    else
      match env.transfer 0 with
      | TransferReply.failed err =>
        { outcome := ScanOutcome.returned []
            (some (GoError.wrap ("failed to transfer image: ".toList ++ err.Error) err)),
          transfers := 1, progress := [], steps := [] }
      | TransferReply.nilImage =>
        { outcome := ScanOutcome.panicked, transfers := 1, progress := [], steps := [] }
      | TransferReply.image =>
        match env.saveFile 0 with
        | some err =>
          { outcome := ScanOutcome.returned []
              (some (GoError.wrap ("failed to save image: ".toList ++ err.Error) err)),
            transfers := 1, progress := [], steps := [] }
        | none =>
          { outcome := ScanOutcome.returned
              [{ PageNumber := 1
                 FilePath := joinScans ("scan_".toList ++ baseTimestamp env.now ++
                   ".jpg".toList)
                 FileSize := env.fileSize 0
                 Format := "JPEG".toList
                 Width := params.Width
                 Height := params.Height }] none
            transfers := 1
            progress := if env.hasCallback then [100] else []
            steps := (flatbedSteps params).map (fun st => (0, st)) }

end WindowsDriver

/-! ## The SANE and ImageCaptureCore drivers (`driver_linux.go`,
`driver_darwin.go`), whose `Scan` methods are the same code -/

/-- Everything outside `LinuxDriver.Scan` and `DarwinDriver.Scan`. -/
structure PosixEnv where
  /-- Whether the caller passed a non-nil progress callback. -/
  hasCallback : Bool
  /-- The error, if any, with which `Scan` returns before its loop (scanner
  lookup, busy scanner). -/
  prelude : Option GoError
  /-- Whether `ctx.Done()` is ready at the top of iteration `i`. -/
  ctxDone : Nat → Bool
  /-- The value of `ctx.Err()` once the context is done. -/
  ctxErr : GoError
  /-- The time read by `time.Now()` in iteration `i`. -/
  now : Nat → Clock

namespace PosixDriver

/-- The loop of `Scan` from iteration `i` with the given number of
iterations left. -/
def scanLoop (env : PosixEnv) (pageCount : Int) (params : ScanParams) :
    Nat → Nat → List ScanResult → List Int → ScanOutcome × List Int
  | 0, _, results, progress =>
    (ScanOutcome.returned results none,
      if env.hasCallback then progress ++ [100] else progress)
  | n + 1, i, results, progress =>
    if env.ctxDone i then (ScanOutcome.returned [] (some env.ctxErr), progress)
    else
      scanLoop env pageCount params n (i + 1)
        (results ++
          [{ PageNumber := (i : Int) + 1
             FilePath := "scan_".toList ++ WindowsDriver.baseTimestamp (env.now i) ++
               "_page_".toList ++ fmtD ((i : Int) + 1) ++ ".".toList ++ params.Format
             FileSize := 1024 * 1024
             Format := params.Format
             Width := params.Width
             Height := params.Height }])
        (if env.hasCallback then
          progress ++ [Int.tdiv (wrapInt64 ((i : Int) * 100)) pageCount]
        else progress)

/-- The method `Scan` of `LinuxDriver` and of `DarwinDriver`. -/
def Scan (env : PosixEnv) (params : ScanParams) : ScanRun :=
  match env.prelude with
  | some err =>
    { outcome := ScanOutcome.returned [] (some err), transfers := 0, progress := [],
      steps := [] }
  | none =>
    let pageCount : Int := if params.PageCount = 0 then 1 else params.PageCount
    let fin := scanLoop env pageCount params pageCount.toNat 0 [] []
    { outcome := fin.1, transfers := 0, progress := fin.2, steps := [] }

end PosixDriver

namespace WindowsDriver

/-- The error of a feeder that ran out of paper. -/
def paperEmpty : GoError := GoError.leaf "wia error 0x80210003".toList

/-- The error of a paper jam. -/
def paperJam : GoError := GoError.leaf "wia error 0x80210002".toList

/-- The sample parameters with the given page count. -/
def feederParams (pageCount : Int) : ScanParams :=
  { demoParams with PageCount := pageCount }

/-- A feeder that holds the given number of sheets: the first calls of
`Transfer` capture a page each, every later call gives `last`.  Nothing else
fails, the context is never done, and the scheduler prefers `choose`. -/
def feederEnv (sheets : Nat) (last : TransferReply) (choose : SelectCase) : WiaEnv :=
  { hasCallback := true
    prelude := none
    now := ⟨2024, 3, 9, 7, 5, 1⟩
    transfer := fun i => if i < sheets then TransferReply.image else last
    ctxDone := fun _ => false
    ctxErr := GoError.leaf "context canceled".toList
    saveFile := fun _ => none
    isBlankPage := fun _ _ => some false
    fileSize := fun _ => 1024
    choose := fun _ => choose
    ctxDoneCollect := fun _ => false
    ctxDoneLater := false }

/-- The feeder of `feederEnv` with a context that is done from the top of
iteration `at_` of the capture loop on. -/
def cancelledEnv (sheets at_ : Nat) : WiaEnv :=
  { feederEnv sheets (TransferReply.failed paperEmpty) SelectCase.result with
    ctxDone := fun i => decide (at_ ≤ i)
    ctxDoneCollect := fun _ => true
    ctxDoneLater := true }

/-- A feeder with the given number of sheets that reports a paper jam after
them, with a context that is done once the capture loop is over; the
scheduler prefers `ctx.Done()`. -/
def lateCancelEnv (sheets : Nat) : WiaEnv :=
  { feederEnv sheets (TransferReply.failed paperJam) SelectCase.done with
    ctxDoneCollect := fun _ => true
    ctxDoneLater := true }

/-- The feeder of `feederEnv` with `SaveFile` failing for one page. -/
def saveFailEnv (sheets page : Nat) (choose : SelectCase) : WiaEnv :=
  { feederEnv sheets (TransferReply.failed paperEmpty) choose with
    saveFile := fun p => if p = page then some (GoError.leaf "disk full".toList) else none }

end WindowsDriver

/-! ## Floating point -/

/-- The arithmetic of `float64`, as far as the driver depends on it.  An
operation, a conversion from an integer and a constant each give `rnd` of
the exact value.  A dyadic number with a numerator of at most 53 bits is a
`float64`, and inside the normal range rounding changes a value by at most
one part in `2 ^ 52`.  Nothing else is assumed of `rnd`. -/
structure Float64Ops where
  rnd : ℚ → ℚ
  exact : ∀ (n : Int) (k : Nat), |n| ≤ 2 ^ 53 → k ≤ 1000 →
    rnd ((n : ℚ) / 2 ^ k) = (n : ℚ) / 2 ^ k
  accurate : ∀ q : ℚ, 1 / 2 ^ 1000 ≤ |q| → |q| ≤ 2 ^ 1000 → |rnd q - q| ≤ |q| / 2 ^ 52

/-- Arithmetic without rounding errors is such an arithmetic. -/
def exactOps : Float64Ops :=
  { rnd := fun q => q
    exact := fun _ _ _ _ => rfl
    accurate := fun q _ _ => by
      rw [sub_self, abs_zero]
      exact div_nonneg (abs_nonneg q) (by norm_num) }

/-- The conversion `int(x)` of a `float64` inside the range of `int`:
the fraction is discarded. -/
def truncate (x : ℚ) : Int :=
  if 0 ≤ x then ⌊x⌋ else ⌈x⌉

/-- The value `a` is `b` up to `k` roundings: it lies between
`b * (1 - 2⁻⁵²) ^ k` and `b * (1 + 2⁻⁵²) ^ k`. -/
def RelErr (k : Nat) (a b : ℚ) : Prop :=
  b * (1 - 1 / 2 ^ 52) ^ k ≤ a ∧ a ≤ b * (1 + 1 / 2 ^ 52) ^ k

/-! ## Blank-page detection and page size in pixels
(`isBlankPage`, `applyCropToPageSize` in `driver_windows.go`) -/

/-- A colour as `RGBA()` returns it: three channel values of 16 bits. -/
structure Pixel where
  r : Nat
  g : Nat
  b : Nat
deriving DecidableEq, Repr

/-- A decoded image: its bounds (`Min` inclusive, `Max` exclusive) and its
colour at each point. -/
structure Image where
  minX : Int
  minY : Int
  maxX : Int
  maxY : Int
  colorAt : Int → Int → Pixel

/-- The rectangle of pixels that `isBlankPage` scans. -/
structure Region where
  startX : Int
  endX : Int
  startY : Int
  endY : Int
deriving DecidableEq, Repr

/-- The values `a, a + 1, ..., b - 1` of a loop `for v := a; v < b; v++`. -/
def span (a b : Int) : List Int :=
  (List.range (b - a).toNat).map (fun (j : Nat) => a + (j : Int))

/-- The number of pixels of a rectangle whose colour satisfies `p`, counted
row by row. -/
def countPixels (img : Image) (rg : Region) (p : Pixel → Bool) : Nat :=
  ((span rg.startY rg.endY).map
    (fun y => (span rg.startX rg.endX).countP (fun x => p (img.colorAt x y)))).sum

namespace BlankPageDetector

/-- The conversion `uint8(v >> 8)` of a channel value. -/
def channel8 (v : Nat) : Int :=
  (((v >>> 8) % 256 : Nat) : Int)

/-- The luma of a pixel, times 1000. -/
def luma (p : Pixel) : Int :=
  channel8 p.r * 299 + channel8 p.g * 587 + channel8 p.b * 114

/-- The value `whiteThresholdAdjusted` of `isBlankPage`. -/
def whiteThresholdAdjusted (fa : Float64Ops) (d : BlankPageDetector) : Int :=
  1 + truncate (fa.rnd (fa.rnd (fa.rnd (d.WhiteThreshold : ℚ) / 100) * 254))

/-- The value `coverageThresholdAdjusted` of `isBlankPage`. -/
def coverageThresholdAdjusted (fa : Float64Ops) (d : BlankPageDetector) : ℚ :=
  fa.rnd (0 + fa.rnd (fa.rnd (fa.rnd (d.CoverageThreshold : ℚ) / 100) * fa.rnd (1 / 100)))

/-- The value `ignoreEdge` of `isBlankPage`. -/
def ignoreEdge (fa : Float64Ops) (img : Image) : Int :=
  let e := truncate (fa.rnd (fa.rnd ((img.maxX - img.minX : Int) : ℚ) * fa.rnd (1 / 100)))
  if e < 1 then 0 else e

/-- The rectangle `startX, endX, startY, endY` of `isBlankPage`. -/
def region (fa : Float64Ops) (img : Image) : Region :=
  let e := ignoreEdge fa img
  let startX := img.minX + e
  let endX := img.maxX - e
  let startY := img.minY + e
  let endY := img.maxY - e
  if startX ≥ endX ∨ startY ≥ endY then
    { startX := img.minX, endX := img.maxX, startY := img.minY, endY := img.maxY }
  else { startX := startX, endX := endX, startY := startY, endY := endY }

/-- The method `isBlankPage` on a decoded image.  A division by zero gives a
NaN or an infinity, and neither is below the threshold. -/
def isBlankPage (fa : Float64Ops) (d : BlankPageDetector) (img : Image) : Bool :=
  let whiteThresholdAdjusted := whiteThresholdAdjusted fa d
  let coverageThresholdAdjusted := coverageThresholdAdjusted fa d
  let rg := region fa img
  let totalPixels : Int := (rg.endX - rg.startX) * (rg.endY - rg.startY)
  let nonWhitePixels : Nat :=
    countPixels img rg (fun p => decide (luma p < whiteThresholdAdjusted * 1000))
  if fa.rnd (totalPixels : ℚ) = 0 then false
  else
    let coverage := fa.rnd (fa.rnd (nonWhitePixels : ℚ) / fa.rnd (totalPixels : ℚ))
    decide (coverage < coverageThresholdAdjusted)

end BlankPageDetector

/-- The map `models.PaperSizes`: width and height in millimetres. -/
def PaperSizes : List (GoString × (Int × Int)) :=
  [("Letter".toList, (216, 279)), ("Legal".toList, (216, 356)), ("A4".toList, (210, 297)),
   ("A3".toList, (297, 420)), ("A5".toList, (148, 210)), ("B4".toList, (250, 353)),
   ("B5".toList, (176, 250)), ("A6".toList, (105, 148))]

namespace WindowsDriver

/-- The page dimensions in millimetres of `applyCropToPageSize`. -/
def cropPageMM (params : ScanParams) : Int × Int :=
  let named : Int × Int :=
    if params.PageSize ≠ [] ∧ params.PageSize ≠ "Custom".toList then
      match PaperSizes.lookup params.PageSize with
      | some size => size
      | none => (0, 0)
    else
      (if params.PageWidth = 0 then params.Width else params.PageWidth,
       if params.PageHeight = 0 then params.Height else params.PageHeight)
  if named.1 = 0 ∧ named.2 = 0 then (210, 297) else named

/-- The resolution of `applyCropToPageSize`. -/
def cropResolution (params : ScanParams) : Int :=
  if params.Resolution = 0 then 300 else params.Resolution

/-- The expression `int(float64(mm) / 25.4 * float64(resolution))`. -/
def toPixels (fa : Float64Ops) (mm resolution : Int) : Int :=
  truncate (fa.rnd (fa.rnd (fa.rnd (mm : ℚ) / fa.rnd (254 / 10)) * fa.rnd (resolution : ℚ)))

/-- The values `targetWidth` and `targetHeight` of `applyCropToPageSize`
before the orientation of the image is looked at. -/
def cropTarget (fa : Float64Ops) (params : ScanParams) : Int × Int :=
  (toPixels fa (cropPageMM params).1 (cropResolution params),
   toPixels fa (cropPageMM params).2 (cropResolution params))

/-- The values `targetWidth` and `targetHeight` of `applyCropToPageSize`
for an image of the given size: swapped when image and page differ in
orientation. -/
def orientedTarget (fa : Float64Ops) (params : ScanParams)
    (currentWidth currentHeight : Int) : Int × Int :=
  let t := cropTarget fa params
  if decide (currentWidth > currentHeight) ≠ decide (t.1 > t.2) then (t.2, t.1) else t

end WindowsDriver

/-! ## Definitions used by the statements on the detector and the page size -/

/-- A pixel with `R = G = B = 255`. -/
def isWhite (p : Pixel) : Bool :=
  BlankPageDetector.channel8 p.r = 255 && BlankPageDetector.channel8 p.g = 255 &&
    BlankPageDetector.channel8 p.b = 255

/-- A pixel with `R = G = B = 0`. -/
def isBlack (p : Pixel) : Bool :=
  BlankPageDetector.channel8 p.r = 0 && BlankPageDetector.channel8 p.g = 0 &&
    BlankPageDetector.channel8 p.b = 0

/-- The whole image as a rectangle. -/
def wholeImage (img : Image) : Region :=
  { startX := img.minX, endX := img.maxX, startY := img.minY, endY := img.maxY }

/-- White and black. -/
def whitePixel : Pixel := { r := 65535, g := 65535, b := 65535 }
def blackPixel : Pixel := { r := 0, g := 0, b := 0 }

/-- An image of 150 by 3 pixels: the top row is black, the two rows below
are white. -/
def stripeImage : Image :=
  { minX := 0, minY := 0, maxX := 150, maxY := 3
    colorAt := fun _ y => if y = 0 then blackPixel else whitePixel }

/-- An image of 10 by 10 pixels, white but for its two top rows, which are
black. -/
def smallImage : Image :=
  { minX := 0, minY := 0, maxX := 10, maxY := 10
    colorAt := fun _ y => if y < 2 then blackPixel else whitePixel }

/-- An image of 10 by 10 pixels, all white. -/
def whiteImage : Image :=
  { minX := 0, minY := 0, maxX := 10, maxY := 10, colorAt := fun _ _ => whitePixel }

/-- The detector with the default thresholds. -/
def defaultDetector : BlankPageDetector :=
  { WhiteThreshold := 70, CoverageThreshold := 15 }

/-- The white threshold as the specification gives it:
`1 + round(whiteThreshold / 100 × 254)`. -/
def whiteThresholdSpec (whiteThreshold : Int) : Int :=
  1 + round ((whiteThreshold : ℚ) / 100 * 254)

/-- The pixel dimension as the specification gives it:
`round(mm / 25.4 × dpi)`. -/
def pixelsSpec (mm dpi : Int) : Int :=
  round ((mm : ℚ) / (254 / 10) * dpi)

/-- The pixel dimension with the fraction discarded:
the integer part of `mm / 25.4 × dpi`. -/
def pixelsTruncated (mm dpi : Int) : Int :=
  ⌊(mm : ℚ) / (254 / 10) * dpi⌋

/-- Parameters for a crop to the named page size at the given resolution. -/
def cropParams (pageSize : GoString) (resolution : Int) : ScanParams :=
  { demoParams with PageSize := pageSize, Resolution := resolution, CropToPageSize := true }

/-! ## Definitions used by the statements on progress updates and errors -/

/-- The bounds on the percentage of a progress update: it lies in `0..100`,
is at most 50 in the stage `scanning`, where it is 25 when the total number
of scans is not known (not positive), and is 100 in the stage `saving`. -/
def percentInRange (p : BatchScanProgress) : Prop :=
  0 ≤ p.PercentComplete ∧ p.PercentComplete ≤ 100 ∧
  (p.Stage = "scanning".toList →
    p.PercentComplete ≤ 50 ∧ (p.TotalScans ≤ 0 → p.PercentComplete = 25)) ∧
  (p.Stage = "saving".toList → p.PercentComplete = 100)

/-- An entry of the trace that is not a progress update out of bounds. -/
def GoodEvent (e : Event) : Prop :=
  match e with
  | Event.progress p => percentInRange p
  | _ => True

/-- The progress updates of a trace, in order. -/
def progressOf (l : List Event) : List BatchScanProgress :=
  l.filterMap (fun e => match e with
    | Event.progress p => some p
    | _ => none)

/-- The largest scan count whose product with 50 is an `int`. -/
def maxScanCount : Int := 184467440737095516

/-- The progress update that `output` sends when `scans` holds the given
number of batches. -/
def savingUpdate (batches : Nat) : BatchScanProgress :=
  { Stage := "saving".toList
    CurrentScan := 0
    TotalScans := 0
    CurrentPage := 0
    TotalPages := (batches : Int)
    Message := "Saving scan results...".toList
    PercentComplete := 100 }

/-- What `output` adds to the trace for its progress update. -/
def savingEvents (env : Env) (batches : Nat) : List Event :=
  if env.hasCallback = false then [] else [Event.progress (savingUpdate batches)]

/-- The state of `output` after its progress update. -/
def batchState.afterSaving (s : batchState) (env : Env) : batchState :=
  { s with trace := s.trace ++ Event.outputBegin :: savingEvents env s.scans.length }

/-- The state with another scan count in its settings. -/
def batchState.withScanCount (s : batchState) (scanCount : Int) : batchState :=
  { s with settings := { s.settings with ScanCount := scanCount } }

/-- The device of `demoEnv none` with a context that is done during the wait
number `k` (counted from 0). -/
def cancelEnv (k : Nat) : Env :=
  { demoEnv none with
    wait := fun j => if j = k then some (GoError.leaf "context canceled".toList) else none }

/-- A device whose `Scan` returns the three sample pages together with an
error at every call. -/
def partialEnv : Env :=
  { demoEnv none with
    driver := fun _ => ⟨0, demoPages, some (GoError.leaf "paper jam".toList)⟩ }

/-- A run of five scans with a delay, results loaded. -/
def fiveDemo : BatchSettings :=
  demoSettings BatchScanMultipleWithDelay 5 BatchOutputLoad SaveSeparatorNone []

/-- The smallest scan count whose product with 50 is not an `int`. -/
def hugeScanCount : Nat := 184467440737095517

/-- A run with a delay of `hugeScanCount` scans, results loaded. -/
def hugeDemo : BatchSettings :=
  demoSettings BatchScanMultipleWithDelay (hugeScanCount : Int) BatchOutputLoad
    SaveSeparatorNone []

/-- The progress update that the delay loop sends at the top of the
iteration that makes scan number `current` of `total`. -/
def waitingUpdate (current total : Int) : BatchScanProgress :=
  { Stage := "scanning".toList
    CurrentScan := current
    TotalScans := total
    CurrentPage := 0
    TotalPages := 0
    Message := "Waiting for scan ".toList ++ fmtD current ++ " of ".toList ++ fmtD total
    PercentComplete :=
      if total > 0 then Int.tdiv (wrapInt64 (current * 50)) total else 25 }

/-- A run with a prompt between scans and the given scan count, results
loaded. -/
def promptDemo (scanCount : Int) : BatchSettings :=
  demoSettings BatchScanMultipleWithPrompt scanCount BatchOutputLoad SaveSeparatorNone []

/-- A single scan with the given scan count, results loaded. -/
def singleSettings (scanCount : Int) : BatchSettings :=
  demoSettings BatchScanSingle scanCount BatchOutputLoad SaveSeparatorNone []

/-! ## The file effect of `applyImageQuality` (`driver_windows.go`)

The files are the list of the paths that exist; what the files hold is not
followed. -/

/-- The answers of the file and codec calls of `applyImageQuality`, by
path. -/
structure QualityEnv where
  /-- The error of `os.Open` on a file that exists. -/
  openErr : GoString → Option GoError
  /-- The error of `os.Open` on a path that does not exist. -/
  notExist : GoString → GoError
  /-- The error of `image.Decode`. -/
  decodeErr : GoString → Option GoError
  /-- The error of `os.Create`. -/
  createErr : GoString → Option GoError
  /-- The error of `savePNG` or `saveJPEG` on the file created. -/
  encodeErr : GoString → Option GoError
  /-- Whether `os.Remove` deletes the file; its error is not looked at. -/
  removes : GoString → Bool

namespace WindowsDriver

/-- The path `applyImageQuality` writes to when `MaxQuality` is set. -/
def losslessPath (imagePath : GoString) : GoString :=
  if filepathExt true imagePath = ".jpg".toList ∨ filepathExt true imagePath = ".jpeg".toList then
    imagePath.take (imagePath.length - (filepathExt true imagePath).length) ++ ".png".toList
  else imagePath

/-- The files after `os.Create` of a path. -/
def created (files : List GoString) (path : GoString) : List GoString :=
  if path ∈ files then files else files ++ [path]

/-- The method `applyImageQuality`: the files it leaves and the error it
returns. -/
def applyImageQuality (io : QualityEnv) (files : List GoString) (imagePath : GoString)
    (params : ScanParams) : List GoString × Option GoError :=
  let shouldRecompress : Bool := params.MaxQuality || decide (params.JpegQuality > 0)
  if shouldRecompress = false then (files, none)
  else
    match (if imagePath ∈ files then io.openErr imagePath
      else some (io.notExist imagePath)) with
    | some err =>
      (files, some (GoError.wrap ("failed to open image: ".toList ++ err.Error) err))
    | none =>
      match io.decodeErr imagePath with
      | some err =>
        (files, some (GoError.wrap ("failed to decode image: ".toList ++ err.Error) err))
      | none =>
        if params.MaxQuality then
          let outputPath := losslessPath imagePath
          match io.createErr outputPath with
          | some err =>
            (files,
              some (GoError.wrap ("failed to create output file: ".toList ++ err.Error) err))
          | none =>
            match io.encodeErr outputPath with
            | some saveErr => (created files outputPath, some saveErr)
            | none =>
              if outputPath ≠ imagePath ∧ io.removes imagePath = true then
                ((created files outputPath).filter (fun f => decide (f ≠ imagePath)), none)
              else (created files outputPath, none)
        else
          match io.createErr imagePath with
          | some err =>
            (files,
              some (GoError.wrap ("failed to create output file: ".toList ++ err.Error) err))
          | none => (created files imagePath, io.encodeErr imagePath)

end WindowsDriver

/-! ## The combined WIA and TWAIN driver (`driver_windows_combined.go`) -/

/-- The fields of the `models.Scanner` record that name a scanner. -/
structure Scanner where
  ID : GoString
  Name : GoString
deriving DecidableEq, Repr

/-- How a call of a method of the combined driver ends. -/
inductive Ret (α : Type) where
  /-- The call returns this value. -/
  | returned (v : α)
  /-- The call panics on a slice out of range. -/
  | panicked
deriving DecidableEq, Repr

/-- The methods of a driver that the combined driver delegates to. -/
structure SubDriver where
  GetScanner : GoString → Option Scanner × Option GoError
  Scan : GoString → ScanParams → List ScanResult × Option GoError
  CancelScan : GoString → Option GoError
  WatchLidStatus : GoString → Option GoError

/-- The `CombinedWindowsDriver` record; `none` is a nil driver. -/
structure CombinedWindowsDriver where
  wiaDriver : Option SubDriver
  twainDriver : Option SubDriver

/-- The function `len` on a string: its number of bytes in UTF-8. -/
def byteLen (s : GoString) : Nat :=
  (s.map Char.utf8Size).sum

/-- The comparison `s[:k] == p` for a string `p` of `k` ASCII characters:
`none` when `k` exceeds `len(s)`, where the slice panics.  The first `k`
bytes of `s` are the bytes of `p` exactly when its first `k` characters are
the characters of `p`. -/
def slicePrefixEq (s : GoString) (k : Nat) (p : GoString) : Option Bool :=
  if byteLen s < k then none else some (decide (s.take k = p))

namespace CombinedWindowsDriver

/-- The block that starts `GetScanner`, `Scan`, `CancelScan` and
`WatchLidStatus`, the same text in the four methods but for the method
called: `wia` and `twain` are the calls on the two drivers with the actual
ID, `fallback` is the rest of the method. -/
def byPrefix {α : Type} (d : CombinedWindowsDriver) (scannerID : GoString)
    (wia twain : SubDriver → GoString → α) (fallback : GoString → α) : Ret α :=
  if byteLen scannerID > 4 then
    match slicePrefixEq scannerID 4 "wia:".toList with
    | none => Ret.panicked
    | some true =>
      match d.wiaDriver with
      | some w => Ret.returned (wia w (scannerID.drop 4))
      | none => Ret.returned (fallback (scannerID.drop 4))
    | some false =>
      match slicePrefixEq scannerID 6 "twain:".toList with
      | none => Ret.panicked
      | some true =>
        match d.twainDriver with
        | some t => Ret.returned (twain t (scannerID.drop 6))
        | none => Ret.returned (fallback (scannerID.drop 6))
      | some false => Ret.returned (fallback scannerID)
  else Ret.returned (fallback scannerID)

/-- The method `GetScanner`. -/
def GetScanner (d : CombinedWindowsDriver) (scannerID : GoString) :
    Ret (Option Scanner × Option GoError) :=
  byPrefix d scannerID (fun w actualID => w.GetScanner actualID)
    (fun t actualID => t.GetScanner actualID)
    (fun actualID =>
      let rest : Option Scanner × Option GoError :=
        match d.twainDriver with
        | some t => t.GetScanner actualID
        | none => (none, some (GoError.leaf ("scanner not found: ".toList ++ scannerID)))
      match d.wiaDriver with
      | some w =>
        if (w.GetScanner actualID).2 = none then ((w.GetScanner actualID).1, none) else rest
      | none => rest)

/-- The method `Scan`. -/
def Scan (d : CombinedWindowsDriver) (scannerID : GoString) (params : ScanParams) :
    Ret (List ScanResult × Option GoError) :=
  byPrefix d scannerID (fun w actualID => w.Scan actualID params)
    (fun t actualID => t.Scan actualID params)
    (fun actualID =>
      let rest : List ScanResult × Option GoError :=
        match d.twainDriver with
        | some t => t.Scan actualID params
        | none =>
          ([], some (GoError.leaf ("no driver available for scanner: ".toList ++ scannerID)))
      match d.wiaDriver with
      | some w => if (w.GetScanner actualID).2 = none then w.Scan actualID params else rest
      | none => rest)

/-- The method `CancelScan`. -/
def CancelScan (d : CombinedWindowsDriver) (scannerID : GoString) : Ret (Option GoError) :=
  byPrefix d scannerID (fun w actualID => w.CancelScan actualID)
    (fun t actualID => t.CancelScan actualID)
    (fun actualID =>
      let rest : Option GoError :=
        match d.twainDriver with
        | some t => t.CancelScan actualID
        | none => some (GoError.leaf ("scanner not found: ".toList ++ scannerID))
      match d.wiaDriver with
      | some w => if w.CancelScan actualID = none then none else rest
      | none => rest)

/-- The method `WatchLidStatus`. -/
def WatchLidStatus (d : CombinedWindowsDriver) (scannerID : GoString) :
    Ret (Option GoError) :=
  byPrefix d scannerID (fun w actualID => w.WatchLidStatus actualID)
    (fun t actualID => t.WatchLidStatus actualID)
    (fun actualID =>
      match d.wiaDriver with
      | some w => w.WatchLidStatus actualID
      | none =>
        match d.twainDriver with
        | some t => t.WatchLidStatus actualID
        | none => some (GoError.leaf "no driver available".toList))

end CombinedWindowsDriver

/-! ## Definitions used by the statements on post-processing and on the
combined driver -/

/-- The post-processing steps whose flag or parameter is set, in the order
blank-page exclusion, scale, crop or stretch, quality. -/
def enabledSteps (params : ScanParams) : List PostStep :=
  (if params.ExcludeBlankPages then [PostStep.blankCheck] else []) ++
  (if params.ScaleRatio > 1 then [PostStep.scaleRatio] else []) ++
  (if params.CropToPageSize || params.StretchToPageSize then [PostStep.cropToPageSize]
    else []) ++
  (if params.MaxQuality || decide (params.JpegQuality > 0) then [PostStep.imageQuality]
    else [])

namespace WindowsDriver

/-- Parameters of a scan without the feeder with every step enabled: scale
ratio 2, crop to the page size, JPEG quality 75, blank pages excluded. -/
def flatbedParams : ScanParams :=
  { demoParams with
    UseFeeder := false, ScaleRatio := 2, CropToPageSize := true, ExcludeBlankPages := true }

/-- The sample feeder parameters with blank pages excluded. -/
def blankParams (pageCount : Int) : ScanParams :=
  { feederParams pageCount with ExcludeBlankPages := true }

/-- The feeder of `feederEnv` on which the page with number `blank` is
detected blank and no other; the context is never done. -/
def blankEnv (sheets blank : Nat) : WiaEnv :=
  { feederEnv sheets (TransferReply.failed paperEmpty) SelectCase.result with
    isBlankPage := fun _ p => some (decide (p = blank)) }

/-- The sample feeder parameters with `MaxQuality` set. -/
def losslessParams (pageCount : Int) : ScanParams :=
  { feederParams pageCount with MaxQuality := true }

/-- File and codec calls that never fail. -/
def plainFiles : QualityEnv :=
  { openErr := fun _ => none
    notExist := fun _ => GoError.leaf "The system cannot find the file specified.".toList
    decodeErr := fun _ => none
    createErr := fun _ => none
    encodeErr := fun _ => none
    removes := fun _ => true }

end WindowsDriver

/-- A combined driver with both drivers, each of which knows no scanner. -/
def demoCombined : CombinedWindowsDriver :=
  { wiaDriver := some
      { GetScanner := fun _ => (none, some (GoError.leaf "scanner not found".toList))
        Scan := fun _ _ => ([], some (GoError.leaf "scanner not found".toList))
        CancelScan := fun _ => none
        WatchLidStatus := fun _ => none }
    twainDriver := some
      { GetScanner := fun _ => (none, some (GoError.leaf "scanner not found".toList))
        Scan := fun _ _ => ([], some (GoError.leaf "scanner not found".toList))
        CancelScan := fun _ => none
        WatchLidStatus := fun _ => none } }

/-! ## Frame lemmas of the input phase -/

theorem onlyProgress_nil : OnlyProgress [] := by
  intro e he
  cases he

theorem onlyProgress_append {a b : List Event} (ha : OnlyProgress a) (hb : OnlyProgress b) :
    OnlyProgress (a ++ b) := by
  intro e he
  rcases List.mem_append.1 he with h | h
  · exact ha e h
  · exact hb e h

theorem filter_onlyProgress {f : Event → Bool} (hf : ∀ p, f (Event.progress p) = false)
    {l : List Event} (hl : OnlyProgress l) : l.filter f = [] := by
  rw [List.filter_eq_nil_iff]
  intro e he
  have := hl e he
  cases e <;> simp_all [isProgress]

namespace batchState

theorem sendProgress_eq (s : batchState) (env : Env) (stage : GoString)
    (a b c d : Int) (m : GoString) :
    ∃ l, OnlyProgress l ∧ s.sendProgress env stage a b c d m = { s with trace := s.trace ++ l } := by
  unfold sendProgress
  split
  · exact ⟨[], onlyProgress_nil, by simp⟩
  · refine ⟨_, ?_, rfl⟩
    intro e he
    simp at he
    subst he
    rfl

theorem scanProgress_eq (s : batchState) (env : Env) (n p : Int) :
    ∃ l, OnlyProgress l ∧ s.scanProgress env n p = { s with trace := s.trace ++ l } := by
  unfold scanProgress
  split
  · exact sendProgress_eq ..
  · exact sendProgress_eq ..

theorem driverTicks_eq (env : Env) (n : Int) (k : Nat) : ∀ (p : Int) (s : batchState),
    ∃ l, OnlyProgress l ∧ driverTicks env n k p s = { s with trace := s.trace ++ l } := by
  induction k with
  | zero => intro p s; exact ⟨[], onlyProgress_nil, by simp [driverTicks]⟩
  | succ k ih =>
    intro p s
    obtain ⟨l1, h1, e1⟩ := scanProgress_eq s env n (p + 1)
    obtain ⟨l2, h2, e2⟩ := ih (p + 1) (s.scanProgress env n (p + 1))
    refine ⟨l1 ++ l2, onlyProgress_append h1 h2, ?_⟩
    rw [driverTicks, e2, e1]
    simp

theorem inputOneScan_eq (s : batchState) (env : Env) (n : Int) :
    ∃ l1 l2, OnlyProgress l1 ∧ OnlyProgress l2 ∧
      s.inputOneScan env n =
        ({ s with
            trace := s.trace ++ (l1 ++ Event.scan s.scannerID s.settings.ScanParams :: l2)
            nScan := s.nScan + 1
            scans := s.scans ++ oneScanBatch (env.driver s.nScan) },
          oneScanErr (env.driver s.nScan)) := by
  obtain ⟨l1, h1, e1⟩ := scanProgress_eq s env n 1
  obtain ⟨l2, h2, e2⟩ := driverTicks_eq env n (env.driver s.nScan).ticks 1
    { s with
      trace := s.trace ++ l1 ++ [Event.scan s.scannerID s.settings.ScanParams]
      nScan := s.nScan + 1 }
  refine ⟨l1, l2, h1, h2, ?_⟩
  unfold inputOneScan
  simp only [e1, e2, oneScanErr, oneScanBatch]
  cases h : (env.driver s.nScan).err with
  | some e => simp
  | none =>
    by_cases h0 : (env.driver s.nScan).results.length = 0
    · simp [h0]
    · simp [h0]

end batchState

theorem oneScanBatch_of_ok {r : DriverReply} (h : oneScanErr r = none) :
    oneScanBatch r = [r.results] ∧ r.results ≠ [] := by
  unfold oneScanErr at h
  unfold oneScanBatch
  cases hr : r.err with
  | some e => simp [hr] at h
  | none =>
    simp only [hr] at h
    by_cases h0 : r.results.length = 0
    · simp [h0] at h
    · refine ⟨by simp [h0], ?_⟩
      intro hnil
      exact h0 (by simp [hnil])

theorem oneScanBatch_of_err {r : DriverReply} {e : GoError} (h : oneScanErr r = some e) :
    oneScanBatch r = [] := by
  unfold oneScanErr at h
  unfold oneScanBatch
  cases hr : r.err with
  | some e => simp
  | none =>
    simp only [hr] at h
    by_cases h0 : r.results.length = 0
    · simp [h0]
    · simp [h0] at h

namespace batchState

/-- The delay loop after its first iteration, when every scan succeeds and
no wait is cancelled: each iteration waits and then scans. -/
theorem inputDelayLoop_later_ok (env : Env) : ∀ (n : Nat) (i : Int) (s : batchState),
    0 < i →
    (∀ j, j < n → oneScanErr (env.driver (s.nScan + j)) = none) →
    (∀ j, j < n → env.wait (s.nWait + j) = none) →
    ∃ l, l.filter isCall = laterCalls s n ∧
      inputDelayLoop env n i s =
        ({ s with
            trace := s.trace ++ l
            nScan := s.nScan + n
            nWait := s.nWait + n
            scans := s.scans ++ (List.range n).map (fun j => (env.driver (s.nScan + j)).results) },
          none) := by
  intro n
  induction n with
  | zero =>
    intro i s _ _ _
    exact ⟨[], rfl, by simp [inputDelayLoop]⟩
  | succ n ih =>
    intro i s hi hd hw
    obtain ⟨l0, h0, e0⟩ := sendProgress_eq s env "scanning".toList (i + 1) s.settings.ScanCount 0 0
      ("Waiting for scan ".toList ++ fmtD (i + 1) ++ " of ".toList ++ fmtD s.settings.ScanCount)
    have hw0 : env.wait s.nWait = none := by simpa using hw 0 (Nat.succ_pos n)
    have hd0 : oneScanErr (env.driver s.nScan) = none := by simpa using hd 0 (Nat.succ_pos n)
    have hi0 : i ≠ 0 := by omega
    obtain ⟨l1, l2, h1, h2, e1⟩ := inputOneScan_eq
      { s with
        trace := s.trace ++ l0 ++ [Event.wait s.settings.ScanIntervalSeconds]
        nWait := s.nWait + 1 } env i
    obtain ⟨l3, h3, e3⟩ := ih (i + 1)
      { s with
        trace := s.trace ++ l0 ++ [Event.wait s.settings.ScanIntervalSeconds]
          ++ (l1 ++ Event.scan s.scannerID s.settings.ScanParams :: l2)
        nWait := s.nWait + 1
        nScan := s.nScan + 1
        scans := s.scans ++ [(env.driver s.nScan).results] }
      (by omega)
      (by intro j hj; simpa [Nat.add_assoc, Nat.add_comm 1 j] using hd (j + 1) (by omega))
      (by intro j hj; simpa [Nat.add_assoc, Nat.add_comm 1 j] using hw (j + 1) (by omega))
    refine ⟨l0 ++ [Event.wait s.settings.ScanIntervalSeconds]
      ++ (l1 ++ Event.scan s.scannerID s.settings.ScanParams :: l2) ++ l3, ?_, ?_⟩
    · simp only [List.filter_append, filter_onlyProgress (f := isCall) (fun _ => rfl) h0,
        filter_onlyProgress (f := isCall) (fun _ => rfl) h1, List.filter_cons,
        filter_onlyProgress (f := isCall) (fun _ => rfl) h2, h3]
      simp [laterCalls, isCall, List.replicate_succ]
    · rw [inputDelayLoop]
      simp only [e0, hi0, ne_eq, not_false_eq_true, if_true, hw0] at e1 ⊢
      simp only [e1, hd0, (oneScanBatch_of_ok hd0).1]
      simp only [e3]
      simp [List.range_succ_eq_map, Nat.add_assoc, Nat.add_comm 1, Function.comp_def]

/-- The delay loop after its first iteration, when the scan of iteration `m`
is the first to fail. -/
theorem inputDelayLoop_later_fail (env : Env) (e : GoError) : ∀ (m n : Nat) (i : Int) (s : batchState),
    0 < i → m < n →
    (∀ j, j < m → oneScanErr (env.driver (s.nScan + j)) = none) →
    oneScanErr (env.driver (s.nScan + m)) = some e →
    (∀ j, j ≤ m → env.wait (s.nWait + j) = none) →
    ∃ l, l.filter isCall = laterCalls s (m + 1) ∧
      inputDelayLoop env n i s =
        ({ s with
            trace := s.trace ++ l
            nScan := s.nScan + (m + 1)
            nWait := s.nWait + (m + 1)
            scans := s.scans ++ (List.range m).map (fun j => (env.driver (s.nScan + j)).results) },
          some e) := by
  intro m
  induction m with
  | zero =>
    intro n i s hi hmn _ he hw
    obtain ⟨n, rfl⟩ : ∃ k, n = k + 1 := ⟨n - 1, by omega⟩
    obtain ⟨l0, h0, e0⟩ := sendProgress_eq s env "scanning".toList (i + 1) s.settings.ScanCount 0 0
      ("Waiting for scan ".toList ++ fmtD (i + 1) ++ " of ".toList ++ fmtD s.settings.ScanCount)
    have hw0 : env.wait s.nWait = none := by simpa using hw 0 (Nat.le_refl 0)
    have hi0 : i ≠ 0 := by omega
    obtain ⟨l1, l2, h1, h2, e1⟩ := inputOneScan_eq
      { s with
        trace := s.trace ++ l0 ++ [Event.wait s.settings.ScanIntervalSeconds]
        nWait := s.nWait + 1 } env i
    refine ⟨l0 ++ [Event.wait s.settings.ScanIntervalSeconds]
      ++ (l1 ++ Event.scan s.scannerID s.settings.ScanParams :: l2), ?_, ?_⟩
    · simp only [List.filter_append, filter_onlyProgress (f := isCall) (fun _ => rfl) h0,
        filter_onlyProgress (f := isCall) (fun _ => rfl) h1, List.filter_cons,
        filter_onlyProgress (f := isCall) (fun _ => rfl) h2]
      simp [laterCalls, isCall, List.replicate_succ]
    · rw [inputDelayLoop]
      simp only [Nat.add_zero] at he
      simp only [e0, hi0, ne_eq, not_false_eq_true, if_true, hw0] at e1 ⊢
      simp only [e1, he, oneScanBatch_of_err he]
      simp
  | succ m ih =>
    intro n i s hi hmn hd he hw
    obtain ⟨n, rfl⟩ : ∃ k, n = k + 1 := ⟨n - 1, by omega⟩
    obtain ⟨l0, h0, e0⟩ := sendProgress_eq s env "scanning".toList (i + 1) s.settings.ScanCount 0 0
      ("Waiting for scan ".toList ++ fmtD (i + 1) ++ " of ".toList ++ fmtD s.settings.ScanCount)
    have hw0 : env.wait s.nWait = none := by simpa using hw 0 (Nat.zero_le _)
    have hd0 : oneScanErr (env.driver s.nScan) = none := by simpa using hd 0 (Nat.succ_pos m)
    have hi0 : i ≠ 0 := by omega
    obtain ⟨l1, l2, h1, h2, e1⟩ := inputOneScan_eq
      { s with
        trace := s.trace ++ l0 ++ [Event.wait s.settings.ScanIntervalSeconds]
        nWait := s.nWait + 1 } env i
    obtain ⟨l3, h3, e3⟩ := ih n (i + 1)
      { s with
        trace := s.trace ++ l0 ++ [Event.wait s.settings.ScanIntervalSeconds]
          ++ (l1 ++ Event.scan s.scannerID s.settings.ScanParams :: l2)
        nWait := s.nWait + 1
        nScan := s.nScan + 1
        scans := s.scans ++ [(env.driver s.nScan).results] }
      (by omega) (by omega)
      (by intro j hj; simpa [Nat.add_assoc, Nat.add_comm 1 j] using hd (j + 1) (by omega))
      (by simpa [Nat.add_assoc, Nat.add_comm 1 m] using he)
      (by intro j hj; simpa [Nat.add_assoc, Nat.add_comm 1 j] using hw (j + 1) (by omega))
    refine ⟨l0 ++ [Event.wait s.settings.ScanIntervalSeconds]
      ++ (l1 ++ Event.scan s.scannerID s.settings.ScanParams :: l2) ++ l3, ?_, ?_⟩
    · simp only [List.filter_append, filter_onlyProgress (f := isCall) (fun _ => rfl) h0,
        filter_onlyProgress (f := isCall) (fun _ => rfl) h1, List.filter_cons,
        filter_onlyProgress (f := isCall) (fun _ => rfl) h2, h3]
      simp [laterCalls, isCall, List.replicate_succ]
    · rw [inputDelayLoop]
      simp only [e0, hi0, ne_eq, not_false_eq_true, if_true, hw0] at e1 ⊢
      simp only [e1, hd0, (oneScanBatch_of_ok hd0).1]
      simp only [e3]
      simp [List.range_succ_eq_map, Nat.add_assoc, Nat.add_comm 1, Function.comp_def]

end batchState

/-! ## The input phase -/

theorem oneScanErr_eq_none_iff (r : DriverReply) :
    oneScanErr r = none ↔ r.err = none ∧ r.results ≠ [] := by
  unfold oneScanErr
  cases hr : r.err with
  | some e => simp
  | none =>
    by_cases h0 : r.results.length = 0
    · have : r.results = [] := List.length_eq_zero.1 h0
      simp [this]
    · have : r.results ≠ [] := fun h => h0 (by simp [h])
      simp [h0, this]

theorem oneScanBatch_nonempty (r : DriverReply) : ∀ b ∈ oneScanBatch r, b ≠ [] := by
  intro b hb
  unfold oneScanBatch at hb
  cases hr : r.err with
  | some e => simp [hr] at hb
  | none =>
    by_cases h0 : r.results.length = 0
    · simp [hr, h0] at hb
    · simp only [hr, h0, if_false, List.mem_singleton] at hb
      subst hb
      intro h
      exact h0 (by simp [h])

theorem laterCalls_filter_scan (s : batchState) (n : Nat) :
    ((laterCalls s n).filter isScan).length = n ∧ ((laterCalls s n).filter isWait).length = n := by
  induction n with
  | zero => simp [laterCalls]
  | succ n ih =>
    have : laterCalls s (n + 1) =
        Event.wait s.settings.ScanIntervalSeconds ::
          Event.scan s.scannerID s.settings.ScanParams :: laterCalls s n := by
      simp [laterCalls, List.replicate_succ]
    rw [this]
    simp [List.filter_cons, isScan, isWait, ih.1, ih.2]

theorem filter_of_filter_isCall {f : Event → Bool} (hf : ∀ e, f e = true → isCall e = true)
    (l : List Event) : l.filter f = (l.filter isCall).filter f := by
  rw [List.filter_filter]
  congr 1
  funext e
  cases h : f e
  · simp
  · simp [hf e h]

namespace batchState

/-- The first iteration of the delay loop, which does not wait. -/
theorem inputDelayLoop_first (env : Env) (n : Nat) (s : batchState) :
    ∃ l, l.filter isCall = [Event.scan s.scannerID s.settings.ScanParams] ∧
      inputDelayLoop env (n + 1) 0 s =
        match oneScanErr (env.driver s.nScan) with
        | some e =>
          ({ s with
              trace := s.trace ++ l
              nScan := s.nScan + 1
              scans := s.scans ++ oneScanBatch (env.driver s.nScan) }, some e)
        | none =>
          inputDelayLoop env n 1
            { s with
              trace := s.trace ++ l
              nScan := s.nScan + 1
              scans := s.scans ++ oneScanBatch (env.driver s.nScan) } := by
  obtain ⟨l0, h0, e0⟩ := sendProgress_eq s env "scanning".toList (0 + 1) s.settings.ScanCount 0 0
    ("Waiting for scan ".toList ++ fmtD (0 + 1) ++ " of ".toList ++ fmtD s.settings.ScanCount)
  obtain ⟨l1, l2, h1, h2, e1⟩ := inputOneScan_eq { s with trace := s.trace ++ l0 } env 0
  refine ⟨l0 ++ (l1 ++ Event.scan s.scannerID s.settings.ScanParams :: l2), ?_, ?_⟩
  · simp only [List.filter_append, filter_onlyProgress (f := isCall) (fun _ => rfl) h0,
      filter_onlyProgress (f := isCall) (fun _ => rfl) h1, List.filter_cons,
      filter_onlyProgress (f := isCall) (fun _ => rfl) h2]
    simp [isCall]
  · rw [inputDelayLoop]
    simp only [e0, ne_eq, not_true_eq_false, if_false] at e1 ⊢
    simp only [e1]
    cases h : oneScanErr (env.driver s.nScan) with
    | some e => simp
    | none => simp

/-- The method `input` for each of the three scan types. -/
theorem input_of_single (env : Env) (s : batchState)
    (h : s.settings.ScanType = BatchScanSingle) :
    s.input env = s.inputOneScan env (-1) := by
  unfold input
  rw [if_pos h]

theorem input_of_delay (env : Env) (s : batchState)
    (h : s.settings.ScanType = BatchScanMultipleWithDelay) :
    s.input env = inputDelayLoop env s.settings.ScanCount.toNat 0 s := by
  unfold input
  rw [if_neg (by rw [h]; decide), if_pos h]

theorem input_of_prompt (env : Env) (s : batchState)
    (h : s.settings.ScanType = BatchScanMultipleWithPrompt) :
    s.input env =
      (s.sendProgress env "scanning".toList (0 + 1) (-1) 0 0
        ("Scanning batch ".toList ++ fmtD (0 + 1))).inputOneScan env 0 := by
  unfold input
  rw [if_neg (by rw [h]; decide), if_neg (by rw [h]; decide), if_pos h]
  simp only
  split <;> simp_all

/-- C2. In a `MultipleWithDelay` run with `ScanCount = N > 0` in which every
invocation succeeds (no driver error, at least one page) and no wait is
cancelled, `input` returns nil and its waits and driver calls are, in order,
one `Scan` followed by `N - 1` times a wait and then a `Scan`: `N`
invocations and `N - 1` waits, none before the first invocation and one
right before each later one. -/
theorem input_delay_calls (env : Env) (s : batchState) (N : Nat) (hN : 0 < N)
    (hType : s.settings.ScanType = BatchScanMultipleWithDelay)
    (hCount : s.settings.ScanCount = (N : Int))
    (hok : ∀ j, j < N → (env.driver (s.nScan + j)).err = none ∧
      (env.driver (s.nScan + j)).results ≠ [])
    (hwait : ∀ j, j < N - 1 → env.wait (s.nWait + j) = none) :
    (s.input env).2 = none ∧
    ∃ l, (s.input env).1.trace = s.trace ++ l ∧
      l.filter isCall = Event.scan s.scannerID s.settings.ScanParams ::
        (List.replicate (N - 1)
          [Event.wait s.settings.ScanIntervalSeconds,
           Event.scan s.scannerID s.settings.ScanParams]).flatten ∧
      (l.filter isScan).length = N ∧ (l.filter isWait).length = N - 1 := by
  obtain ⟨n, rfl⟩ : ∃ k, N = k + 1 := ⟨N - 1, by omega⟩
  have hok1 : ∀ j, j < n + 1 → oneScanErr (env.driver (s.nScan + j)) = none :=
    fun j hj => (oneScanErr_eq_none_iff _).2 (hok j hj)
  have hd0 : oneScanErr (env.driver s.nScan) = none := by simpa using hok1 0 (Nat.succ_pos n)
  obtain ⟨l0, h0, e0⟩ := inputDelayLoop_first env n s
  obtain ⟨l1, h1, e1⟩ := inputDelayLoop_later_ok env n 1
    { s with
      trace := s.trace ++ l0
      nScan := s.nScan + 1
      scans := s.scans ++ oneScanBatch (env.driver s.nScan) }
    (by omega)
    (by intro j hj; simpa [Nat.add_assoc, Nat.add_comm 1 j] using hok1 (j + 1) (by omega))
    (by intro j hj; simpa using hwait j (by omega))
  have hinput : s.input env = inputDelayLoop env (n + 1) 0 s := by
    rw [input_of_delay env s hType, hCount]
    rfl
  rw [hinput, e0]
  simp only [hd0, e1]
  refine ⟨trivial, l0 ++ l1, by simp, ?_, ?_, ?_⟩
  · simp [List.filter_append, h0, h1, laterCalls]
  · rw [filter_of_filter_isCall (f := isScan) (by intro e; cases e <;> simp [isScan, isCall])]
    simp only [List.filter_append, h0, h1]
    have := (laterCalls_filter_scan
      { s with
        trace := s.trace ++ l0
        nScan := s.nScan + 1
        scans := s.scans ++ oneScanBatch (env.driver s.nScan) } n).1
    simp [isScan, this, Nat.add_comm]
  · rw [filter_of_filter_isCall (f := isWait) (by intro e; cases e <;> simp [isWait, isCall])]
    simp only [List.filter_append, h0, h1]
    have := (laterCalls_filter_scan
      { s with
        trace := s.trace ++ l0
        nScan := s.nScan + 1
        scans := s.scans ++ oneScanBatch (env.driver s.nScan) } n).2
    simp [isWait, this]

/-- C3. With scan type `Single` or `MultipleWithPrompt`, whatever the
settings hold in `ScanCount` and `ScanIntervalSeconds`, the waits and driver
calls of `input` are exactly one call of `Scan`: no wait is made. -/
theorem input_single_or_prompt_calls (env : Env) (s : batchState)
    (hType : s.settings.ScanType = BatchScanSingle ∨
      s.settings.ScanType = BatchScanMultipleWithPrompt) :
    ∃ l, (s.input env).1.trace = s.trace ++ l ∧
      l.filter isCall = [Event.scan s.scannerID s.settings.ScanParams] ∧
      (l.filter isScan).length = 1 ∧ (l.filter isWait).length = 0 := by
  have key : ∃ l, (s.input env).1.trace = s.trace ++ l ∧
      l.filter isCall = [Event.scan s.scannerID s.settings.ScanParams] := by
    rcases hType with hType | hType
    · obtain ⟨l1, l2, h1, h2, e1⟩ := inputOneScan_eq s env (-1)
      refine ⟨l1 ++ Event.scan s.scannerID s.settings.ScanParams :: l2, ?_, ?_⟩
      · rw [input_of_single env s hType, e1]
      · simp only [List.filter_append, filter_onlyProgress (f := isCall) (fun _ => rfl) h1,
          List.filter_cons, filter_onlyProgress (f := isCall) (fun _ => rfl) h2]
        simp [isCall]
    · obtain ⟨l0, h0, e0⟩ := sendProgress_eq s env "scanning".toList (0 + 1) (-1) 0 0
        ("Scanning batch ".toList ++ fmtD (0 + 1))
      obtain ⟨l1, l2, h1, h2, e1⟩ := inputOneScan_eq { s with trace := s.trace ++ l0 } env 0
      refine ⟨l0 ++ (l1 ++ Event.scan s.scannerID s.settings.ScanParams :: l2), ?_, ?_⟩
      · rw [input_of_prompt env s hType, e0, e1]
        simp
      · simp only [List.filter_append, filter_onlyProgress (f := isCall) (fun _ => rfl) h0,
          filter_onlyProgress (f := isCall) (fun _ => rfl) h1,
          List.filter_cons, filter_onlyProgress (f := isCall) (fun _ => rfl) h2]
        simp [isCall]
  obtain ⟨l, hl, hc⟩ := key
  refine ⟨l, hl, hc, ?_, ?_⟩
  · rw [filter_of_filter_isCall (f := isScan) (by intro e; cases e <;> simp [isScan, isCall]), hc]
    simp [isScan]
  · rw [filter_of_filter_isCall (f := isWait) (by intro e; cases e <;> simp [isWait, isCall]), hc]
    simp [isWait]

/-- C4. In a `MultipleWithDelay` run, when the invocations before number
`m + 1` succeed, no wait before it is cancelled, and invocation `m + 1`
fails with `e` (the driver's error, or `no pages scanned` for zero pages),
`input` returns `e`, has made `m + 1` driver calls and no more, and has
appended to `scans` exactly the results of invocations `1..m`, in that
order. -/
theorem input_delay_first_failure (env : Env) (s : batchState) (N m : Nat) (e : GoError)
    (hType : s.settings.ScanType = BatchScanMultipleWithDelay)
    (hCount : s.settings.ScanCount = (N : Int)) (hm : m < N)
    (hok : ∀ j, j < m → (env.driver (s.nScan + j)).err = none ∧
      (env.driver (s.nScan + j)).results ≠ [])
    (hfail : oneScanErr (env.driver (s.nScan + m)) = some e)
    (hwait : ∀ j, j < m → env.wait (s.nWait + j) = none) :
    (s.input env).2 = some e ∧
    (s.input env).1.scans =
      s.scans ++ (List.range m).map (fun j => (env.driver (s.nScan + j)).results) ∧
    ∃ l, (s.input env).1.trace = s.trace ++ l ∧ (l.filter isScan).length = m + 1 := by
  obtain ⟨n, rfl⟩ : ∃ k, N = k + 1 := ⟨N - 1, by omega⟩
  have hok1 : ∀ j, j < m → oneScanErr (env.driver (s.nScan + j)) = none :=
    fun j hj => (oneScanErr_eq_none_iff _).2 (hok j hj)
  have hinput : s.input env = inputDelayLoop env (n + 1) 0 s := by
    rw [input_of_delay env s hType, hCount]
    rfl
  obtain ⟨l0, h0, e0⟩ := inputDelayLoop_first env n s
  have hs0 : l0.filter isScan = [Event.scan s.scannerID s.settings.ScanParams] := by
    rw [filter_of_filter_isCall (f := isScan) (by intro e; cases e <;> simp [isScan, isCall]), h0]
    simp [isScan]
  rw [hinput, e0]
  cases m with
  | zero =>
    simp only [Nat.add_zero] at hfail
    simp only [hfail]
    exact ⟨trivial, by simp [oneScanBatch_of_err hfail], l0, rfl, by simp [hs0]⟩
  | succ m =>
    have hd0 : oneScanErr (env.driver s.nScan) = none := by simpa using hok1 0 (Nat.succ_pos m)
    obtain ⟨l1, h1, e1⟩ := inputDelayLoop_later_fail env e m n 1
      { s with
        trace := s.trace ++ l0
        nScan := s.nScan + 1
        scans := s.scans ++ oneScanBatch (env.driver s.nScan) }
      (by omega) (by omega)
      (by intro j hj; simpa [Nat.add_assoc, Nat.add_comm 1 j] using hok1 (j + 1) (by omega))
      (by simpa [Nat.add_assoc, Nat.add_comm 1 m] using hfail)
      (by intro j hj; simpa using hwait j (by omega))
    simp only [hd0, e1]
    refine ⟨trivial, ?_, l0 ++ l1, by simp, ?_⟩
    · simp [List.range_succ_eq_map, Nat.add_assoc, Nat.add_comm 1, Function.comp_def,
        (oneScanBatch_of_ok hd0).1]
    · rw [List.filter_append, hs0,
        filter_of_filter_isCall (f := isScan) (l := l1)
          (by intro e; cases e <;> simp [isScan, isCall]), h1]
      have := (laterCalls_filter_scan
        { s with
          trace := s.trace ++ l0
          nScan := s.nScan + 1
          scans := s.scans ++ oneScanBatch (env.driver s.nScan) } (m + 1)).1
      simp [this, Nat.add_comm]

/-- Whatever the driver and the context do, the delay loop only extends the
trace with progress updates, waits and driver calls, and only appends
non-empty batches to `scans`. -/
theorem inputDelayLoop_frame (env : Env) : ∀ (n : Nat) (i : Int) (s : batchState),
    ∃ l bs a b, (∀ e ∈ l, isProgress e = true ∨ isCall e = true) ∧ (∀ x ∈ bs, x ≠ []) ∧
      (inputDelayLoop env n i s).1 =
        { s with trace := s.trace ++ l, nScan := a, nWait := b, scans := s.scans ++ bs } := by
  intro n
  induction n with
  | zero =>
    intro i s
    exact ⟨[], [], s.nScan, s.nWait, by simp, by simp, by simp [inputDelayLoop]⟩
  | succ n ih =>
    intro i s
    obtain ⟨l0, h0, e0⟩ := sendProgress_eq s env "scanning".toList (i + 1) s.settings.ScanCount 0 0
      ("Waiting for scan ".toList ++ fmtD (i + 1) ++ " of ".toList ++ fmtD s.settings.ScanCount)
    have key : ∀ (w : List Event) (k : Nat), (∀ e ∈ w, isCall e = true) →
        ∃ l bs a b, (∀ e ∈ l, isProgress e = true ∨ isCall e = true) ∧ (∀ x ∈ bs, x ≠ []) ∧
          (match ({ s with trace := s.trace ++ l0 ++ w, nWait := k } : batchState).inputOneScan env i with
            | (s3, some err) => (s3, some err)
            | (s3, none) => inputDelayLoop env n (i + 1) s3).1 =
          { s with trace := s.trace ++ l, nScan := a, nWait := b, scans := s.scans ++ bs } := by
      intro w k hw
      obtain ⟨l1, l2, h1, h2, e1⟩ := inputOneScan_eq
        { s with trace := s.trace ++ l0 ++ w, nWait := k } env i
      have hl : ∀ e ∈ l0 ++ w ++ (l1 ++ Event.scan s.scannerID s.settings.ScanParams :: l2),
          isProgress e = true ∨ isCall e = true := by
        intro e he
        simp only [List.mem_append, List.mem_cons] at he
        rcases he with (he | he) | he | he | he
        · exact Or.inl (h0 e he)
        · exact Or.inr (hw e he)
        · exact Or.inl (h1 e he)
        · subst he; exact Or.inr rfl
        · exact Or.inl (h2 e he)
      rw [e1]
      cases h : oneScanErr (env.driver s.nScan) with
      | some err =>
        refine ⟨_, oneScanBatch (env.driver s.nScan), s.nScan + 1, k, hl,
          oneScanBatch_nonempty _, ?_⟩
        simp [h]
      | none =>
        obtain ⟨l3, bs, a, b, h3, hb, e3⟩ := ih (i + 1)
          { s with
            trace := s.trace ++ l0 ++ w
              ++ (l1 ++ Event.scan s.scannerID s.settings.ScanParams :: l2)
            nWait := k
            nScan := s.nScan + 1
            scans := s.scans ++ oneScanBatch (env.driver s.nScan) }
        refine ⟨l0 ++ w ++ (l1 ++ Event.scan s.scannerID s.settings.ScanParams :: l2) ++ l3,
          oneScanBatch (env.driver s.nScan) ++ bs, a, b, ?_, ?_, ?_⟩
        · intro e he
          rcases List.mem_append.1 he with he | he
          · exact hl e he
          · exact h3 e he
        · intro x hx
          rcases List.mem_append.1 hx with hx | hx
          · exact oneScanBatch_nonempty _ x hx
          · exact hb x hx
        · simp only [h]
          rw [e3]
          simp
    rw [inputDelayLoop]
    simp only [e0]
    by_cases hi : i = 0
    · simp only [hi, ne_eq, not_true_eq_false, if_false]
      have := key [] s.nWait (by simp)
      simpa [hi] using this
    · simp only [hi, ne_eq, not_false_eq_true, if_true]
      cases hw : env.wait s.nWait with
      | some ctxErr =>
        refine ⟨l0 ++ [Event.wait s.settings.ScanIntervalSeconds], [], s.nScan, s.nWait + 1,
          ?_, by simp, by simp⟩
        intro e he
        rcases List.mem_append.1 he with he | he
        · exact Or.inl (h0 e he)
        · simp at he; subst he; exact Or.inr rfl
      | none =>
        have := key [Event.wait s.settings.ScanIntervalSeconds] (s.nWait + 1)
          (by intro e he; simp at he; subst he; rfl)
        simpa using this

/-- Whatever the driver and the context do, `input` only extends the trace
with progress updates, waits and driver calls, and only appends non-empty
batches to `scans`. -/
theorem input_frame (env : Env) (s : batchState) :
    ∃ l bs a b, (∀ e ∈ l, isProgress e = true ∨ isCall e = true) ∧ (∀ x ∈ bs, x ≠ []) ∧
      (s.input env).1 =
        { s with trace := s.trace ++ l, nScan := a, nWait := b, scans := s.scans ++ bs } := by
  have one : ∀ (t : batchState) (k : Int) (l0 : List Event), OnlyProgress l0 →
      t = { s with trace := s.trace ++ l0 } →
      ∃ l bs a b, (∀ e ∈ l, isProgress e = true ∨ isCall e = true) ∧ (∀ x ∈ bs, x ≠ []) ∧
        (t.inputOneScan env k).1 =
          { s with trace := s.trace ++ l, nScan := a, nWait := b, scans := s.scans ++ bs } := by
    intro t k l0 h0 ht
    subst ht
    obtain ⟨l1, l2, h1, h2, e1⟩ := inputOneScan_eq { s with trace := s.trace ++ l0 } env k
    refine ⟨l0 ++ (l1 ++ Event.scan s.scannerID s.settings.ScanParams :: l2),
      oneScanBatch (env.driver s.nScan), s.nScan + 1, s.nWait, ?_, oneScanBatch_nonempty _, ?_⟩
    · intro e he
      simp only [List.mem_append, List.mem_cons] at he
      rcases he with he | he | he | he
      · exact Or.inl (h0 e he)
      · exact Or.inl (h1 e he)
      · subst he; exact Or.inr rfl
      · exact Or.inl (h2 e he)
    · rw [e1]
      simp
  by_cases h1 : s.settings.ScanType = BatchScanSingle
  · rw [input_of_single env s h1]
    exact one s (-1) [] onlyProgress_nil (by simp)
  · by_cases h2 : s.settings.ScanType = BatchScanMultipleWithDelay
    · rw [input_of_delay env s h2]
      exact inputDelayLoop_frame env _ 0 s
    · by_cases h3 : s.settings.ScanType = BatchScanMultipleWithPrompt
      · rw [input_of_prompt env s h3]
        obtain ⟨l0, h0, e0⟩ := sendProgress_eq s env "scanning".toList (0 + 1) (-1) 0 0
          ("Scanning batch ".toList ++ fmtD (0 + 1))
        exact one _ 0 l0 h0 e0
      · refine ⟨[], [], s.nScan, s.nWait, by simp, by simp, ?_⟩
        unfold input
        simp [h1, h2, h3]

/-! ## The output phase -/

/-- What `copyFile` does: a read, then a write unless the read failed. -/
theorem copyFile_spec (s : batchState) (env : Env) (src dst : GoString) :
    ∃ l, (∀ e ∈ l, isCopy e = true) ∧
      l.filter isWrite <+: [Event.writeFile dst src] ∧
      ((s.copyFile env src dst).2 = none → l.filter isWrite = [Event.writeFile dst src]) ∧
      ((∀ k, env.io k = none) → (s.copyFile env src dst).2 = none) ∧
      (s.copyFile env src dst).1 = { s with trace := s.trace ++ l, nIO := s.nIO + l.length } := by
  unfold copyFile
  cases h1 : env.io s.nIO with
  | some err =>
    refine ⟨[Event.readFile src], ?_, ?_, ?_, ?_, ?_⟩
    · intro e he; simp at he; subst he; rfl
    · simp [isWrite]
    · simp
    · intro hio; simp [hio] at h1
    · simp
  | none =>
    cases h2 : env.io (s.nIO + 1) with
    | some err =>
      refine ⟨[Event.readFile src, Event.writeFile dst src], ?_, ?_, ?_, ?_, ?_⟩
      · intro e he; simp at he; rcases he with he | he <;> subst he <;> rfl
      · simp [isWrite]
      · simp [h2]
      · intro hio; simp [hio] at h2
      · simp [h2]
    | none =>
      refine ⟨[Event.readFile src, Event.writeFile dst src], ?_, ?_, ?_, ?_, ?_⟩
      · intro e he; simp at he; rcases he with he | he <;> subst he <;> rfl
      · simp [isWrite]
      · simp [isWrite]
      · simp [h2]
      · simp [h2]

/-- What the last loop of `save` does: the writes it makes are the first
ones of `indexedWrites`, all of them when it returns nil. -/
theorem saveIndexed_spec (env : Env) (savePath : GoString) :
    ∀ (images : List ScanResult) (k : Nat) (s : batchState),
    ∃ l, (∀ e ∈ l, isCopy e = true) ∧
      l.filter isWrite <+: indexedWrites env.windows savePath images k ∧
      ((saveIndexed env savePath images (k : Int) s).2 = none →
        l.filter isWrite = indexedWrites env.windows savePath images k) ∧
      ((∀ j, env.io j = none) → (saveIndexed env savePath images (k : Int) s).2 = none) ∧
      (saveIndexed env savePath images (k : Int) s).1 =
        { s with trace := s.trace ++ l, nIO := s.nIO + l.length } := by
  intro images
  induction images with
  | nil =>
    intro k s
    exact ⟨[], by simp, by simp [indexedWrites], by simp [indexedWrites], by simp [saveIndexed],
      by simp [saveIndexed]⟩
  | cons image rest ih =>
    intro k s
    obtain ⟨l1, c1, p1, f1, g1, e1⟩ := copyFile_spec s env image.FilePath
      (addIndexToPath env.windows savePath (k : Int))
    have hw : indexedWrites env.windows savePath (image :: rest) k =
        Event.writeFile (addIndexToPath env.windows savePath (k : Int)) image.FilePath ::
          indexedWrites env.windows savePath rest (k + 1) := by
      simp [indexedWrites, List.enumFrom_cons]
    rw [saveIndexed]
    cases hr : s.copyFile env image.FilePath (addIndexToPath env.windows savePath (k : Int)) with
    | mk s1 r1 =>
      rw [hr] at e1 f1 g1
      simp only at e1 f1 g1
      cases r1 with
      | some err =>
        refine ⟨l1, c1, ?_, ?_, ?_, ?_⟩
        · rw [hw]
          exact p1.trans (by simp)
        · simp
        · intro hio; simpa using g1 hio
        · simpa using e1
      | none =>
        obtain ⟨l2, c2, p2, f2, g2, e2⟩ := ih (k + 1) s1
        have hk : ((k : Int) + 1) = ((k + 1 : Nat) : Int) := by push_cast; rfl
        simp only [hk]
        refine ⟨l1 ++ l2, ?_, ?_, ?_, ?_, ?_⟩
        · intro e he
          rcases List.mem_append.1 he with he | he
          · exact c1 e he
          · exact c2 e he
        · rw [hw, List.filter_append, f1 rfl]
          simpa using p2
        · intro hnone
          rw [hw, List.filter_append, f1 rfl, f2 hnone]
          simp
        · exact g2
        · rw [e2, e1]
          simp [Nat.add_assoc]

/-- The body of `save` for at least one image, with the resolved path
named. -/
theorem saveBody_cons (s : batchState) (env : Env) (index : Int) (image0 : ScanResult)
    (rest : List ScanResult) :
    s.saveBody env index (image0 :: rest) =
      match env.io s.nIO with
      | some err =>
        ({ s with
            nNow := s.nNow + 1
            trace := s.trace ++ [Event.mkdirAll (targetPath env s index)]
            nIO := s.nIO + 1 },
          some (GoError.wrap ("failed to create output directory: ".toList ++ err.Error) err))
      | none =>
        if toLower (filepathExt env.windows (targetPath env s index)) = ".pdf".toList then
          ({ s with
              nNow := s.nNow + 1
              trace := s.trace ++ [Event.mkdirAll (targetPath env s index)]
              nIO := s.nIO + 1 },
            some (GoError.leaf "PDF export not yet implemented".toList))
        else if (image0 :: rest).length = 1 then
          copyFile
            { s with
              nNow := s.nNow + 1
              trace := s.trace ++ [Event.mkdirAll (targetPath env s index)]
              nIO := s.nIO + 1 } env image0.FilePath (targetPath env s index)
        else
          saveIndexed env (targetPath env s index) (image0 :: rest) 0
            { s with
              nNow := s.nNow + 1
              trace := s.trace ++ [Event.mkdirAll (targetPath env s index)]
              nIO := s.nIO + 1 } := rfl

/-- What the body of `save` does with at least one image: it resolves the
path, creates the directory, and then copies unless the directory could not
be made or the extension is `.pdf`. -/
theorem saveBody_spec (s : batchState) (env : Env) (index : Int) (images : List ScanResult)
    (hne : images ≠ []) :
    ∃ body, (∀ e ∈ body, isCopy e = true) ∧
      (s.saveBody env index images).1 =
        { s with
          trace := s.trace ++ Event.mkdirAll (targetPath env s index) :: body
          nNow := s.nNow + 1
          nIO := s.nIO + 1 + body.length } ∧
      (toLower (filepathExt env.windows (targetPath env s index)) = ".pdf".toList →
        body = [] ∧ (s.saveBody env index images).2 ≠ none ∧
        (env.io s.nIO = none → (s.saveBody env index images).2 =
          some (GoError.leaf "PDF export not yet implemented".toList))) ∧
      (toLower (filepathExt env.windows (targetPath env s index)) ≠ ".pdf".toList →
        body.filter isWrite <+: expectedWrites env.windows (targetPath env s index) images ∧
        ((s.saveBody env index images).2 = none →
          body.filter isWrite = expectedWrites env.windows (targetPath env s index) images) ∧
        ((∀ j, env.io j = none) → (s.saveBody env index images).2 = none)) := by
  cases images with
  | nil => exact absurd rfl hne
  | cons image0 rest =>
    rw [saveBody_cons]
    cases hio : env.io s.nIO with
    | some err =>
      refine ⟨[], by simp, by simp, ?_, ?_⟩
      · intro _
        exact ⟨rfl, by simp, by intro h; cases h⟩
      · intro _
        refine ⟨by simp, by simp, ?_⟩
        intro h
        rw [h] at hio
        cases hio
    | none =>
      simp only
      by_cases hpdf : toLower (filepathExt env.windows (targetPath env s index)) = ".pdf".toList
      · simp only [hpdf, if_true]
        refine ⟨[], by simp, by simp, ?_, ?_⟩
        · intro _
          exact ⟨rfl, by simp, by intro _; trivial⟩
        · intro h
          exact absurd rfl h
      · simp only [hpdf, if_false]
        by_cases h1 : (image0 :: rest).length = 1
        · have hrest : rest = [] := by
            cases rest with
            | nil => rfl
            | cons a b => simp at h1
          subst hrest
          obtain ⟨l, c, p, f, g, e⟩ := copyFile_spec
            { s with
              nNow := s.nNow + 1
              trace := s.trace ++ [Event.mkdirAll (targetPath env s index)]
              nIO := s.nIO + 1 } env image0.FilePath (targetPath env s index)
          simp only [h1, if_true]
          refine ⟨l, c, ?_, ?_, ?_⟩
          · rw [e]
            simp
          · intro h
            exact absurd h (by simp)
          · intro _
            refine ⟨?_, ?_, g⟩
            · simpa [expectedWrites] using p
            · intro hn
              simpa [expectedWrites] using f hn
        · obtain ⟨l, c, p, f, g, e⟩ := saveIndexed_spec env (targetPath env s index)
            (image0 :: rest) 0
            { s with
              nNow := s.nNow + 1
              trace := s.trace ++ [Event.mkdirAll (targetPath env s index)]
              nIO := s.nIO + 1 }
          simp only [Nat.cast_zero] at p f g e
          simp only [h1, if_false]
          refine ⟨l, c, ?_, ?_, ?_⟩
          · rw [e]
            simp
          · intro h
            exact absurd h (by simp)
          · intro _
            have hx : expectedWrites env.windows (targetPath env s index) (image0 :: rest) =
                indexedWrites env.windows (targetPath env s index) (image0 :: rest) 0 := by
              unfold expectedWrites
              rw [if_neg h1]
            rw [hx]
            exact ⟨p, f, g⟩

theorem save_nil (s : batchState) (env : Env) (index : Int) :
    s.save env index [] =
      ({ s with trace := s.trace ++ [Event.saveBegin index [], Event.saveEnd none] }, none) := by
  simp [save, saveBody]

/-- What `save` does with at least one image; see `saveBody_spec`. -/
theorem save_spec (s : batchState) (env : Env) (index : Int) (images : List ScanResult)
    (hne : images ≠ []) :
    ∃ body, (∀ e ∈ body, isCopy e = true) ∧
      (s.save env index images).1 =
        { s with
          trace := s.trace ++ Event.saveBegin index images ::
            Event.mkdirAll (targetPath env s index) ::
              (body ++ [Event.saveEnd (s.save env index images).2])
          nNow := s.nNow + 1
          nIO := s.nIO + 1 + body.length } ∧
      (toLower (filepathExt env.windows (targetPath env s index)) = ".pdf".toList →
        body = [] ∧ (s.save env index images).2 ≠ none ∧
        (env.io s.nIO = none → (s.save env index images).2 =
          some (GoError.leaf "PDF export not yet implemented".toList))) ∧
      (toLower (filepathExt env.windows (targetPath env s index)) ≠ ".pdf".toList →
        body.filter isWrite <+: expectedWrites env.windows (targetPath env s index) images ∧
        ((s.save env index images).2 = none →
          body.filter isWrite = expectedWrites env.windows (targetPath env s index) images) ∧
        ((∀ j, env.io j = none) → (s.save env index images).2 = none)) := by
  obtain ⟨body, c, e, hp, hn⟩ := saveBody_spec
    { s with trace := s.trace ++ [Event.saveBegin index images] } env index images hne
  refine ⟨body, c, ?_, hp, hn⟩
  unfold save
  simp only [e]
  simp [targetPath]

/-- Whatever the file system does, `save` only extends the trace, with its
entry, file-system calls and its return, and advances the counters of the
clock and of the file system. -/
theorem save_frame (s : batchState) (env : Env) (index : Int) (images : List ScanResult) :
    ∃ l a b, (∀ e ∈ l, isFs e = true ∨ isSaveMark e = true) ∧
      l.filter isSaveMark =
        [Event.saveBegin index images, Event.saveEnd (s.save env index images).2] ∧
      (s.save env index images).1 = { s with trace := s.trace ++ l, nNow := a, nIO := b } := by
  by_cases hne : images = []
  · subst hne
    refine ⟨[Event.saveBegin index [], Event.saveEnd none], s.nNow, s.nIO, ?_, ?_, ?_⟩
    · intro e he
      simp at he
      rcases he with he | he <;> subst he <;> exact Or.inr rfl
    · simp [save_nil, isSaveMark]
    · simp [save_nil]
  · obtain ⟨body, c, e, -, -⟩ := save_spec s env index images hne
    have hbody : body.filter isSaveMark = [] := by
      rw [List.filter_eq_nil_iff]
      intro x hx
      have := c x hx
      cases x <;> simp_all [isCopy, isSaveMark]
    refine ⟨_, _, _, ?_, ?_, e⟩
    · intro x hx
      simp only [List.mem_cons, List.mem_append, List.mem_singleton, List.not_mem_nil,
        or_false] at hx
      rcases hx with hx | hx | hx | hx
      · subst hx; exact Or.inr rfl
      · subst hx; exact Or.inl rfl
      · left
        have := c x hx
        cases x <;> simp_all [isCopy, isFs]
      · subst hx; exact Or.inr rfl
    · simp [List.filter_cons, isSaveMark, hbody]

/-- What a loop of `save` calls does: the calls are made in the order of
the list, each after the previous one returned nil, and the loop returns the
first error, or nil after the last call. -/
theorem saveEach_spec (env : Env) : ∀ (calls : List (Int × List ScanResult)) (s : batchState),
    ∃ l rs a b, (∀ e ∈ l, isFs e = true ∨ isSaveMark e = true) ∧
      l.filter isSaveMark = saveMarks calls rs ∧
      ((rs = List.replicate calls.length none ∧ (saveEach env calls s).2 = none) ∨
        (∃ k e, k < calls.length ∧ rs = List.replicate k none ++ [some e] ∧
          (saveEach env calls s).2 = some e)) ∧
      (saveEach env calls s).1 = { s with trace := s.trace ++ l, nNow := a, nIO := b } := by
  intro calls
  induction calls with
  | nil =>
    intro s
    exact ⟨[], [], s.nNow, s.nIO, by simp, by simp [saveMarks], Or.inl ⟨rfl, rfl⟩,
      by simp [saveEach]⟩
  | cons c rest ih =>
    intro s
    obtain ⟨i, images⟩ := c
    obtain ⟨l1, a1, b1, h1, m1, e1⟩ := save_frame s env i images
    rw [saveEach]
    cases hr : s.save env i images with
    | mk s1 r1 =>
      rw [hr] at e1 m1
      simp only at e1 m1
      cases r1 with
      | some err =>
        refine ⟨l1, [some err], a1, b1, h1, ?_, Or.inr ⟨0, err, by simp, by simp, rfl⟩, e1⟩
        simp [m1, saveMarks]
      | none =>
        obtain ⟨l2, rs, a2, b2, h2, m2, hrs, e2⟩ := ih s1
        refine ⟨l1 ++ l2, none :: rs, a2, b2, ?_, ?_, ?_, ?_⟩
        · intro e he
          rcases List.mem_append.1 he with he | he
          · exact h1 e he
          · exact h2 e he
        · simp only [List.filter_append, m1, m2]
          simp [saveMarks]
        · rcases hrs with ⟨hrs, hnone⟩ | ⟨k, e, hk, hrs, hsome⟩
          · exact Or.inl ⟨by simp [hrs, List.replicate_succ], hnone⟩
          · exact Or.inr ⟨k + 1, e, by simpa using hk, by simp [hrs, List.replicate_succ], hsome⟩
        · simp only
          rw [e2, e1]
          simp

/-- The method `output` after its progress update, by output type. -/
theorem output_eq (s : batchState) (env : Env) :
    ∃ lp, OnlyProgress lp ∧ s.output env =
      if s.settings.OutputType = BatchOutputLoad then
        ({ s with trace := s.trace ++ Event.outputBegin :: lp }, none)
      else if s.settings.OutputType = BatchOutputSingleFile then
        if s.scans.flatten.length > 0 then
          save { s with trace := s.trace ++ Event.outputBegin :: lp } env 0 s.scans.flatten
        else ({ s with trace := s.trace ++ Event.outputBegin :: lp }, none)
      else if s.settings.OutputType = BatchOutputMultipleFiles then
        saveEach env (multipleCalls s) { s with trace := s.trace ++ Event.outputBegin :: lp }
      else
        ({ s with trace := s.trace ++ Event.outputBegin :: lp },
          some (GoError.leaf ("unknown output type: ".toList ++ s.settings.OutputType))) := by
  obtain ⟨lp, hp, ep⟩ := sendProgress_eq { s with trace := s.trace ++ [Event.outputBegin] } env
    "saving".toList 0 0 0 s.scans.length "Saving scan results...".toList
  refine ⟨lp, hp, ?_⟩
  unfold output
  simp only [ep, List.append_assoc, List.singleton_append]
  by_cases h1 : s.settings.OutputType = BatchOutputLoad
  · simp [h1]
  · simp only [h1, if_false]
    by_cases h2 : s.settings.OutputType = BatchOutputSingleFile
    · simp [h2]
    · simp only [h2, if_false]
      by_cases h3 : s.settings.OutputType = BatchOutputMultipleFiles
      · simp only [h3, if_true, multipleCalls]
        by_cases h4 : s.settings.SaveSeparator = SaveSeparatorFilePerScan
        · have h5 : ¬ s.settings.SaveSeparator = SaveSeparatorFilePerPage := by
            rw [h4]; decide
          simp only [h4, h5, if_true, if_false]
          split <;> simp_all
        · simp only [h4, if_false]
          by_cases h5 : s.settings.SaveSeparator = SaveSeparatorFilePerPage
          · simp only [h5, if_true]
            split <;> simp_all
          · simp only [h5, if_false]
            split <;> simp_all
      · simp [h3]

/-- Whatever the file system does, `output` only extends the trace, with
one entry of `output` and then progress updates, entries and returns of
`save` and file-system calls, and leaves `scans` as it is. -/
theorem output_frame (s : batchState) (env : Env) :
    ∃ l a b, (∀ e ∈ l, isProgress e = true ∨ isFs e = true ∨ isSaveMark e = true) ∧
      (s.output env).1 =
        { s with trace := s.trace ++ Event.outputBegin :: l, nNow := a, nIO := b } := by
  obtain ⟨lp, hp, e⟩ := output_eq s env
  have base : ∃ l a b, (∀ e ∈ l, isProgress e = true ∨ isFs e = true ∨ isSaveMark e = true) ∧
      ({ s with trace := s.trace ++ Event.outputBegin :: lp } : batchState) =
        { s with trace := s.trace ++ Event.outputBegin :: l, nNow := a, nIO := b } :=
    ⟨lp, s.nNow, s.nIO, fun x hx => Or.inl (hp x hx), rfl⟩
  rw [e]
  split
  · exact base
  · split
    · split
      · obtain ⟨l, a, b, h, -, e1⟩ := save_frame
          { s with trace := s.trace ++ Event.outputBegin :: lp } env 0 s.scans.flatten
        refine ⟨lp ++ l, a, b, ?_, ?_⟩
        · intro x hx
          rcases List.mem_append.1 hx with hx | hx
          · exact Or.inl (hp x hx)
          · exact Or.inr (h x hx)
        · rw [e1]; simp
      · exact base
    · split
      · obtain ⟨l, rs, a, b, h, -, -, e1⟩ := saveEach_spec env (multipleCalls s)
          { s with trace := s.trace ++ Event.outputBegin :: lp }
        refine ⟨lp ++ l, a, b, ?_, ?_⟩
        · intro x hx
          rcases List.mem_append.1 hx with hx | hx
          · exact Or.inl (hp x hx)
          · exact Or.inr (h x hx)
        · rw [e1]; simp
      · exact base

end batchState

/-! ## The two phases together -/

theorem filter_outputBegin_nil {l : List Event}
    (h : ∀ e ∈ l, isOutputBegin e = false) : l.filter isOutputBegin = [] := by
  rw [List.filter_eq_nil_iff]
  intro e he
  simp [h e he]

theorem not_outputBegin_of_input {e : Event}
    (h : isProgress e = true ∨ isCall e = true) : isOutputBegin e = false := by
  cases e <;> first | rfl | simp [isProgress, isCall] at h

theorem not_outputBegin_of_output {e : Event}
    (h : isProgress e = true ∨ isFs e = true ∨ isSaveMark e = true) :
    isOutputBegin e = false := by
  cases e <;> first | rfl | simp [isProgress, isFs, isSaveMark] at h

namespace batchState

/-- The state `do` ends in is the one `output` leaves after `input`, and the
scans it returns are the ones of that state. -/
theorem do_state (s : batchState) (env : Env) :
    (s.do_ env).2.2 = ((s.input env).1.output env).1 ∧
    (s.do_ env).1 = (s.input env).1.scans := by
  obtain ⟨lo, a2, b2, -, eo⟩ := output_frame (s.input env).1 env
  have hstate : (s.do_ env).2.2 = ((s.input env).1.output env).1 := by
    unfold do_
    cases hi : s.input env with
    | mk s1 r1 =>
      cases ho : s1.output env with
      | mk s2 r2 => cases r1 <;> cases r2 <;> simp [ho]
  have hscans : (s.do_ env).1 = (s.do_ env).2.2.scans := by
    unfold do_
    cases hi : s.input env with
    | mk s1 r1 =>
      cases ho : s1.output env with
      | mk s2 r2 => cases r1 <;> cases r2 <;> simp [ho]
  exact ⟨hstate, by rw [hscans, hstate, eo]⟩

/-- The error `do` returns, by the errors of the two phases. -/
theorem do_error (s : batchState) (env : Env) :
    (s.do_ env).2.1 =
      match (s.input env).2, ((s.input env).1.output env).2 with
      | some err, some saveErr =>
        some (GoError.wrap ("input failed: ".toList ++ err.Error
          ++ ", output failed: ".toList ++ saveErr.Error) err)
      | some err, none => some err
      | none, some err => some err
      | none, none => none := by
  unfold do_
  cases hi : s.input env with
  | mk s1 r1 =>
    cases ho : s1.output env with
    | mk s2 r2 => cases r1 <;> cases r2 <;> simp [ho]

/-- C1. The method `do` runs `input` and then `output` once, on the state
`input` left: the trace gains exactly one entry of `output`, the scans
returned are the ones `input` accumulated, and the error is nil exactly when
both phases returned nil, the error of the one phase that failed when only
one did, and otherwise an error whose text is `input failed: ` followed by
the text of the input error, `, output failed: ` and the text of the output
error. -/
theorem do_result (s : batchState) (env : Env) :
    (s.do_ env).2.2 = ((s.input env).1.output env).1 ∧
    ((s.do_ env).2.2.trace.filter isOutputBegin).length =
      (s.trace.filter isOutputBegin).length + 1 ∧
    (s.do_ env).1 = (s.input env).1.scans ∧
    ((s.do_ env).2.1 = none ↔
      (s.input env).2 = none ∧ ((s.input env).1.output env).2 = none) ∧
    (∀ e, (s.input env).2 = some e → ((s.input env).1.output env).2 = none →
      (s.do_ env).2.1 = some e) ∧
    (∀ e, (s.input env).2 = none → ((s.input env).1.output env).2 = some e →
      (s.do_ env).2.1 = some e) ∧
    (∀ e1 e2, (s.input env).2 = some e1 → ((s.input env).1.output env).2 = some e2 →
      ∃ c, (s.do_ env).2.1 = some c ∧
        c.Error = "input failed: ".toList ++ e1.Error ++ ", output failed: ".toList ++ e2.Error ∧
        e1.Error <:+: c.Error ∧ e2.Error <:+: c.Error) := by
  obtain ⟨li, bs, a, b, hli, -, ei⟩ := input_frame env s
  obtain ⟨lo, a2, b2, hlo, eo⟩ := output_frame (s.input env).1 env
  have herr := do_error s env
  refine ⟨(do_state s env).1, ?_, (do_state s env).2, ?_, ?_, ?_, ?_⟩
  · rw [(do_state s env).1, eo, ei]
    have h1 : li.filter isOutputBegin = [] :=
      filter_outputBegin_nil (fun e he => not_outputBegin_of_input (hli e he))
    have h2 : lo.filter isOutputBegin = [] :=
      filter_outputBegin_nil (fun e he => not_outputBegin_of_output (hlo e he))
    simp only [List.filter_append, List.filter_cons, h1, h2, isOutputBegin, if_true,
      List.append_nil, List.length_append, List.length_singleton]
  · rw [herr]
    cases (s.input env).2 <;> cases ((s.input env).1.output env).2 <;> simp
  · intro e h1 h2
    rw [herr, h1, h2]
  · intro e h1 h2
    rw [herr, h1, h2]
  · intro e1 e2 h1 h2
    refine ⟨GoError.wrap ("input failed: ".toList ++ e1.Error ++ ", output failed: ".toList
      ++ e2.Error) e1, ?_, rfl, ?_, ?_⟩
    · rw [herr, h1, h2]
    · exact ⟨"input failed: ".toList, ", output failed: ".toList ++ e2.Error, by
        simp [GoError.Error]⟩
    · exact ⟨"input failed: ".toList ++ e1.Error ++ ", output failed: ".toList, [], by
        simp [GoError.Error]⟩

/-- C5. Every batch in the result of `PerformBatchScan` is non-empty; in
particular, when the driver returns zero pages and a nil error,
`inputOneScan` returns the error `no pages scanned` and leaves `scans` as it
was. -/
theorem batches_nonempty (env : Env) (scannerID : GoString) (settings : BatchSettings) :
    (∀ batch ∈ (PerformBatchScan env scannerID settings).1, batch ≠ []) ∧
    (∀ (s : batchState) (scanNumber : Int),
      (env.driver s.nScan).err = none → (env.driver s.nScan).results = [] →
      (s.inputOneScan env scanNumber).2 = some (GoError.leaf "no pages scanned".toList) ∧
      (s.inputOneScan env scanNumber).1.scans = s.scans) := by
  constructor
  · intro batch hb
    have hP : PerformBatchScan env scannerID settings =
        (initialState scannerID settings).do_ env := rfl
    obtain ⟨li, bs, a, b, -, hbs, ei⟩ := input_frame env (initialState scannerID settings)
    rw [hP, (do_state (initialState scannerID settings) env).2, ei] at hb
    simp only [initialState, List.nil_append] at hb
    exact hbs batch hb
  · intro s n herr hres
    obtain ⟨l1, l2, -, -, e⟩ := inputOneScan_eq s env n
    rw [e]
    simp [oneScanErr, oneScanBatch, herr, hres]

end batchState

/-! ## The calls of `save` made by `output` -/

theorem filter_saveBegin_of_marks {l : List Event} :
    l.filter isSaveBegin = (l.filter isSaveMark).filter isSaveBegin := by
  rw [List.filter_filter]
  congr 1
  funext e
  cases e <;> rfl

namespace batchState

/-- C6. With output type `SingleFile`, when the batches hold at least one
page `output` enters `save` exactly once, with index 0 and the pages of all
batches concatenated in batch order and, inside a batch, capture order; when
they hold no page it never enters `save` and returns nil. -/
theorem output_single_file (s : batchState) (env : Env)
    (hType : s.settings.OutputType = BatchOutputSingleFile) :
    ∃ l, (s.output env).1.trace = s.trace ++ l ∧
      (s.scans.flatten ≠ [] → l.filter isSaveBegin = [Event.saveBegin 0 s.scans.flatten]) ∧
      (s.scans.flatten = [] → l.filter isSaveBegin = [] ∧ (s.output env).2 = none) := by
  obtain ⟨lp, hp, e⟩ := output_eq s env
  have hnl : ¬ s.settings.OutputType = BatchOutputLoad := by
    rw [hType]; decide
  have hlp : (Event.outputBegin :: lp).filter isSaveBegin = [] := by
    rw [List.filter_cons, filter_onlyProgress (f := isSaveBegin) (fun _ => rfl) hp]
    rfl
  rw [e, if_neg hnl, if_pos hType]
  by_cases hpages : s.scans.flatten = []
  · refine ⟨Event.outputBegin :: lp, ?_, fun h => absurd hpages h, fun _ => ?_⟩
    · simp [hpages]
    · simp [hpages, hlp]
  · have hlen : s.scans.flatten.length > 0 := List.length_pos.2 hpages
    obtain ⟨l, a, b, -, hm, e1⟩ := save_frame
      { s with trace := s.trace ++ Event.outputBegin :: lp } env 0 s.scans.flatten
    rw [if_pos hlen]
    refine ⟨Event.outputBegin :: lp ++ l, ?_, fun _ => ?_, fun h => absurd h hpages⟩
    · rw [e1]; simp
    · rw [List.filter_append, hlp, filter_saveBegin_of_marks (l := l), hm]
      rfl

/-- C7. With output type `MultipleFiles`, `output` calls `save` once per
page for the separator `FilePerPage`, with the position of the page among
all pages as index, and once per batch for every other separator, with the
position of the batch as index.  The calls are made in ascending order of
index, each after the previous one returned nil: either all are made and
`output` returns nil, or the calls stop at the first one that returns an
error and `output` returns that error. -/
theorem output_multiple_files (s : batchState) (env : Env)
    (hType : s.settings.OutputType = BatchOutputMultipleFiles) :
    ∃ calls l rs, (s.output env).1.trace = s.trace ++ l ∧
      calls =
        (if s.settings.SaveSeparator = SaveSeparatorFilePerPage then
          s.scans.flatten.enum.map (fun p => ((p.1 : Int), [p.2]))
        else s.scans.enum.map (fun p => ((p.1 : Int), p.2))) ∧
      l.filter isSaveMark = saveMarks calls rs ∧
      ((rs = List.replicate calls.length none ∧ (s.output env).2 = none) ∨
        (∃ k e, k < calls.length ∧ rs = List.replicate k none ++ [some e] ∧
          (s.output env).2 = some e)) := by
  obtain ⟨lp, hp, e⟩ := output_eq s env
  have hnl : ¬ s.settings.OutputType = BatchOutputLoad := by
    rw [hType]; decide
  have hns : ¬ s.settings.OutputType = BatchOutputSingleFile := by
    rw [hType]; decide
  have hlp : (Event.outputBegin :: lp).filter isSaveMark = [] := by
    rw [List.filter_cons, filter_onlyProgress (f := isSaveMark) (fun _ => rfl) hp]
    rfl
  rw [e, if_neg hnl, if_neg hns, if_pos hType]
  obtain ⟨l, rs, a, b, -, hm, hrs, e1⟩ := saveEach_spec env (multipleCalls s)
    { s with trace := s.trace ++ Event.outputBegin :: lp }
  refine ⟨multipleCalls s, Event.outputBegin :: lp ++ l, rs, ?_, ?_, ?_, hrs⟩
  · rw [e1]; simp
  · unfold multipleCalls rangeOf
    split
    · rw [List.enum_map]
      simp [List.map_map, Function.comp_def]
    · rfl
  · rw [List.filter_append, hlp, hm]
    rfl

end batchState

/-! ## `strings.ReplaceAll` -/

theorem replaceFrom_skip (old new : GoString) : ∀ (pre t : GoString),
    replaceFrom old new pre.length (pre ++ t) = replaceFrom old new 0 t := by
  intro pre
  induction pre with
  | nil => intro t; rfl
  | cons c pre ih =>
    intro t
    simp only [List.length_cons, List.cons_append, replaceFrom]
    exact ih t

theorem replaceAll_nil (old new : GoString) (h : old ≠ []) : replaceAll [] old new = [] := by
  unfold replaceAll
  rw [if_neg (by simpa using h)]
  rfl

/-- An occurrence of `old` at the start is replaced and the scan goes on
after it. -/
theorem replaceAll_append (old new t : GoString) (h : old ≠ []) :
    replaceAll (old ++ t) old new = new ++ replaceAll t old new := by
  unfold replaceAll
  rw [if_neg (by simpa using h), if_neg (by simpa using h)]
  cases old with
  | nil => exact absurd rfl h
  | cons c rest =>
    have hp : (c :: rest).isPrefixOf (c :: (rest ++ t)) = true := by
      rw [List.isPrefixOf_iff_prefix]
      exact ⟨t, rfl⟩
    have h1 : replaceFrom (c :: rest) new 0 (c :: (rest ++ t)) =
        new ++ replaceFrom (c :: rest) new rest.length (rest ++ t) := by
      rw [replaceFrom, if_pos hp]
      rfl
    rw [List.cons_append, h1, replaceFrom_skip]

/-- A character at which `old` does not start is kept. -/
theorem replaceAll_cons (old new : GoString) (c : Char) (t : GoString) (h : old ≠ [])
    (hp : ¬ old <+: c :: t) :
    replaceAll (c :: t) old new = c :: replaceAll t old new := by
  unfold replaceAll
  rw [if_neg (by simpa using h), if_neg (by simpa using h)]
  have : old.isPrefixOf (c :: t) = false := by
    rw [← Bool.not_eq_true, List.isPrefixOf_iff_prefix]
    exact hp
  simp only [replaceFrom, this, Bool.false_eq_true, if_false]

/-- The three cases of a left-to-right scan for `old`. -/
theorem scan_cases (old s : GoString) :
    s = [] ∨ (∃ t, s = old ++ t) ∨ (∃ c t, s = c :: t ∧ ¬ old <+: c :: t) := by
  cases s with
  | nil => exact Or.inl rfl
  | cons c t =>
    by_cases h : old <+: c :: t
    · obtain ⟨r, hr⟩ := h
      exact Or.inr (Or.inl ⟨r, hr.symm⟩)
    · exact Or.inr (Or.inr ⟨c, t, rfl, h⟩)

/-- A string in which `old` does not occur is left as it is. -/
theorem replaceAll_of_not_infix (old new : GoString) (h : old ≠ []) :
    ∀ s : GoString, ¬ old <:+: s → replaceAll s old new = s := by
  intro s
  induction s with
  | nil => intro _; exact replaceAll_nil old new h
  | cons c t ih =>
    intro hs
    rw [replaceAll_cons old new c t h (fun hp => hs hp.isInfix), ih]
    intro ht
    exact hs (ht.trans (List.suffix_cons c t).isInfix)

/-! ## Decimal numerals -/

theorem digitChar_isDigit (k : Nat) (h : k < 10) : (Nat.digitChar k).isDigit = true := by
  interval_cases k <;> rfl

theorem digitChar_toNat (k : Nat) (h : k < 10) : (Nat.digitChar k).toNat - 48 = k := by
  interval_cases k <;> rfl

theorem toDigitsCore_isDigit : ∀ (fuel n : Nat) (acc : List Char),
    (∀ c ∈ acc, c.isDigit = true) → ∀ c ∈ Nat.toDigitsCore 10 fuel n acc, c.isDigit = true := by
  intro fuel
  induction fuel with
  | zero => intro n acc h; simpa [Nat.toDigitsCore] using h
  | succ fuel ih =>
    intro n acc h
    have hacc : ∀ c ∈ Nat.digitChar (n % 10) :: acc, c.isDigit = true := by
      intro c hc
      rcases List.mem_cons.1 hc with hc | hc
      · rw [hc]; exact digitChar_isDigit _ (Nat.mod_lt _ (by decide))
      · exact h c hc
    rw [Nat.toDigitsCore]
    split
    · exact hacc
    · exact ih _ _ hacc

theorem toDigits_isDigit (n : Nat) : ∀ c ∈ Nat.toDigits 10 n, c.isDigit = true :=
  toDigitsCore_isDigit _ _ [] (by simp)

theorem toDigitsCore_ne_nil : ∀ (fuel n : Nat) (acc : List Char),
    0 < fuel → Nat.toDigitsCore 10 fuel n acc ≠ [] := by
  intro fuel
  induction fuel with
  | zero => intro n acc h; exact absurd h (Nat.lt_irrefl 0)
  | succ fuel ih =>
    intro n acc _
    rw [Nat.toDigitsCore]
    split
    · simp
    · rename_i hn
      cases fuel with
      | zero =>
        simp [Nat.toDigitsCore]
      | succ fuel => exact ih _ _ (Nat.succ_pos _)

theorem toDigits_ne_nil (n : Nat) : Nat.toDigits 10 n ≠ [] :=
  toDigitsCore_ne_nil _ _ [] (Nat.succ_pos n)

theorem digitsValue_toDigitsCore : ∀ (fuel n : Nat) (acc : List Char), n < fuel →
    digitsValue 0 (Nat.toDigitsCore 10 fuel n acc) = digitsValue n acc := by
  intro fuel
  induction fuel with
  | zero => intro n acc h; exact absurd h (Nat.not_lt_zero n)
  | succ fuel ih =>
    intro n acc h
    rw [Nat.toDigitsCore]
    have hd := digitChar_toNat (n % 10) (Nat.mod_lt _ (by decide))
    split
    · rename_i h0
      have hn : n % 10 = n := Nat.mod_eq_of_lt (by omega)
      simp only [digitsValue, List.foldl_cons, hd, Nat.mul_zero, Nat.zero_add]
      rw [hn]
    · rename_i h0
      rw [ih (n / 10) _ (by omega)]
      simp only [digitsValue, List.foldl_cons, hd]
      congr 1
      omega

/-- Different numbers have different decimal numerals. -/
theorem toDigits_injective {a b : Nat} (h : Nat.toDigits 10 a = Nat.toDigits 10 b) : a = b := by
  have ha := digitsValue_toDigitsCore (a + 1) a [] (Nat.lt_succ_self a)
  have hb := digitsValue_toDigitsCore (b + 1) b [] (Nat.lt_succ_self b)
  unfold Nat.toDigits at h
  rw [h, hb] at ha
  simpa [digitsValue] using ha.symm

theorem fmtD_natCast (n : Nat) : fmtD (n : Int) = Nat.toDigits 10 n := rfl

theorem fmtD_natCast_succ (n : Nat) : fmtD ((n : Int) + 1) = Nat.toDigits 10 (n + 1) := rfl

/-- A string `q` sharing no character with `new` that starts the result of
a replacement starts the original string. -/
theorem prefix_of_prefix_replaceAll (old new : GoString) (h : old ≠ []) (hnew : new ≠ []) :
    ∀ (q : GoString), (∀ c ∈ q, c ∉ new) → ∀ t : GoString,
      q <+: replaceAll t old new → q <+: t := by
  intro q
  induction q with
  | nil => intro _ t _; exact List.nil_prefix
  | cons a q ih =>
    intro hq t hp
    rcases scan_cases old t with rfl | ⟨t', rfl⟩ | ⟨c, t', rfl, hc⟩
    · rw [replaceAll_nil old new h] at hp
      simp at hp
    · rw [replaceAll_append old new t' h] at hp
      cases new with
      | nil => exact absurd rfl hnew
      | cons d0 d =>
        rw [List.cons_append, List.cons_prefix_cons] at hp
        exact absurd (by rw [hp.1]; exact List.mem_cons_self _ _) (hq a (List.mem_cons_self _ _))
    · rw [replaceAll_cons old new c t' h hc, List.cons_prefix_cons] at hp
      rw [List.cons_prefix_cons]
      exact ⟨hp.1, ih (fun x hx => hq x (List.mem_cons_of_mem _ hx)) t' hp.2⟩

theorem infix_of_infix_append (p d x : GoString) (hp : p ≠ []) (hd : ∀ c ∈ p, c ∉ d) :
    p <:+: d ++ x → p <:+: x := by
  induction d with
  | nil => intro h; simpa using h
  | cons c d ih =>
    intro h
    rw [List.cons_append, List.infix_cons_iff] at h
    rcases h with h | h
    · cases p with
      | nil => exact absurd rfl hp
      | cons a p' =>
        rw [List.cons_prefix_cons] at h
        exact absurd (by rw [h.1]; exact List.mem_cons_self _ _) (hd a (List.mem_cons_self _ _))
    · exact ih (fun y hy hyd => hd y hy (List.mem_cons_of_mem _ hyd)) h

/-- A string `p` sharing no character with `new` that does not occur in `s`
does not occur in `s` after the replacement of `old` by `new`. -/
theorem not_infix_replaceAll (old new p : GoString) (h : old ≠ []) (hnew : new ≠ [])
    (hp : p ≠ []) (hd : ∀ c ∈ p, c ∉ new) :
    ∀ (n : Nat) (s : GoString), s.length ≤ n → ¬ p <:+: s → ¬ p <:+: replaceAll s old new := by
  intro n
  induction n with
  | zero =>
    intro s hs hns
    have : s = [] := List.length_eq_zero.1 (Nat.le_zero.1 hs)
    subst this
    rw [replaceAll_nil old new h]
    exact hns
  | succ n ih =>
    intro s hs hns
    rcases scan_cases old s with rfl | ⟨t, rfl⟩ | ⟨c, t, rfl, hc⟩
    · rw [replaceAll_nil old new h]
      exact hns
    · rw [replaceAll_append old new t h]
      intro hin
      have hlen : t.length ≤ n := by
        have : 0 < old.length := List.length_pos.2 h
        simp only [List.length_append] at hs
        omega
      exact ih t hlen (fun ht => hns (ht.trans (List.suffix_append old t).isInfix))
        (infix_of_infix_append p new _ hp hd hin)
    · rw [replaceAll_cons old new c t h hc]
      intro hin
      have hlen : t.length ≤ n := by
        simp only [List.length_cons] at hs
        omega
      rw [List.infix_cons_iff] at hin
      rcases hin with hin | hin
      · cases p with
        | nil => exact absurd rfl hp
        | cons a p' =>
          rw [List.cons_prefix_cons] at hin
          have := prefix_of_prefix_replaceAll old new h hnew p'
            (fun x hx => hd x (List.mem_cons_of_mem _ hx)) t hin.2
          exact hns (List.IsPrefix.isInfix (List.cons_prefix_cons.2 ⟨hin.1, this⟩))
      · exact ih t hlen (fun ht => hns (ht.trans (List.suffix_cons c t).isInfix)) hin

/-! ## Placeholder substitution -/

theorem fmtD_ne_nil (i : Int) : fmtD i ≠ [] := by
  cases i with
  | ofNat n => exact toDigits_ne_nil n
  | negSucc n => simp [fmtD]

theorem fmtD_chars (i : Int) : ∀ c ∈ fmtD i, c.isDigit = true ∨ c = '-' := by
  cases i with
  | ofNat n => intro c hc; exact Or.inl (toDigits_isDigit n c hc)
  | negSucc n =>
    intro c hc
    simp only [fmtD, List.mem_cons] at hc
    rcases hc with hc | hc
    · exact Or.inr hc
    · exact Or.inl (toDigits_isDigit _ c hc)

theorem timePlaceholders_chars :
    ∀ p ∈ timePlaceholders, p ≠ [] ∧ ∀ c ∈ p, c.isDigit = false ∧ c ≠ '-' := by
  decide

theorem timePlaceholder_disjoint (i : Int) :
    ∀ p ∈ timePlaceholders, ∀ c ∈ p, c ∉ fmtD i := by
  intro p hp c hc hmem
  have h1 := (timePlaceholders_chars p hp).2 c hc
  rcases fmtD_chars i c hmem with h | h
  · rw [h1.1] at h; cases h
  · exact h1.2 h

/-- Replacements whose placeholders do not occur leave the string as it
is. -/
theorem foldl_replaceAll_id : ∀ (l : List (GoString × GoString)) (r : GoString),
    (∀ e ∈ l, e.1 ≠ [] ∧ ¬ e.1 <:+: r) →
    l.foldl (fun result e => replaceAll result e.1 e.2) r = r := by
  intro l
  induction l with
  | nil => intro r _; rfl
  | cons e l ih =>
    intro r h
    have he := h e (List.mem_cons_self _ _)
    rw [List.foldl_cons, replaceAll_of_not_infix e.1 e.2 he.1 r he.2]
    exact ih r (fun x hx => h x (List.mem_cons_of_mem _ hx))

namespace batchState

theorem finRange_eight : List.finRange 8 = [0, 1, 2, 3, 4, 5, 6, 7] := by
  decide

theorem replacements_time (now : Clock) (index : Int) :
    ∀ e ∈ [1, 2, 3, 4, 5, 6, 7].map (replacements now index), e.1 ∈ timePlaceholders := by
  intro e he
  simp only [List.map_cons, List.map_nil, List.mem_cons, List.mem_singleton,
    List.not_mem_nil, or_false] at he
  rcases he with he | he | he | he | he | he | he <;> subst he <;>
    simp [replacements, timePlaceholders]

/-- The entries visited are the eight entries of the map, in some order. -/
theorem visited_perm (now : Clock) (order : Equiv.Perm (Fin 8)) (index : Int) :
    (visited now order index).Perm
      (("$(n)".toList, fmtD (index + 1)) ::
        [1, 2, 3, 4, 5, 6, 7].map (replacements now index)) := by
  have h1 : List.Perm (([0, 1, 2, 3, 4, 5, 6, 7] : List (Fin 8)).map order)
      [0, 1, 2, 3, 4, 5, 6, 7] := by
    have := Equiv.Perm.map_finRange_perm order
    rwa [finRange_eight] at this
  have h2 := h1.map (replacements now index)
  rw [List.map_map] at h2
  exact h2

/-- When no time placeholder occurs in the path, `substitutePlaceholders`
replaces `$(n)` by the numeral of `index + 1` and nothing else, whatever the
time and the order in which the map is visited. -/
theorem substitutePlaceholders_number (now : Clock) (order : Equiv.Perm (Fin 8))
    (path : GoString) (index : Int) (ht : ∀ p ∈ timePlaceholders, ¬ p <:+: path) :
    substitutePlaceholders now order path index =
      replaceAll path "$(n)".toList (fmtD (index + 1)) := by
  have hperm := visited_perm now order index
  have hmem : ("$(n)".toList, fmtD (index + 1)) ∈ visited now order index :=
    hperm.symm.subset (List.mem_cons_self _ _)
  obtain ⟨l1, l2, hsplit⟩ := List.append_of_mem hmem
  have hrest : (l1 ++ l2).Perm ([1, 2, 3, 4, 5, 6, 7].map (replacements now index)) := by
    have : (("$(n)".toList, fmtD (index + 1)) :: (l1 ++ l2)).Perm
        (("$(n)".toList, fmtD (index + 1)) ::
          [1, 2, 3, 4, 5, 6, 7].map (replacements now index)) := by
      refine List.Perm.trans ?_ hperm
      rw [hsplit]
      exact List.perm_middle.symm
    exact this.cons_inv
  have htime : ∀ e ∈ l1 ++ l2, e.1 ∈ timePlaceholders :=
    fun e he => replacements_time now index e (hrest.subset he)
  have hfree : ∀ p ∈ timePlaceholders,
      ¬ p <:+: replaceAll path "$(n)".toList (fmtD (index + 1)) := by
    intro p hp
    exact not_infix_replaceAll "$(n)".toList (fmtD (index + 1)) p (by decide)
      (fmtD_ne_nil _) (timePlaceholders_chars p hp).1 (timePlaceholder_disjoint _ p hp)
      path.length path (Nat.le_refl _) (ht p hp)
  unfold substitutePlaceholders
  rw [hsplit, List.foldl_append, List.foldl_cons]
  rw [foldl_replaceAll_id l1 path (fun e he =>
    ⟨(timePlaceholders_chars e.1 (htime e (List.mem_append_left _ he))).1,
      ht e.1 (htime e (List.mem_append_left _ he))⟩)]
  exact foldl_replaceAll_id l2 _ (fun e he =>
    ⟨(timePlaceholders_chars e.1 (htime e (List.mem_append_right _ he))).1,
      hfree e.1 (htime e (List.mem_append_right _ he))⟩)

end batchState

/-- The length of the result of a replacement: the same number of
occurrences is replaced whatever the new string is. -/
theorem replaceAll_length (old : GoString) (h : old ≠ []) :
    ∀ (n : Nat) (s : GoString), s.length ≤ n →
      ∃ c, (old <:+: s → 0 < c) ∧
        ∀ new, (replaceAll s old new).length + c * old.length = s.length + c * new.length := by
  intro n
  induction n with
  | zero =>
    intro s hs
    have : s = [] := List.length_eq_zero.1 (Nat.le_zero.1 hs)
    subst this
    refine ⟨0, ?_, ?_⟩
    · intro hin
      exact absurd (List.eq_nil_of_infix_nil hin) h
    · intro new
      simp [replaceAll_nil old new h]
  | succ n ih =>
    intro s hs
    rcases scan_cases old s with rfl | ⟨t, rfl⟩ | ⟨c, t, rfl, hc⟩
    · refine ⟨0, ?_, ?_⟩
      · intro hin
        exact absurd (List.eq_nil_of_infix_nil hin) h
      · intro new
        simp [replaceAll_nil old new h]
    · have hlen : t.length ≤ n := by
        have : 0 < old.length := List.length_pos.2 h
        simp only [List.length_append] at hs
        omega
      obtain ⟨c, -, hc⟩ := ih t hlen
      refine ⟨c + 1, fun _ => Nat.succ_pos c, ?_⟩
      intro new
      have := hc new
      rw [replaceAll_append old new t h]
      simp only [List.length_append, Nat.succ_mul]
      omega
    · have hlen : t.length ≤ n := by
        simp only [List.length_cons] at hs
        omega
      obtain ⟨k, hk, hk2⟩ := ih t hlen
      refine ⟨k, ?_, ?_⟩
      · intro hin
        rw [List.infix_cons_iff] at hin
        rcases hin with hin | hin
        · exact absurd hin hc
        · exact hk hin
      · intro new
        have := hk2 new
        rw [replaceAll_cons old new c t h hc]
        simp only [List.length_cons]
        omega

/-- Replacing an `old` that occurs by two strings of the same length gives
different results unless the strings are equal. -/
theorem replaceAll_injective_of_length (old : GoString) (h : old ≠ []) (n1 n2 : GoString)
    (hl : n1.length = n2.length) :
    ∀ (n : Nat) (s : GoString), s.length ≤ n → old <:+: s →
      replaceAll s old n1 = replaceAll s old n2 → n1 = n2 := by
  intro n
  induction n with
  | zero =>
    intro s hs hin
    have : s = [] := List.length_eq_zero.1 (Nat.le_zero.1 hs)
    subst this
    exact absurd (List.eq_nil_of_infix_nil hin) h
  | succ n ih =>
    intro s hs hin heq
    rcases scan_cases old s with rfl | ⟨t, rfl⟩ | ⟨c, t, rfl, hc⟩
    · exact absurd (List.eq_nil_of_infix_nil hin) h
    · rw [replaceAll_append old n1 t h, replaceAll_append old n2 t h] at heq
      exact (List.append_inj heq hl).1
    · have hlen : t.length ≤ n := by
        simp only [List.length_cons] at hs
        omega
      rw [replaceAll_cons old n1 c t h hc, replaceAll_cons old n2 c t h hc] at heq
      rw [List.infix_cons_iff] at hin
      rcases hin with hin | hin
      · exact absurd hin hc
      · exact ih t hlen hin (List.cons_injective heq)

/-- Replacing an `old` that occurs by different strings gives different
results. -/
theorem replaceAll_injective (old s n1 n2 : GoString) (h : old ≠ []) (hin : old <:+: s)
    (heq : replaceAll s old n1 = replaceAll s old n2) : n1 = n2 := by
  obtain ⟨c, hc, hlen⟩ := replaceAll_length old h s.length s (Nat.le_refl _)
  have h1 := hlen n1
  have h2 := hlen n2
  rw [heq] at h1
  have hmul : c * n1.length = c * n2.length := by omega
  have hl : n1.length = n2.length := Nat.eq_of_mul_eq_mul_left (hc hin) hmul
  exact replaceAll_injective_of_length old h n1 n2 hl s.length s (Nat.le_refl _) hin heq

/-! ## The paths resolved by `output` -/

theorem resolvedPaths_append (a b : List Event) :
    resolvedPaths (a ++ b) = resolvedPaths a ++ resolvedPaths b := by
  simp [resolvedPaths, List.filterMap_append]

theorem resolvedPaths_of_isCopy {l : List Event} (h : ∀ e ∈ l, isCopy e = true) :
    resolvedPaths l = [] := by
  unfold resolvedPaths
  rw [List.filterMap_eq_nil_iff]
  intro e he
  have := h e he
  cases e <;> first | rfl | simp [isCopy] at this

theorem resolvedPaths_of_onlyProgress {l : List Event} (h : OnlyProgress l) :
    resolvedPaths l = [] := by
  unfold resolvedPaths
  rw [List.filterMap_eq_nil_iff]
  intro e he
  have := h e he
  cases e <;> first | rfl | simp [isProgress] at this

namespace batchState

/-- The paths a loop of `save` calls resolves when the path resolved for an
index is `g` of the index: the paths of the calls made, in order. -/
theorem saveEach_resolved (env : Env) (g : Int → GoString) :
    ∀ (calls : List (Int × List ScanResult)) (s : batchState),
    (∀ now order idx, substitutePlaceholders now order s.settings.SavePath idx = g idx) →
    (∀ c ∈ calls, c.2 ≠ []) →
    ∃ l, (saveEach env calls s).1.trace = s.trace ++ l ∧
      resolvedPaths l <+: calls.map (fun c => g c.1) ∧
      ((saveEach env calls s).2 = none → resolvedPaths l = calls.map (fun c => g c.1)) := by
  intro calls
  induction calls with
  | nil =>
    intro s _ _
    exact ⟨[], by simp [saveEach], by simp [resolvedPaths], by simp [resolvedPaths]⟩
  | cons c rest ih =>
    intro s hg hne
    obtain ⟨i, images⟩ := c
    obtain ⟨body, hb, e1, -, -⟩ := save_spec s env i images
      (hne (i, images) (List.mem_cons_self _ _))
    have hpath : targetPath env s i = g i := hg _ _ _
    have hres : ∀ r, resolvedPaths (Event.saveBegin i images :: Event.mkdirAll (g i) ::
        (body ++ [Event.saveEnd r])) = [g i] := by
      intro r
      have h1 : resolvedPaths (body ++ [Event.saveEnd r]) = [] := by
        rw [resolvedPaths_append, resolvedPaths_of_isCopy hb]
        rfl
      have h2 : ∀ x, resolvedPaths (Event.saveBegin i images :: Event.mkdirAll (g i) :: x) =
          g i :: resolvedPaths x := fun x => rfl
      rw [h2, h1]
    rw [hpath] at e1
    rw [saveEach]
    cases hr : s.save env i images with
    | mk s1 r1 =>
      rw [hr] at e1
      simp only at e1
      cases r1 with
      | some err =>
        refine ⟨Event.saveBegin i images :: Event.mkdirAll (g i) ::
          (body ++ [Event.saveEnd (some err)]), by rw [e1], ?_, ?_⟩
        · rw [hres]
          simp
        · intro h
          cases h
      | none =>
        have hs1 : s1.settings = s.settings := by rw [e1]
        obtain ⟨l2, e2, p2, f2⟩ := ih s1 (by rw [hs1]; exact hg)
          (fun c hc => hne c (List.mem_cons_of_mem _ hc))
        refine ⟨Event.saveBegin i images :: Event.mkdirAll (g i) ::
          (body ++ [Event.saveEnd none]) ++ l2, ?_, ?_, ?_⟩
        · simp only
          rw [e2, e1]
          simp
        · rw [resolvedPaths_append, hres]
          simpa using p2
        · intro h
          rw [resolvedPaths_append, hres, f2 h]
          simp

/-- C8, as the code has it. With `MultipleFiles` and `FilePerPage`, for a
save path in which `$(n)` occurs and no time placeholder does, and batches
of `k` pages in all: the `k` strings obtained from the save path by
replacing `$(n)` by the numerals of `1..k` are pairwise distinct, and the
paths `output` resolves are the first ones of them, in that order, whatever
the clock and the order of the map; they are all `k` of them when `output`
returns nil. -/
theorem output_file_per_page_targets (s : batchState) (env : Env)
    (hOut : s.settings.OutputType = BatchOutputMultipleFiles)
    (hSep : s.settings.SaveSeparator = SaveSeparatorFilePerPage)
    (hn : "$(n)".toList <:+: s.settings.SavePath)
    (ht : ∀ p ∈ timePlaceholders, ¬ p <:+: s.settings.SavePath) :
    ((List.range s.scans.flatten.length).map (fun j =>
      replaceAll s.settings.SavePath "$(n)".toList (Nat.toDigits 10 (j + 1)))).Nodup ∧
    ∃ l, (s.output env).1.trace = s.trace ++ l ∧
      resolvedPaths l <+: (List.range s.scans.flatten.length).map (fun j =>
        replaceAll s.settings.SavePath "$(n)".toList (Nat.toDigits 10 (j + 1))) ∧
      ((s.output env).2 = none →
        resolvedPaths l = (List.range s.scans.flatten.length).map (fun j =>
          replaceAll s.settings.SavePath "$(n)".toList (Nat.toDigits 10 (j + 1)))) := by
  constructor
  · apply List.Nodup.map_on _ (List.nodup_range _)
    intro a _ b _ hab
    have := toDigits_injective (replaceAll_injective _ _ _ _ (by decide) hn hab)
    omega
  · obtain ⟨lp, hp, e⟩ := output_eq s env
    have hnl : ¬ s.settings.OutputType = BatchOutputLoad := by
      rw [hOut]; decide
    have hns : ¬ s.settings.OutputType = BatchOutputSingleFile := by
      rw [hOut]; decide
    have hcalls : (multipleCalls s).map (fun c =>
        replaceAll s.settings.SavePath "$(n)".toList (fmtD (c.1 + 1))) =
        (List.range s.scans.flatten.length).map (fun j =>
          replaceAll s.settings.SavePath "$(n)".toList (Nat.toDigits 10 (j + 1))) := by
      unfold multipleCalls rangeOf
      rw [if_pos hSep, List.map_map, ← List.enum_map_fst, List.map_map, List.enum_map,
        List.map_map]
      rfl
    have hne : ∀ c ∈ multipleCalls s, c.2 ≠ [] := by
      intro c hc
      unfold multipleCalls rangeOf at hc
      rw [if_pos hSep, List.enum_map, List.map_map] at hc
      obtain ⟨x, -, rfl⟩ := List.mem_map.1 hc
      simp
    obtain ⟨l, e1, p1, f1⟩ := saveEach_resolved env
      (fun idx => replaceAll s.settings.SavePath "$(n)".toList (fmtD (idx + 1)))
      (multipleCalls s) { s with trace := s.trace ++ Event.outputBegin :: lp }
      (fun now order idx => substitutePlaceholders_number now order _ idx ht) hne
    rw [hcalls] at p1 f1
    rw [e, if_neg hnl, if_neg hns, if_pos hOut]
    have hpre : resolvedPaths (Event.outputBegin :: lp ++ l) = resolvedPaths l := by
      rw [resolvedPaths_append]
      have : resolvedPaths (Event.outputBegin :: lp) = resolvedPaths lp := rfl
      rw [this, resolvedPaths_of_onlyProgress hp]
      rfl
    refine ⟨Event.outputBegin :: lp ++ l, ?_, ?_, ?_⟩
    · rw [e1]; simp
    · rw [hpre]; exact p1
    · rw [hpre]; exact f1

end batchState

/-! ## `filepath.Ext` -/

theorem extScan_skip (w : Bool) : ∀ (pre rest acc : GoString), (∀ c ∈ pre, plainChar w c) →
    extScan w (pre ++ rest) acc = extScan w rest (pre.reverse ++ acc) := by
  intro pre
  induction pre with
  | nil => intro rest acc _; rfl
  | cons c pre ih =>
    intro rest acc h
    have hc := h c (List.mem_cons_self _ _)
    rw [List.cons_append, extScan, if_neg (by simp [hc.1]), if_neg hc.2,
      ih rest (c :: acc) (fun x hx => h x (List.mem_cons_of_mem _ hx))]
    simp

theorem dot_not_separator (w : Bool) : isPathSeparator w '.' = false := by
  cases w <;> decide

theorem extScan_dot (w : Bool) (post acc : GoString) :
    extScan w ('.' :: post) acc = '.' :: acc := by
  rw [extScan, if_neg (by simp [dot_not_separator]), if_pos rfl]

theorem extScan_nil_acc (w : Bool) : ∀ (rev acc acc2 : GoString),
    extScan w rev acc = [] → extScan w rev acc2 = [] := by
  intro rev
  induction rev with
  | nil => intro _ _ _; rfl
  | cons c rev ih =>
    intro acc acc2 h
    rw [extScan] at h ⊢
    by_cases h1 : isPathSeparator w c = true
    · rw [if_pos h1]
    · rw [if_neg h1] at h ⊢
      by_cases h2 : c = '.'
      · rw [if_pos h2] at h
        cases h
      · rw [if_neg h2] at h ⊢
        exact ih _ _ h

theorem extScan_split (w : Bool) : ∀ (rev acc : GoString),
    extScan w rev acc = [] ∨
      ∃ pre post, rev = pre ++ '.' :: post ∧ (∀ c ∈ pre, plainChar w c) ∧
        extScan w rev acc = '.' :: (pre.reverse ++ acc) := by
  intro rev
  induction rev with
  | nil => intro _; exact Or.inl rfl
  | cons c rev ih =>
    intro acc
    rw [extScan]
    by_cases h1 : isPathSeparator w c = true
    · rw [if_pos h1]; exact Or.inl rfl
    · rw [if_neg h1]
      by_cases h2 : c = '.'
      · rw [if_pos h2]
        exact Or.inr ⟨[], rev, by rw [h2]; rfl, by simp, by simp [h2]⟩
      · rw [if_neg h2]
        rcases ih (c :: acc) with h | ⟨pre, post, hrev, hpre, hres⟩
        · exact Or.inl h
        · refine Or.inr ⟨c :: pre, post, by rw [hrev]; rfl, ?_, by rw [hres]; simp⟩
          intro x hx
          rcases List.mem_cons.1 hx with hx | hx
          · rw [hx]; exact ⟨by simpa using h1, h2⟩
          · exact hpre x hx

/-- The extension is the end of the path, and it is empty or a dot followed
by characters that are neither separators nor dots. -/
theorem filepathExt_suffix (w : Bool) (path : GoString) :
    ∃ base, path = base ++ filepathExt w path ∧
      (filepathExt w path = [] ∨
        ∃ e, filepathExt w path = '.' :: e ∧ ∀ c ∈ e, plainChar w c) := by
  unfold filepathExt
  rcases extScan_split w path.reverse [] with h | ⟨pre, post, hrev, hpre, hres⟩
  · exact ⟨path, by rw [h]; simp, Or.inl h⟩
  · refine ⟨post.reverse, ?_, Or.inr ⟨pre.reverse, by rw [hres]; simp, ?_⟩⟩
    · rw [hres]
      have := congrArg List.reverse hrev
      simpa using this
    · intro c hc
      exact hpre c (List.mem_reverse.1 hc)

/-- Plain characters put right before the extension leave it as it is. -/
theorem filepathExt_insert (w : Bool) (base mid : GoString)
    (hmid : ∀ c ∈ mid, plainChar w c) (ext : GoString)
    (hext : filepathExt w (base ++ ext) = ext) :
    filepathExt w (base ++ mid ++ ext) = ext := by
  obtain ⟨b, -, hshape⟩ := filepathExt_suffix w (base ++ ext)
  rw [hext] at hshape
  rcases hshape with h | ⟨e, he, hplain⟩
  · subst h
    simp only [List.append_nil] at hext ⊢
    unfold filepathExt at hext ⊢
    rw [List.reverse_append, extScan_skip w mid.reverse base.reverse []
      (fun c hc => hmid c (List.mem_reverse.1 hc))]
    exact extScan_nil_acc w _ _ _ hext
  · subst he
    unfold filepathExt
    have : (base ++ mid ++ '.' :: e).reverse = e.reverse ++ '.' :: (base ++ mid).reverse := by
      simp
    rw [this, extScan_skip w e.reverse _ [] (fun c hc => hplain c (List.mem_reverse.1 hc)),
      extScan_dot]
    simp

theorem trimSuffix_append (base ext : GoString) : trimSuffix (base ++ ext) ext = base := by
  unfold trimSuffix
  have : ext.isSuffixOf (base ++ ext) = true := by
    rw [List.isSuffixOf_iff_suffix]
    exact List.suffix_append base ext
  rw [if_pos this]
  simp

theorem digit_plain (w : Bool) (c : Char) (h : c.isDigit = true) : plainChar w c := by
  constructor
  · unfold isPathSeparator
    have h1 : c ≠ '/' := by
      intro hc; rw [hc] at h; revert h; decide
    have h2 : c ≠ Char.ofNat 92 := by
      intro hc; rw [hc] at h; revert h; decide
    simp [h1, h2]
  · intro hc; rw [hc] at h; revert h; decide

theorem underscore_plain (w : Bool) : plainChar w '_' := by
  constructor
  · cases w <;> decide
  · decide

/-! ## Saving to image targets -/

theorem filter_isWrite_of_isCopy_marks (i : Int) (images : List ScanResult) (p : GoString)
    (body : List Event) (r : Option GoError) :
    (Event.saveBegin i images :: Event.mkdirAll p :: (body ++ [Event.saveEnd r])).filter isWrite
      = body.filter isWrite := by
  simp [List.filter_cons, List.filter_append, isWrite]

namespace batchState

theorem addIndexToPath_eq (w : Bool) (path base : GoString)
    (h : path = base ++ filepathExt w path) (k : Nat) :
    addIndexToPath w path (k : Int) =
      base ++ "_".toList ++ Nat.toDigits 10 (k + 1) ++ filepathExt w path := by
  have ht : trimSuffix path (filepathExt w path) = base := by
    have := trimSuffix_append base (filepathExt w path)
    rw [← h] at this
    exact this
  unfold addIndexToPath
  simp only [ht]
  rfl

theorem indexedWrites_eq (w : Bool) (path base : GoString)
    (h : path = base ++ filepathExt w path) (images : List ScanResult) :
    indexedWrites w path images 0 =
      images.enum.map (fun p => Event.writeFile
        (base ++ "_".toList ++ Nat.toDigits 10 (p.1 + 1) ++ filepathExt w path) p.2.FilePath) := by
  unfold indexedWrites List.enum
  apply List.map_congr_left
  intro p _
  rw [addIndexToPath_eq w path base h]

/-- C10. For a call of `save` with at least one image whose resolved path
does not have the extension `.pdf`, the resolved path being `base` followed
by its extension: the writes are, in order, the first ones of this list, and
all of it when `save` returns nil, which it does when no file-system call
fails.  For a single image the list is one write, to the resolved path
itself; for several images it is one write for each image, the image at
position `i` (from 1) going to `base`, `_`, the numeral of `i` and the
extension.  These paths are pairwise distinct and each has the extension of
the resolved path. -/
theorem save_image_writes (s : batchState) (env : Env) (index : Int)
    (images : List ScanResult) (hne : images ≠ [])
    (hext : toLower (filepathExt env.windows (targetPath env s index)) ≠ ".pdf".toList) :
    ∃ base body,
      targetPath env s index = base ++ filepathExt env.windows (targetPath env s index) ∧
      (s.save env index images).1.trace = s.trace ++ body ∧
      body.filter isWrite <+:
        (if images.length = 1 then
          images.map (fun p => Event.writeFile (targetPath env s index) p.FilePath)
        else
          images.enum.map (fun p => Event.writeFile
            (base ++ "_".toList ++ Nat.toDigits 10 (p.1 + 1)
              ++ filepathExt env.windows (targetPath env s index)) p.2.FilePath)) ∧
      ((s.save env index images).2 = none →
        body.filter isWrite =
          (if images.length = 1 then
            images.map (fun p => Event.writeFile (targetPath env s index) p.FilePath)
          else
            images.enum.map (fun p => Event.writeFile
              (base ++ "_".toList ++ Nat.toDigits 10 (p.1 + 1)
                ++ filepathExt env.windows (targetPath env s index)) p.2.FilePath))) ∧
      ((∀ j, env.io j = none) → (s.save env index images).2 = none) ∧
      (images.enum.map (fun p =>
        base ++ "_".toList ++ Nat.toDigits 10 (p.1 + 1)
          ++ filepathExt env.windows (targetPath env s index))).Nodup ∧
      (∀ i : Nat, filepathExt env.windows
        (base ++ "_".toList ++ Nat.toDigits 10 i
          ++ filepathExt env.windows (targetPath env s index)) =
        filepathExt env.windows (targetPath env s index)) := by
  obtain ⟨base, hbase, -⟩ := filepathExt_suffix env.windows (targetPath env s index)
  obtain ⟨body, -, e, -, hw⟩ := save_spec s env index images hne
  obtain ⟨p, f, g⟩ := hw hext
  have hexp : expectedWrites env.windows (targetPath env s index) images =
      (if images.length = 1 then
        images.map (fun p => Event.writeFile (targetPath env s index) p.FilePath)
      else
        images.enum.map (fun p => Event.writeFile
          (base ++ "_".toList ++ Nat.toDigits 10 (p.1 + 1)
            ++ filepathExt env.windows (targetPath env s index)) p.2.FilePath)) := by
    unfold expectedWrites
    rw [indexedWrites_eq env.windows _ base hbase]
  rw [hexp] at p f
  refine ⟨base, _, hbase, by rw [e], ?_, ?_, g, ?_, ?_⟩
  · rw [filter_isWrite_of_isCopy_marks]
    exact p
  · intro h
    rw [filter_isWrite_of_isCopy_marks]
    exact f h
  · have hinj : Function.Injective (fun k : Nat =>
        base ++ "_".toList ++ Nat.toDigits 10 (k + 1)
          ++ filepathExt env.windows (targetPath env s index)) := by
      intro a b hab
      simp only [List.append_assoc, List.append_cancel_left_eq,
        List.append_cancel_right_eq] at hab
      have := toDigits_injective hab
      omega
    have hfst : (images.enum.map Prod.fst).Nodup := by
      rw [List.enum_map_fst]
      exact List.nodup_range _
    have := (List.Nodup.map hinj hfst)
    rw [List.map_map] at this
    exact this
  · intro i
    have hmid : ∀ c ∈ "_".toList ++ Nat.toDigits 10 i, plainChar env.windows c := by
      intro c hc
      rcases List.mem_append.1 hc with hc | hc
      · simp at hc
        rw [hc]
        exact underscore_plain _
      · exact digit_plain _ c (toDigits_isDigit i c hc)
    have := filepathExt_insert env.windows base ("_".toList ++ Nat.toDigits 10 i) hmid
      (filepathExt env.windows (targetPath env s index)) (by rw [← hbase])
    rw [← List.append_assoc] at this
    exact this

end batchState

/-! ## PDF targets -/

set_option maxRecDepth 100000 in
/-- Counterexample to C9 as stated: in its scenario, with a device that
yields three pages and a file system that never fails, `PerformBatchScan`
returns the batch of three pages with the error
`PDF export not yet implemented`, and no page is read or written. -/
theorem pdf_scenario_fails :
    (PerformBatchScan (demoEnv none) [] pdfSettings).1 = [demoPages] ∧
    (PerformBatchScan (demoEnv none) [] pdfSettings).2.1 =
      some (GoError.leaf "PDF export not yet implemented".toList) ∧
    (PerformBatchScan (demoEnv none) [] pdfSettings).2.2.trace.filter isCopy = [] := by
  decide

set_option maxRecDepth 100000 in
/-- Counterexample to C8 as stated: the save path `out_$(n).pdf` holds
`$(n)` and no time placeholder and the batches hold three pages, yet
`output` with `FilePerPage` resolves one target only, because the first call
of `save` fails. -/
theorem per_page_pdf_resolves_one :
    "$(n)".toList <:+: perPagePdfDemo.settings.SavePath ∧
    (∀ p ∈ timePlaceholders, ¬ p <:+: perPagePdfDemo.settings.SavePath) ∧
    perPagePdfDemo.settings.OutputType = BatchOutputMultipleFiles ∧
    perPagePdfDemo.settings.SaveSeparator = SaveSeparatorFilePerPage ∧
    perPagePdfDemo.scans.flatten.length = 3 ∧
    resolvedPaths (perPagePdfDemo.output (demoEnv none)).1.trace = ["out_1.pdf".toList] := by
  decide

theorem filter_isCopy_of_onlyProgress {l : List Event} (h : OnlyProgress l) :
    l.filter isCopy = [] :=
  filter_onlyProgress (f := isCopy) (fun _ => rfl) h

namespace batchState

theorem out_pdf_target (now : Clock) (order : Equiv.Perm (Fin 8)) :
    substitutePlaceholders now order "out_$(n).pdf".toList 0 = "out_1.pdf".toList := by
  rw [substitutePlaceholders_number now order _ 0 (by decide)]
  decide

theorem out_pdf_ext (w : Bool) :
    toLower (filepathExt w "out_1.pdf".toList) = ".pdf".toList := by
  cases w <;> decide

/-- A call of `save` with at least one image whose resolved path has the
extension `.pdf` fails without reading or writing a file. -/
theorem save_pdf (s : batchState) (env : Env) (index : Int) (images : List ScanResult)
    (hne : images ≠ [])
    (hpdf : toLower (filepathExt env.windows (targetPath env s index)) = ".pdf".toList) :
    (s.save env index images).2 ≠ none ∧
    (env.io s.nIO = none → (s.save env index images).2 =
      some (GoError.leaf "PDF export not yet implemented".toList)) ∧
    (s.save env index images).1.trace =
      s.trace ++ [Event.saveBegin index images, Event.mkdirAll (targetPath env s index),
        Event.saveEnd (s.save env index images).2] := by
  obtain ⟨body, -, e, hp, -⟩ := save_spec s env index images hne
  obtain ⟨hb, h1, h2⟩ := hp hpdf
  subst hb
  exact ⟨h1, h2, by rw [e]; simp⟩

/-- C9, as the code has it. For scan type `Single`, output type
`SingleFile`, the save path `out_$(n).pdf` and a device that yields 3 pages,
`PerformBatchScan` returns one batch of these 3 pages together with a
non-nil error, which is `PDF export not yet implemented` when the output
directory could be made; it has resolved the one target `out_1.pdf` and has
read and written no file.  In general a call of `save` with at least one
page whose resolved path has the extension `.pdf`, in any letter case,
returns an error and reads and writes no file. -/
theorem pdf_target_not_saved (env : Env) (scannerID : GoString) (settings : BatchSettings)
    (ticks : Nat) (pages : List ScanResult)
    (hType : settings.ScanType = BatchScanSingle)
    (hOut : settings.OutputType = BatchOutputSingleFile)
    (hPath : settings.SavePath = "out_$(n).pdf".toList)
    (hDriver : env.driver 0 = ⟨ticks, pages, none⟩) (hPages : pages.length = 3) :
    (PerformBatchScan env scannerID settings).1 = [pages] ∧
    (PerformBatchScan env scannerID settings).2.1 ≠ none ∧
    (env.io 0 = none → (PerformBatchScan env scannerID settings).2.1 =
      some (GoError.leaf "PDF export not yet implemented".toList)) ∧
    resolvedPaths (PerformBatchScan env scannerID settings).2.2.trace = ["out_1.pdf".toList] ∧
    (PerformBatchScan env scannerID settings).2.2.trace.filter isCopy = [] ∧
    (∀ (s : batchState) (index : Int) (images : List ScanResult), images ≠ [] →
      toLower (filepathExt env.windows (targetPath env s index)) = ".pdf".toList →
      (s.save env index images).2 ≠ none ∧
      ∃ l, (s.save env index images).1.trace = s.trace ++ l ∧ l.filter isCopy = []) := by
  have hP : PerformBatchScan env scannerID settings =
      (initialState scannerID settings).do_ env := rfl
  have hpne : pages ≠ [] := by
    intro h; rw [h] at hPages; cases hPages
  have hlen0 : ¬ pages.length = 0 := by omega
  -- the input phase
  obtain ⟨l1, l2, h1, h2, ei⟩ := inputOneScan_eq (initialState scannerID settings) env (-1)
  have hin : (initialState scannerID settings).input env =
      (({ scannerID := scannerID, settings := settings, scans := [pages],
          trace := l1 ++ Event.scan scannerID settings.ScanParams :: l2,
          nScan := 1, nWait := 0, nNow := 0, nIO := 0 } : batchState), none) := by
    rw [input_of_single env _ hType, ei]
    simp [initialState, hDriver, oneScanErr, oneScanBatch, hlen0]
  -- the output phase
  obtain ⟨lp, hp, eo⟩ := output_eq
    ({ scannerID := scannerID, settings := settings, scans := [pages],
       trace := l1 ++ Event.scan scannerID settings.ScanParams :: l2,
       nScan := 1, nWait := 0, nNow := 0, nIO := 0 } : batchState) env
  have hnl : ¬ settings.OutputType = BatchOutputLoad := by
    rw [hOut]; decide
  have hflat : ([pages] : List (List ScanResult)).flatten = pages := by simp
  dsimp only at eo
  rw [if_neg hnl, if_pos hOut, hflat, if_pos (by omega)] at eo
  have htarget : ∀ t a b c, targetPath env
      ({ scannerID := scannerID, settings := settings, scans := [pages], trace := t,
         nScan := a, nWait := b, nNow := c, nIO := 0 } : batchState) 0 = "out_1.pdf".toList := by
    intro t a b c
    unfold targetPath
    dsimp only
    rw [hPath]
    exact out_pdf_target _ _
  obtain ⟨hs1, hs2, hs3⟩ := save_pdf
    { scannerID := scannerID, settings := settings, scans := [pages],
      trace := l1 ++ Event.scan scannerID settings.ScanParams :: l2 ++ Event.outputBegin :: lp,
      nScan := 1, nWait := 0, nNow := 0, nIO := 0 } env 0 pages hpne
    (by rw [htarget]; exact out_pdf_ext _)
  rw [htarget] at hs3
  dsimp only at hs2 hs3
  have hst := (do_state (initialState scannerID settings) env)
  have herr := do_error (initialState scannerID settings) env
  rw [hin] at hst herr
  dsimp only at hst herr
  rw [eo] at hst herr
  refine ⟨?_, ?_, ?_, ?_, ?_, ?_⟩
  · rw [hP, hst.2]
  · rw [hP, herr]
    revert hs1
    cases (save _ env 0 pages).2 <;> simp
  · intro hio
    rw [hP, herr, hs2 hio]
  · have hc : ∀ (x : List Event) (a : GoString) (p : ScanParams),
        resolvedPaths (Event.scan a p :: x) = resolvedPaths x := fun _ _ _ => rfl
    have hd : ∀ (x : List Event), resolvedPaths (Event.outputBegin :: x) = resolvedPaths x :=
      fun _ => rfl
    rw [hP, hst.1, hs3]
    simp only [resolvedPaths_append, resolvedPaths_of_onlyProgress h1, hc, hd,
      resolvedPaths_of_onlyProgress h2, resolvedPaths_of_onlyProgress hp, List.nil_append]
    rfl
  · rw [hP, hst.1, hs3]
    simp only [List.filter_append, List.filter_cons, filter_isCopy_of_onlyProgress h1,
      filter_isCopy_of_onlyProgress h2, filter_isCopy_of_onlyProgress hp, isCopy]
    simp
  · intro s index images hne hpdf
    obtain ⟨g1, -, g3⟩ := save_pdf s env index images hne hpdf
    exact ⟨g1, _, g3, by simp [List.filter_cons, isCopy]⟩

/-! ## The statements at concrete inputs -/

/-- Witness of C2: a run of three scans with a delay on a device that always
yields pages. -/
theorem input_delay_calls_witness :
    (0 < 3 ∧ delayDemo.settings.ScanType = BatchScanMultipleWithDelay ∧
      delayDemo.settings.ScanCount = 3) ∧
    ((delayDemo.input (demoEnv none)).2 = none ∧
      ∃ l, (delayDemo.input (demoEnv none)).1.trace = delayDemo.trace ++ l ∧
        l.filter isCall = Event.scan delayDemo.scannerID delayDemo.settings.ScanParams ::
          (List.replicate (3 - 1)
            [Event.wait delayDemo.settings.ScanIntervalSeconds,
             Event.scan delayDemo.scannerID delayDemo.settings.ScanParams]).flatten ∧
        (l.filter isScan).length = 3 ∧ (l.filter isWait).length = 3 - 1) :=
  ⟨⟨by decide, rfl, rfl⟩,
    input_delay_calls (demoEnv none) delayDemo 3 (by decide) rfl rfl
      (fun _ _ => ⟨rfl, show demoPages ≠ [] by decide⟩) (fun _ _ => rfl)⟩

/-- Witness of C3: a single scan whose settings hold a scan count of 7. -/
theorem input_single_or_prompt_calls_witness :
    singleDemo.settings.ScanCount = 7 ∧
    ∃ l, (singleDemo.input (demoEnv none)).1.trace = singleDemo.trace ++ l ∧
      l.filter isCall = [Event.scan singleDemo.scannerID singleDemo.settings.ScanParams] ∧
      (l.filter isScan).length = 1 ∧ (l.filter isWait).length = 0 :=
  ⟨rfl, input_single_or_prompt_calls (demoEnv none) singleDemo (Or.inl rfl)⟩

/-- Witness of C4: a run of three scans with a delay whose second invocation
fails with a paper jam. -/
theorem input_delay_first_failure_witness :
    (delayDemo.input (demoEnv (some 1))).2 = some (GoError.leaf "paper jam".toList) ∧
    (delayDemo.input (demoEnv (some 1))).1.scans =
      delayDemo.scans ++
        (List.range 1).map (fun j => ((demoEnv (some 1)).driver (delayDemo.nScan + j)).results) ∧
    ∃ l, (delayDemo.input (demoEnv (some 1))).1.trace = delayDemo.trace ++ l ∧
      (l.filter isScan).length = 1 + 1 :=
  input_delay_first_failure (demoEnv (some 1)) delayDemo 3 1 (GoError.leaf "paper jam".toList)
    rfl rfl (by decide)
    (fun j hj => by
      have : j = 0 := by omega
      subst this
      exact ⟨rfl, show demoPages ≠ [] by decide⟩)
    rfl (fun _ _ => rfl)

set_option maxRecDepth 100000 in
/-- Witness of C6: two batches, of three pages in all, saved as one file:
`save` is entered once, with index 0 and the three pages in order. -/
theorem output_single_file_witness :
    ((singleFileDemo.output (demoEnv none)).1.trace.filter isSaveBegin =
      [Event.saveBegin 0 [demoPage 1 "p1.jpg".toList, demoPage 2 "p2.jpg".toList,
        demoPage 1 "p3.jpg".toList]]) ∧
    ∃ l, (singleFileDemo.output (demoEnv none)).1.trace = singleFileDemo.trace ++ l ∧
      (singleFileDemo.scans.flatten ≠ [] →
        l.filter isSaveBegin = [Event.saveBegin 0 singleFileDemo.scans.flatten]) ∧
      (singleFileDemo.scans.flatten = [] →
        l.filter isSaveBegin = [] ∧ (singleFileDemo.output (demoEnv none)).2 = none) :=
  ⟨by decide, output_single_file singleFileDemo (demoEnv none) rfl⟩

set_option maxRecDepth 100000 in
/-- Witness of C7: two batches, of sizes 2 and 1, saved with one file per
page: `save` is entered three times, with the indexes 0, 1 and 2 and one
page each, and returns nil each time. -/
theorem output_multiple_files_witness :
    ((perPageDemo.output (demoEnv none)).1.trace.filter isSaveMark =
      [Event.saveBegin 0 [demoPage 1 "p1.jpg".toList], Event.saveEnd none,
       Event.saveBegin 1 [demoPage 2 "p2.jpg".toList], Event.saveEnd none,
       Event.saveBegin 2 [demoPage 1 "p3.jpg".toList], Event.saveEnd none]) ∧
    ∃ calls l rs, (perPageDemo.output (demoEnv none)).1.trace = perPageDemo.trace ++ l ∧
      calls =
        (if perPageDemo.settings.SaveSeparator = SaveSeparatorFilePerPage then
          perPageDemo.scans.flatten.enum.map (fun p => ((p.1 : Int), [p.2]))
        else perPageDemo.scans.enum.map (fun p => ((p.1 : Int), p.2))) ∧
      l.filter isSaveMark = saveMarks calls rs ∧
      ((rs = List.replicate calls.length none ∧ (perPageDemo.output (demoEnv none)).2 = none) ∨
        (∃ k e, k < calls.length ∧ rs = List.replicate k none ++ [some e] ∧
          (perPageDemo.output (demoEnv none)).2 = some e)) :=
  ⟨by decide, output_multiple_files perPageDemo (demoEnv none) rfl⟩

set_option maxRecDepth 100000 in
/-- Witness of C8: batches of sizes 2 and 1 and the save path `out_$(n).png`
give the three targets numbered 1, 2 and 3. -/
theorem output_file_per_page_targets_witness :
    (perPageDemo.scans.map List.length = [2, 1] ∧
      resolvedPaths (perPageDemo.output (demoEnv none)).1.trace =
        ["out_1.png".toList, "out_2.png".toList, "out_3.png".toList]) ∧
    (((List.range perPageDemo.scans.flatten.length).map (fun j =>
        replaceAll perPageDemo.settings.SavePath "$(n)".toList (Nat.toDigits 10 (j + 1)))).Nodup ∧
      ∃ l, (perPageDemo.output (demoEnv none)).1.trace = perPageDemo.trace ++ l ∧
        resolvedPaths l <+: (List.range perPageDemo.scans.flatten.length).map (fun j =>
          replaceAll perPageDemo.settings.SavePath "$(n)".toList (Nat.toDigits 10 (j + 1))) ∧
        ((perPageDemo.output (demoEnv none)).2 = none →
          resolvedPaths l = (List.range perPageDemo.scans.flatten.length).map (fun j =>
            replaceAll perPageDemo.settings.SavePath "$(n)".toList
              (Nat.toDigits 10 (j + 1))))) :=
  ⟨⟨rfl, by decide⟩,
    output_file_per_page_targets perPageDemo (demoEnv none) rfl rfl (by decide) (by decide)⟩

/-- Witness of C1: with an unknown scan type and an unknown output type both
phases fail, `output` still runs once, and the error reports both failures. -/
theorem do_result_witness :
    (unknownDemo.do_ (demoEnv none)).1 = [] ∧
    ((unknownDemo.do_ (demoEnv none)).2.2.trace.filter isOutputBegin).length = 1 ∧
    ∃ c, (unknownDemo.do_ (demoEnv none)).2.1 = some c ∧
      c.Error = ("input failed: unknown batch scan type: burst, " ++
        "output failed: unknown output type: print").toList :=
  ⟨(do_result unknownDemo (demoEnv none)).2.2.1,
    (do_result unknownDemo (demoEnv none)).2.1,
    (do_result unknownDemo (demoEnv none)).2.2.2.2.2.2
      (GoError.leaf "unknown batch scan type: burst".toList)
      (GoError.leaf "unknown output type: print".toList) rfl (by decide) |>.imp
        (fun _ h => ⟨h.1, h.2.1⟩)⟩

/-- Witness of C5: a run of three scans returns three batches, none of them
empty. -/
theorem batches_nonempty_witness :
    (∀ batch ∈ (PerformBatchScan (demoEnv none) [] delayDemo.settings).1, batch ≠ []) ∧
    (PerformBatchScan (demoEnv none) [] delayDemo.settings).1.length = 3 :=
  ⟨(batches_nonempty (demoEnv none) [] delayDemo.settings).1, by decide⟩

/-- Witness of C9 as amended: the scenario on a device that yields the three
sample pages. -/
theorem pdf_target_not_saved_witness :
    (PerformBatchScan (demoEnv none) [] pdfSettings).1 = [demoPages] ∧
    (PerformBatchScan (demoEnv none) [] pdfSettings).2.1 ≠ none ∧
    resolvedPaths (PerformBatchScan (demoEnv none) [] pdfSettings).2.2.trace =
      ["out_1.pdf".toList] :=
  have h := pdf_target_not_saved (demoEnv none) [] pdfSettings 2 demoPages rfl rfl rfl rfl rfl
  ⟨h.1, h.2.1, h.2.2.2.1⟩

set_option maxRecDepth 100000 in
/-- Witness of C10: three pages saved to `scan.png` are written to
`scan_1.png`, `scan_2.png` and `scan_3.png`. -/
theorem save_image_writes_witness :
    ((singleFileDemo.save (demoEnv none) 0 demoPages).1.trace.filter isWrite =
      [Event.writeFile "scan_1.png".toList "p1.jpg".toList,
       Event.writeFile "scan_2.png".toList "p2.jpg".toList,
       Event.writeFile "scan_3.png".toList "p3.jpg".toList]) ∧
    ∃ base body,
      targetPath (demoEnv none) singleFileDemo 0 =
        base ++ filepathExt false (targetPath (demoEnv none) singleFileDemo 0) ∧
      (singleFileDemo.save (demoEnv none) 0 demoPages).1.trace = singleFileDemo.trace ++ body ∧
      ((singleFileDemo.save (demoEnv none) 0 demoPages).2 = none →
        body.filter isWrite =
          demoPages.enum.map (fun p => Event.writeFile
            (base ++ "_".toList ++ Nat.toDigits 10 (p.1 + 1)
              ++ filepathExt false (targetPath (demoEnv none) singleFileDemo 0)) p.2.FilePath)) ∧
      (singleFileDemo.save (demoEnv none) 0 demoPages).2 = none :=
  ⟨by decide,
    (save_image_writes singleFileDemo (demoEnv none) 0 demoPages (by decide) (by decide)).imp
      (fun _ h => h.imp (fun _ h => ⟨h.1, h.2.1, h.2.2.2.1, h.2.2.2.2.1 (fun _ => rfl)⟩))⟩

end batchState

theorem substituteFrom_skip (E : List (GoString × GoString)) : ∀ (pre t : GoString),
    substituteFrom E pre.length (pre ++ t) = substituteFrom E 0 t := by
  intro pre
  induction pre with
  | nil => intro t; rfl
  | cons a pre ih =>
    intro t
    show substituteFrom E (pre.length + 1) (a :: (pre ++ t)) = _
    cases h : pre ++ t with
    | nil =>
      have : pre = [] ∧ t = [] := List.append_eq_nil.mp h
      obtain ⟨rfl, rfl⟩ := this
      rfl
    | cons b u =>
      rw [← h]
      show substituteFrom E pre.length (pre ++ t) = _
      exact ih t

theorem substituteAll_nil (E : List (GoString × GoString)) : substituteAll E [] = [] := rfl

theorem substituteAll_none (E : List (GoString × GoString)) (c : Char) (t : GoString)
    (h : E.find? (fun e => e.1.isPrefixOf (c :: t)) = none) :
    substituteAll E (c :: t) = c :: substituteAll E t := by
  unfold substituteAll
  rw [substituteFrom, h]

theorem substituteAll_some (E : List (GoString × GoString)) (s : GoString)
    (e : GoString × GoString) (hk : e.1 ≠ [])
    (h : E.find? (fun e => e.1.isPrefixOf s) = some e) :
    ∃ t, s = e.1 ++ t ∧ substituteAll E s = e.2 ++ substituteAll E t := by
  have hp : e.1 <+: s := by
    have := List.find?_some h
    simpa using this
  obtain ⟨t, rfl⟩ := hp
  refine ⟨t, rfl, ?_⟩
  cases hk1 : e.1 with
  | nil => exact absurd hk1 hk
  | cons a r =>
    rw [hk1] at h
    have h2 : E.find? (fun e => e.1.isPrefixOf (a :: (r ++ t))) = some e := h
    unfold substituteAll
    show substituteFrom E 0 (a :: (r ++ t)) = _
    rw [substituteFrom, h2]
    simp only [hk1, List.length_cons, Nat.add_sub_cancel]
    rw [substituteFrom_skip]

theorem relErr_refl (b : ℚ) : RelErr 0 b b := by
  simp [RelErr]

theorem one_sub_u_pos : (0 : ℚ) < 1 - 1 / 2 ^ 52 := by norm_num

theorem one_sub_u_le : (1 : ℚ) - 1 / 2 ^ 52 ≤ 1 := by norm_num

theorem one_le_add_u : (1 : ℚ) ≤ 1 + 1 / 2 ^ 52 := by norm_num

theorem relErr_mono {k j : Nat} {a b : ℚ} (h : RelErr k a b) (hkj : k ≤ j) (hb : 0 ≤ b) :
    RelErr j a b := by
  constructor
  · refine le_trans ?_ h.1
    exact mul_le_mul_of_nonneg_left
      (pow_le_pow_of_le_one one_sub_u_pos.le one_sub_u_le hkj) hb
  · refine le_trans h.2 ?_
    exact mul_le_mul_of_nonneg_left (pow_le_pow_right₀ one_le_add_u hkj) hb

theorem relErr_nonneg {k : Nat} {a b : ℚ} (h : RelErr k a b) (hb : 0 ≤ b) : 0 ≤ a :=
  le_trans (mul_nonneg hb (pow_nonneg one_sub_u_pos.le k)) h.1

theorem relErr_pos {k : Nat} {a b : ℚ} (h : RelErr k a b) (hb : 0 < b) : 0 < a :=
  lt_of_lt_of_le (mul_pos hb (pow_pos one_sub_u_pos k)) h.1

theorem relErr_zero {k : Nat} {a : ℚ} (h : RelErr k a 0) : a = 0 := by
  obtain ⟨h1, h2⟩ := h
  rw [zero_mul] at h1 h2
  exact le_antisymm h2 h1

theorem pow_sub_u_ge_half {k : Nat} (hk : k ≤ 100) : (1 : ℚ) / 2 ≤ (1 - 1 / 2 ^ 52) ^ k := by
  refine le_trans ?_ (pow_le_pow_of_le_one one_sub_u_pos.le one_sub_u_le hk)
  norm_num

theorem pow_add_u_le_two {k : Nat} (hk : k ≤ 100) : (1 + 1 / 2 ^ 52 : ℚ) ^ k ≤ 2 := by
  refine le_trans (pow_le_pow_right₀ one_le_add_u hk) ?_
  norm_num

theorem Float64Ops.rnd_zero (fa : Float64Ops) : fa.rnd 0 = 0 := by
  have := fa.exact 0 0 (by norm_num) (by norm_num)
  simpa using this

theorem Float64Ops.rnd_int (fa : Float64Ops) (n : Int) (h : |n| ≤ 2 ^ 53) :
    fa.rnd n = n := by
  have := fa.exact n 0 h (by norm_num)
  simpa using this

/-- Rounding a value that is `b` up to `k` roundings gives `b` up to `k + 1`
roundings. -/
theorem relErr_rnd (fa : Float64Ops) {k : Nat} {q b : ℚ} (h : RelErr k q b)
    (hb : b = 0 ∨ (1 / 2 ^ 900 ≤ b ∧ b ≤ 2 ^ 900)) (hk : k ≤ 100) :
    RelErr (k + 1) (fa.rnd q) b := by
  rcases hb with rfl | ⟨hlo, hhi⟩
  · rw [relErr_zero h, fa.rnd_zero]
    simp [RelErr]
  · have hb0 : (0 : ℚ) < b := lt_of_lt_of_le (by norm_num) hlo
    have hq0 : 0 < q := relErr_pos h hb0
    have hqlo : 1 / 2 ^ 1000 ≤ |q| := by
      rw [abs_of_pos hq0]
      refine le_trans ?_ h.1
      calc (1 : ℚ) / 2 ^ 1000 ≤ 1 / 2 ^ 900 * (1 / 2) := by norm_num
        _ ≤ b * (1 - 1 / 2 ^ 52) ^ k :=
          mul_le_mul hlo (pow_sub_u_ge_half hk) (by norm_num) hb0.le
    have hqhi : |q| ≤ 2 ^ 1000 := by
      rw [abs_of_pos hq0]
      refine le_trans h.2 ?_
      calc b * (1 + 1 / 2 ^ 52) ^ k ≤ 2 ^ 900 * 2 :=
          mul_le_mul hhi (pow_add_u_le_two hk) (pow_nonneg (by norm_num) k) (by norm_num)
        _ ≤ 2 ^ 1000 := by norm_num
    have hacc := fa.accurate q hqlo hqhi
    rw [abs_of_pos hq0, abs_le] at hacc
    constructor
    · calc b * (1 - 1 / 2 ^ 52) ^ (k + 1) = b * (1 - 1 / 2 ^ 52) ^ k * (1 - 1 / 2 ^ 52) := by
            rw [pow_succ (1 - 1 / 2 ^ 52 : ℚ) k, mul_assoc]
        _ ≤ q * (1 - 1 / 2 ^ 52) := mul_le_mul_of_nonneg_right h.1 one_sub_u_pos.le
        _ ≤ fa.rnd q := by linarith [hacc.1]
    · calc fa.rnd q ≤ q * (1 + 1 / 2 ^ 52) := by linarith [hacc.2]
        _ ≤ b * (1 + 1 / 2 ^ 52) ^ k * (1 + 1 / 2 ^ 52) :=
          mul_le_mul_of_nonneg_right h.2 (by norm_num)
        _ = b * (1 + 1 / 2 ^ 52) ^ (k + 1) := by
          rw [pow_succ (1 + 1 / 2 ^ 52 : ℚ) k, mul_assoc]

theorem relErr_mul {k j : Nat} {a b c d : ℚ} (h1 : RelErr k a b) (h2 : RelErr j c d)
    (hb : 0 ≤ b) (hd : 0 ≤ d) : RelErr (k + j) (a * c) (b * d) := by
  have ha := relErr_nonneg h1 hb
  have hc := relErr_nonneg h2 hd
  constructor
  · calc b * d * (1 - 1 / 2 ^ 52) ^ (k + j)
        = (b * (1 - 1 / 2 ^ 52) ^ k) * (d * (1 - 1 / 2 ^ 52) ^ j) := by rw [pow_add]; ring
      _ ≤ a * c := mul_le_mul h1.1 h2.1
          (mul_nonneg hd (pow_nonneg one_sub_u_pos.le j)) ha
  · calc a * c ≤ (b * (1 + 1 / 2 ^ 52) ^ k) * (d * (1 + 1 / 2 ^ 52) ^ j) :=
          mul_le_mul h1.2 h2.2 hc (mul_nonneg hb (pow_nonneg (by norm_num) k))
      _ = b * d * (1 + 1 / 2 ^ 52) ^ (k + j) := by rw [pow_add]; ring

theorem div_between (l u : ℚ) (hl : 0 < l) (hu : 0 < u) (hlu1 : l ^ 2 * u ≤ 1)
    (hlu2 : 1 ≤ l * u ^ 2) (k j : Nat) (a b c d : ℚ) (hb : 0 ≤ b) (hd : 0 < d)
    (ha1 : b * l ^ k ≤ a) (ha2 : a ≤ b * u ^ k) (hc1 : d * l ^ j ≤ c) (hc2 : c ≤ d * u ^ j) :
    b / d * l ^ (k + 2 * j) ≤ a / c ∧ a / c ≤ b / d * u ^ (k + 2 * j) := by
  have hlj : 0 < l ^ j := pow_pos hl j
  have huj : 0 < u ^ j := pow_pos hu j
  have hc : 0 < c := lt_of_lt_of_le (mul_pos hd hlj) hc1
  have ha : 0 ≤ a := le_trans (mul_nonneg hb (pow_nonneg hl.le k)) ha1
  have key1 : l ^ (2 * j) * u ^ j ≤ 1 := by
    rw [pow_mul, ← mul_pow]
    exact pow_le_one₀ (mul_nonneg (pow_nonneg hl.le 2) hu.le) hlu1
  have key2 : 1 ≤ l ^ j * u ^ (2 * j) := by
    rw [pow_mul, ← mul_pow]
    exact one_le_pow₀ hlu2
  constructor
  · have h1 : b / d * l ^ (k + 2 * j) ≤ (b * l ^ k) / (d * u ^ j) := by
      rw [div_mul_eq_mul_div, div_le_div_iff₀ hd (mul_pos hd huj), pow_add]
      have : b * (l ^ k * l ^ (2 * j)) * (d * u ^ j) =
          (b * l ^ k * d) * (l ^ (2 * j) * u ^ j) := by ring
      rw [this]
      exact mul_le_of_le_one_right
        (mul_nonneg (mul_nonneg hb (pow_nonneg hl.le k)) hd.le) key1
    exact le_trans h1 (div_le_div₀ ha ha1 hc hc2)
  · have h1 : (b * u ^ k) / (d * l ^ j) ≤ b / d * u ^ (k + 2 * j) := by
      rw [div_mul_eq_mul_div, div_le_div_iff₀ (mul_pos hd hlj) hd, pow_add]
      have : b * (u ^ k * u ^ (2 * j)) * (d * l ^ j) =
          (b * u ^ k * d) * (l ^ j * u ^ (2 * j)) := by ring
      rw [this]
      exact le_mul_of_one_le_right
        (mul_nonneg (mul_nonneg hb (pow_nonneg hu.le k)) hd.le) key2
    exact le_trans (div_le_div₀ (mul_nonneg hb (pow_nonneg hu.le k)) ha2
      (mul_pos hd hlj) hc1) h1

theorem relErr_div {k j : Nat} {a b c d : ℚ} (h1 : RelErr k a b) (h2 : RelErr j c d)
    (hb : 0 ≤ b) (hd : 0 < d) : RelErr (k + 2 * j) (a / c) (b / d) :=
  div_between (1 - 1 / 2 ^ 52) (1 + 1 / 2 ^ 52) one_sub_u_pos (by norm_num) (by norm_num)
    (by norm_num) k j a b c d hb hd h1.1 h1.2 h2.1 h2.2

/-- A value that is `b` up to at most 16 roundings differs from `b` by at
most `b / 2 ^ 47`. -/
theorem relErr_abs {k : Nat} {a b : ℚ} (h : RelErr k a b) (hb : 0 ≤ b) (hk : k ≤ 16) :
    |a - b| ≤ b / 2 ^ 47 := by
  have h16 := relErr_mono h hk hb
  have hlo : (1 : ℚ) - 1 / 2 ^ 47 ≤ (1 - 1 / 2 ^ 52) ^ 16 := by norm_num
  have hhi : (1 + 1 / 2 ^ 52 : ℚ) ^ 16 ≤ 1 + 1 / 2 ^ 47 := by norm_num
  rw [abs_le]
  constructor
  · have := mul_le_mul_of_nonneg_left hlo hb
    linarith [h16.1]
  · have := mul_le_mul_of_nonneg_left hhi hb
    linarith [h16.2]

theorem truncate_eq (x : ℚ) (k : Int) (hk : 0 ≤ k) (h1 : (k : ℚ) ≤ x) (h2 : x < k + 1) :
    truncate x = k := by
  have hx : 0 ≤ x := le_trans (by exact_mod_cast hk) h1
  unfold truncate
  rw [if_pos hx, Int.floor_eq_iff]
  exact ⟨h1, h2⟩

theorem isKey_ne_nil {k : GoString} (hk : IsKey k) : k ≠ [] := by
  obtain ⟨rest, rfl, -⟩ := hk
  exact List.cons_ne_nil _ _

theorem isValue_no_dollar {v : GoString} (hv : IsValue v) : ∀ c ∈ v, c ≠ '$' := by
  intro c hc h
  subst h
  rcases hv.2 _ hc with h | h
  · exact absurd h (by decide)
  · exact absurd h (by decide)

theorem key_not_prefix_cons {k : GoString} (hk : IsKey k) (c : Char) (x : GoString)
    (hc : c ≠ '$') : ¬ k <+: c :: x := by
  obtain ⟨rest, rfl, -⟩ := hk
  rintro ⟨u, hu⟩
  simp only [List.cons_append, List.cons.injEq] at hu
  exact hc hu.1.symm

theorem replaceAll_plain_append (k v : GoString) (hk : IsKey k) : ∀ (w x : GoString),
    (∀ c ∈ w, c ≠ '$') → replaceAll (w ++ x) k v = w ++ replaceAll x k v := by
  intro w
  induction w with
  | nil => intro x _; rfl
  | cons a w ih =>
    intro x hw
    show replaceAll (a :: (w ++ x)) k v = _
    rw [replaceAll_cons k v a (w ++ x) (isKey_ne_nil hk)
      (key_not_prefix_cons hk a _ (hw a (List.mem_cons_self _ _))),
      ih x (fun c hc => hw c (List.mem_cons_of_mem _ hc))]
    rfl

theorem find_none_of_plain (E : List (GoString × GoString)) (hE : ∀ e ∈ E, IsKey e.1)
    (c : Char) (t : GoString) (hc : c ≠ '$') :
    E.find? (fun e => e.1.isPrefixOf (c :: t)) = none := by
  rw [List.find?_eq_none]
  intro e he h
  have : e.1 <+: c :: t := by simpa using h
  exact key_not_prefix_cons (hE e he) c t hc this

theorem substituteAll_plain_append (E : List (GoString × GoString))
    (hE : ∀ e ∈ E, IsKey e.1) : ∀ (w x : GoString),
    (∀ c ∈ w, c ≠ '$') → substituteAll E (w ++ x) = w ++ substituteAll E x := by
  intro w
  induction w with
  | nil => intro x _; rfl
  | cons a w ih =>
    intro x hw
    show substituteAll E (a :: (w ++ x)) = _
    rw [substituteAll_none E a (w ++ x)
      (find_none_of_plain E hE a _ (hw a (List.mem_cons_self _ _))),
      ih x (fun c hc => hw c (List.mem_cons_of_mem _ hc))]
    rfl

theorem prefix_of_prefix_substituteAll (E : List (GoString × GoString))
    (hE : ∀ e ∈ E, IsKey e.1 ∧ IsValue e.2) :
    ∀ (q : GoString), (∀ c ∈ q, c.isDigit = false ∧ c ≠ '-') → ∀ t : GoString,
      q <+: substituteAll E t → q <+: t := by
  intro q
  induction q with
  | nil => intro _ t _; exact List.nil_prefix
  | cons a q ih =>
    intro hq t h
    cases t with
    | nil =>
      rw [substituteAll_nil] at h
      exact h
    | cons c t =>
      cases hf : E.find? (fun e => e.1.isPrefixOf (c :: t)) with
      | none =>
        rw [substituteAll_none E c t hf] at h
        obtain ⟨u, hu⟩ := h
        simp only [List.cons_append, List.cons.injEq] at hu
        obtain ⟨rfl, hu⟩ := hu
        obtain ⟨w, hw⟩ := ih (fun c hc => hq c (List.mem_cons_of_mem _ hc)) t ⟨u, hu⟩
        exact ⟨w, by rw [← hw]; rfl⟩
      | some e =>
        exfalso
        have he : e ∈ E := List.mem_of_find?_eq_some hf
        obtain ⟨t1, -, hM⟩ := substituteAll_some E (c :: t) e (isKey_ne_nil (hE e he).1) hf
        rw [hM] at h
        obtain ⟨hne, hv⟩ := (hE e he).2
        cases hv2 : e.2 with
        | nil => exact hne hv2
        | cons b r =>
          rw [hv2] at h
          obtain ⟨u, hu⟩ := h
          simp only [List.cons_append, List.cons.injEq] at hu
          have hb : b ∈ e.2 := by rw [hv2]; exact List.mem_cons_self _ _
          have ha := hq a (List.mem_cons_self _ _)
          rw [hu.1] at ha
          rcases hv b hb with h1 | h1
          · rw [h1] at ha; exact absurd ha.1 (by decide)
          · exact ha.2 h1

theorem prefix_comparable {a b s : GoString} (ha : a <+: s) (hb : b <+: s) :
    a <+: b ∨ b <+: a := by
  rcases Nat.le_total a.length b.length with h | h
  · exact Or.inl (List.prefix_of_prefix_length_le ha hb h)
  · exact Or.inr (List.prefix_of_prefix_length_le hb ha h)

theorem find_cons_table (k v : GoString) (E : List (GoString × GoString)) (s : GoString)
    (e : GoString × GoString)
    (hP : ∀ f ∈ E, ¬ k <+: f.1 ∧ ¬ f.1 <+: k)
    (hf : E.find? (fun e => e.1.isPrefixOf s) = some e) :
    ((k, v) :: E).find? (fun e => e.1.isPrefixOf s) = some e := by
  have he : e ∈ E := List.mem_of_find?_eq_some hf
  have hes : e.1 <+: s := by simpa using List.find?_some hf
  have hk : ¬ k <+: s := by
    intro hks
    rcases prefix_comparable hks hes with h | h
    · exact (hP e he).1 h
    · exact (hP e he).2 h
  have hk2 : k.isPrefixOf s = false := by
    cases hb : k.isPrefixOf s
    · rfl
    · exact absurd (List.isPrefixOf_iff_prefix.mp hb) hk
  rw [List.find?_cons]
  simp only [hk2]
  exact hf

/-- Replacing one more placeholder in a text in which the placeholders of a
table were replaced gives the text in which the placeholders of the larger
table are replaced. -/
theorem replaceAll_substituteAll (k v : GoString) (E : List (GoString × GoString))
    (hT : IsTable ((k, v) :: E)) :
    ∀ (n : Nat) (s : GoString), s.length ≤ n →
      replaceAll (substituteAll E s) k v = substituteAll ((k, v) :: E) s := by
  obtain ⟨hKV, hPW⟩ := hT
  have hk : IsKey k := (hKV (k, v) (List.mem_cons_self _ _)).1
  have hE : ∀ e ∈ E, IsKey e.1 ∧ IsValue e.2 := fun e he => hKV e (List.mem_cons_of_mem _ he)
  have hP : ∀ f ∈ E, ¬ k <+: f.1 ∧ ¬ f.1 <+: k := (List.pairwise_cons.mp hPW).1
  have hkne := isKey_ne_nil hk
  intro n
  induction n with
  | zero =>
    intro s hs
    have : s = [] := List.length_eq_zero.mp (Nat.le_zero.mp hs)
    subst this
    rw [substituteAll_nil, substituteAll_nil, replaceAll_nil k v hkne]
  | succ n ih =>
    intro s hs
    cases s with
    | nil => rw [substituteAll_nil, substituteAll_nil, replaceAll_nil k v hkne]
    | cons c t =>
      cases hf : E.find? (fun e => e.1.isPrefixOf (c :: t)) with
      | some e =>
        have he : e ∈ E := List.mem_of_find?_eq_some hf
        have hene := isKey_ne_nil (hE e he).1
        obtain ⟨t1, hs1, hM⟩ := substituteAll_some E (c :: t) e hene hf
        obtain ⟨t2, hs2, hM2⟩ := substituteAll_some ((k, v) :: E) (c :: t) e hene
          (find_cons_table k v E (c :: t) e hP hf)
        have ht : t2 = t1 := List.append_cancel_left (hs2.symm.trans hs1)
        subst ht
        have hlen : t2.length ≤ n := by
          have h1 : (c :: t).length = e.1.length + t2.length := by
            rw [hs1, List.length_append]
          have h2 : 0 < e.1.length := List.length_pos.mpr hene
          omega
        rw [hM, hM2, replaceAll_plain_append k v hk _ _ (isValue_no_dollar (hE e he).2),
          ih t2 hlen]
      | none =>
        rw [substituteAll_none E c t hf]
        have htl : t.length ≤ n := by simpa using hs
        by_cases hks : k <+: c :: t
        · have hfk : ((k, v) :: E).find? (fun e => e.1.isPrefixOf (c :: t)) = some (k, v) := by
            rw [List.find?_cons]
            have : k.isPrefixOf (c :: t) = true := List.isPrefixOf_iff_prefix.mpr hks
            simp only [this]
          obtain ⟨t2, hs2, hM2⟩ := substituteAll_some ((k, v) :: E) (c :: t) (k, v) hkne hfk
          obtain ⟨rest, hrest, hr⟩ := hk
          have hs3 : c :: t = '$' :: (rest ++ t2) := by rw [hs2]; simp only [hrest]; rfl
          obtain ⟨rfl, rfl⟩ := List.cons.inj hs3
          have hlen : t2.length ≤ n := by
            have : (rest ++ t2).length ≤ n := htl
            rw [List.length_append] at this
            omega
          rw [substituteAll_plain_append E (fun e he => (hE e he).1) rest t2
            (fun c hc => (hr c hc).1), hM2]
          have : '$' :: (rest ++ substituteAll E t2) = k ++ substituteAll E t2 := by
            rw [hrest]; rfl
          rw [this, replaceAll_append k v _ hkne, ih t2 hlen]
        · have hfk : ((k, v) :: E).find? (fun e => e.1.isPrefixOf (c :: t)) = none := by
            rw [List.find?_cons]
            have : k.isPrefixOf (c :: t) = false := by
              cases hb : k.isPrefixOf (c :: t)
              · rfl
              · exact absurd (List.isPrefixOf_iff_prefix.mp hb) hks
            simp only [this]
            exact hf
          have hno : ¬ k <+: c :: substituteAll E t := by
            intro h
            apply hks
            obtain ⟨rest, hrest, hr⟩ := hk
            rw [hrest] at h ⊢
            obtain ⟨u, hu⟩ := h
            simp only [List.cons_append, List.cons.injEq] at hu
            obtain ⟨hc, hu⟩ := hu
            obtain ⟨w, hw⟩ := prefix_of_prefix_substituteAll E hE rest
              (fun c hc => (hr c hc).2) t ⟨u, hu⟩
            exact ⟨w, by rw [← hw, ← hc]; rfl⟩
          rw [replaceAll_cons k v c _ hkne hno, ih t htl, substituteAll_none _ c t hfk]

theorem substituteAll_empty : ∀ s : GoString, substituteAll [] s = s := by
  intro s
  induction s with
  | nil => rfl
  | cons c t ih => rw [substituteAll_none [] c t rfl, ih]

theorem isTable_of_append (A B : List (GoString × GoString)) (h : IsTable (A ++ B)) :
    IsTable B :=
  ⟨fun e he => h.1 e (List.mem_append_right _ he), (List.pairwise_append.mp h.2).2.1⟩

theorem isTable_perm {A B : List (GoString × GoString)} (hp : A.Perm B) (h : IsTable A) :
    IsTable B :=
  ⟨fun e he => h.1 e (hp.mem_iff.mpr he),
    (hp.pairwise_iff (fun hab => ⟨hab.2, hab.1⟩)).mp h.2⟩

/-- Replacing the placeholders of a table one after the other, in any order,
replaces them all at once. -/
theorem foldl_replaceAll_substituteAll : ∀ (L E : List (GoString × GoString)) (s : GoString),
    IsTable (L.reverse ++ E) →
    L.foldl (fun result e => replaceAll result e.1 e.2) (substituteAll E s) =
      substituteAll (L.reverse ++ E) s := by
  intro L
  induction L with
  | nil => intro E s _; rfl
  | cons e L ih =>
    intro E s hT
    have hT2 : IsTable (L.reverse ++ e :: E) := by
      have : (e :: L).reverse ++ E = L.reverse ++ e :: E := by simp
      rw [this] at hT
      exact hT
    have hT3 : IsTable ((e.1, e.2) :: E) := isTable_of_append _ _ hT2
    rw [List.foldl_cons, replaceAll_substituteAll e.1 e.2 E hT3 s.length s (Nat.le_refl _)]
    have : (e :: L).reverse ++ E = L.reverse ++ e :: E := by simp
    rw [this]
    exact ih (e :: E) s hT2

theorem find_table_perm {A B : List (GoString × GoString)} (hp : A.Perm B) (h : IsTable A)
    (s : GoString) :
    A.find? (fun e => e.1.isPrefixOf s) = B.find? (fun e => e.1.isPrefixOf s) := by
  have huniq : ∀ e ∈ A, ∀ f ∈ A, e.1 <+: s → f.1 <+: s → e = f := by
    intro e he f hf h1 h2
    by_contra hne
    have := h.2.forall (fun {a b} hab => ⟨hab.2, hab.1⟩) he hf hne
    rcases prefix_comparable h1 h2 with h3 | h3
    · exact this.1 h3
    · exact this.2 h3
  cases hA : A.find? (fun e => e.1.isPrefixOf s) with
  | none =>
    symm
    rw [List.find?_eq_none] at hA ⊢
    intro e he
    exact hA e (hp.mem_iff.mpr he)
  | some a =>
    have ha : a ∈ A := List.mem_of_find?_eq_some hA
    have has : a.1 <+: s := by simpa using List.find?_some hA
    cases hB : B.find? (fun e => e.1.isPrefixOf s) with
    | none =>
      rw [List.find?_eq_none] at hB
      exact absurd (by simpa using has) (hB a (hp.mem_iff.mp ha))
    | some b =>
      have hb : b ∈ A := hp.mem_iff.mpr (List.mem_of_find?_eq_some hB)
      have hbs : b.1 <+: s := by simpa using List.find?_some hB
      rw [huniq a ha b hb has hbs]

theorem substituteFrom_perm {A B : List (GoString × GoString)} (hp : A.Perm B)
    (h : IsTable A) : ∀ (s : GoString) (skip : Nat),
    substituteFrom A skip s = substituteFrom B skip s := by
  intro s
  induction s with
  | nil => intro skip; cases skip <;> rfl
  | cons c t ih =>
    intro skip
    cases skip with
    | succ k => exact ih k
    | zero =>
      rw [substituteFrom, substituteFrom, find_table_perm hp h (c :: t)]
      cases B.find? (fun e => e.1.isPrefixOf (c :: t)) with
      | none => simp only [ih 0]
      | some e => simp only [ih]

theorem isValue_fmtD (i : Int) : IsValue (fmtD i) := ⟨fmtD_ne_nil i, fmtD_chars i⟩

theorem isValue_padInt (w n : Nat) : IsValue (padInt w n) := by
  constructor
  · intro h
    have := List.append_eq_nil.mp h
    exact toDigits_ne_nil n this.2
  · intro c hc
    rcases List.mem_append.mp hc with h | h
    · left
      rw [List.eq_of_mem_replicate h]
      rfl
    · exact Or.inl (toDigits_isDigit n c h)

theorem isTable_of_values (v0 v1 v2 v3 v4 v5 v6 v7 : GoString)
    (h0 : IsValue v0) (h1 : IsValue v1) (h2 : IsValue v2) (h3 : IsValue v3)
    (h4 : IsValue v4) (h5 : IsValue v5) (h6 : IsValue v6) (h7 : IsValue v7) :
    IsTable [("$(n)".toList, v0), ("$(yyyy)".toList, v1), ("$(yy)".toList, v2),
      ("$(MM)".toList, v3), ("$(dd)".toList, v4), ("$(hh)".toList, v5),
      ("$(mm)".toList, v6), ("$(ss)".toList, v7)] := by
  constructor
  · intro e he
    simp only [List.mem_cons, List.mem_singleton, List.not_mem_nil, or_false] at he
    rcases he with rfl | rfl | rfl | rfl | rfl | rfl | rfl | rfl
    · exact ⟨⟨"(n)".toList, rfl, by decide⟩, h0⟩
    · exact ⟨⟨"(yyyy)".toList, rfl, by decide⟩, h1⟩
    · exact ⟨⟨"(yy)".toList, rfl, by decide⟩, h2⟩
    · exact ⟨⟨"(MM)".toList, rfl, by decide⟩, h3⟩
    · exact ⟨⟨"(dd)".toList, rfl, by decide⟩, h4⟩
    · exact ⟨⟨"(hh)".toList, rfl, by decide⟩, h5⟩
    · exact ⟨⟨"(mm)".toList, rfl, by decide⟩, h6⟩
    · exact ⟨⟨"(ss)".toList, rfl, by decide⟩, h7⟩
  · have hk : List.Pairwise (fun a b : GoString => ¬ a <+: b ∧ ¬ b <+: a)
        ["$(n)".toList, "$(yyyy)".toList, "$(yy)".toList, "$(MM)".toList, "$(dd)".toList,
         "$(hh)".toList, "$(mm)".toList, "$(ss)".toList] := by decide
    apply (List.pairwise_map (f := Prod.fst)
      (R := fun a b : GoString => ¬ a <+: b ∧ ¬ b <+: a)).mp
    exact hk

theorem isTable_placeholderTable (now : Clock) (index : Int) :
    IsTable (placeholderTable now index) :=
  isTable_of_values _ _ _ _ _ _ _ _ (isValue_fmtD _) (isValue_padInt _ _)
    (isValue_padInt _ _) (isValue_padInt _ _) (isValue_padInt _ _) (isValue_padInt _ _)
    (isValue_padInt _ _) (isValue_padInt _ _)

theorem digitsValue_zeros (j : Nat) (d : List Char) :
    digitsValue 0 (List.replicate j '0' ++ d) = digitsValue 0 d := by
  induction j with
  | zero => rfl
  | succ j ih =>
    rw [List.replicate_succ, List.cons_append]
    exact ih

theorem padInt_numeral (w n : Nat) (hw : 0 < w) (hn : n < 10 ^ w) :
    (padInt w n).length = w ∧ digitsValue 0 (padInt w n) = n ∧
      ∀ c ∈ padInt w n, c.isDigit = true := by
  have hlen : (Nat.toDigits 10 n).length ≤ w :=
    Nat.toDigitsCore_length 10 (by decide) (n + 1) n w hn hw
  refine ⟨?_, ?_, ?_⟩
  · unfold padInt
    rw [List.length_append, List.length_replicate]
    omega
  · unfold padInt
    rw [digitsValue_zeros]
    exact digitsValue_toDigitsCore (n + 1) n [] (Nat.lt_succ_self n)
  · intro c hc
    rcases (isValue_padInt w n).2 c hc with h | h
    · exact h
    · exfalso
      rcases List.mem_append.mp hc with h1 | h1
      · rw [List.eq_of_mem_replicate h1] at h
        exact absurd h (by decide)
      · have := toDigits_isDigit n c h1
        rw [h] at this
        exact absurd this (by decide)

namespace batchState

theorem substitutePlaceholders_table (now : Clock) (order : Equiv.Perm (Fin 8))
    (path : GoString) (index : Int) :
    substitutePlaceholders now order path index =
      substituteAll (placeholderTable now index) path := by
  have hv : (visited now order index).Perm (placeholderTable now index) :=
    visited_perm now order index
  have hT := isTable_placeholderTable now index
  have hrev : ((visited now order index).reverse ++ []).Perm (placeholderTable now index) := by
    rw [List.append_nil]
    exact (List.reverse_perm _).trans hv
  have hT2 := isTable_perm hrev.symm hT
  have h1 := foldl_replaceAll_substituteAll (visited now order index) [] path hT2
  rw [substituteAll_empty] at h1
  unfold substitutePlaceholders
  rw [h1]
  exact substituteFrom_perm hrev hT2 path 0

/-- C11. For every path template, index, clock time and order in which the
map of replacements is visited, `substitutePlaceholders` returns the
template with every occurrence of the eight placeholders replaced at once,
`$(n)` by the decimal numeral of `index + 1`, `$(yyyy)` by the year padded
to four digits, `$(yy)`, `$(MM)`, `$(dd)`, `$(hh)`, `$(mm)`, `$(ss)` by the
year modulo 100, the month, the day, the hour, the minute and the second
padded to two digits, every other character unchanged; so the result is the
same for every two visiting orders.  A number below `10 ^ w` padded to
`w` digits has exactly `w` characters, all digits, and reads as that number. -/
theorem substitutePlaceholders_simultaneous (now : Clock) (order : Equiv.Perm (Fin 8))
    (path : GoString) (index : Int) :
    substitutePlaceholders now order path index =
      substituteAll
        [("$(n)".toList, fmtD (index + 1)),
         ("$(yyyy)".toList, padInt 4 now.year),
         ("$(yy)".toList, padInt 2 (now.year % 100)),
         ("$(MM)".toList, padInt 2 now.month),
         ("$(dd)".toList, padInt 2 now.day),
         ("$(hh)".toList, padInt 2 now.hour),
         ("$(mm)".toList, padInt 2 now.minute),
         ("$(ss)".toList, padInt 2 now.second)] path ∧
    (∀ other : Equiv.Perm (Fin 8),
      substitutePlaceholders now other path index =
        substitutePlaceholders now order path index) ∧
    (∀ w n : Nat, 0 < w → n < 10 ^ w →
      (padInt w n).length = w ∧ digitsValue 0 (padInt w n) = n ∧
        ∀ c ∈ padInt w n, c.isDigit = true) :=
  ⟨substitutePlaceholders_table now order path index,
    fun other => (substitutePlaceholders_table now other path index).trans
      (substitutePlaceholders_table now order path index).symm,
    fun w n hw hn => padInt_numeral w n hw hn⟩

end batchState

namespace WindowsDriver

theorem captureLoop_image (env : WiaEnv) (pageCount : Int) (n i : Nat) (c : Capture)
    (hctx : env.ctxDone i = false) (ht : env.transfer i = TransferReply.image) :
    ∃ l, captureLoop env pageCount (n + 1) i c =
      captureLoop env pageCount n (i + 1)
        { scannedPages := c.scannedPages + 1, transfers := c.transfers + 1,
          progress := c.progress ++ l } := by
  by_cases hp : (env.hasCallback && decide (pageCount > 0)) = true
  · exact ⟨[Int.tdiv (wrapInt64 ((i : Int) * 50)) pageCount], by
      rw [captureLoop]; simp only [hctx, ht, hp, if_true, Bool.false_eq_true, if_false]⟩
  · exact ⟨[], by
      rw [captureLoop]
      simp only [hctx, ht, hp, if_false, Bool.false_eq_true, List.append_nil]⟩

theorem captureLoop_images (env : WiaEnv) (pageCount : Int) :
    ∀ (m n i : Nat) (c : Capture),
      (∀ j, j < m → env.ctxDone (i + j) = false) →
      (∀ j, j < m → env.transfer (i + j) = TransferReply.image) →
      ∃ l, captureLoop env pageCount (n + m) i c =
        captureLoop env pageCount n (i + m)
          { scannedPages := c.scannedPages + m, transfers := c.transfers + m,
            progress := c.progress ++ l } := by
  intro m
  induction m with
  | zero => intro n i c _ _; exact ⟨[], by simp⟩
  | succ m ih =>
    intro n i c hctx ht
    obtain ⟨l1, h1⟩ := captureLoop_image env pageCount (n + m) i c
      (by simpa using hctx 0 (Nat.succ_pos m)) (by simpa using ht 0 (Nat.succ_pos m))
    obtain ⟨l2, h2⟩ := ih n (i + 1)
      { scannedPages := c.scannedPages + 1, transfers := c.transfers + 1,
        progress := c.progress ++ l1 }
      (fun j hj => by
        have := hctx (j + 1) (Nat.succ_lt_succ hj)
        rwa [show i + (j + 1) = i + 1 + j by omega] at this)
      (fun j hj => by
        have := ht (j + 1) (Nat.succ_lt_succ hj)
        rwa [show i + (j + 1) = i + 1 + j by omega] at this)
    refine ⟨l1 ++ l2, ?_⟩
    rw [show n + (m + 1) = n + m + 1 by omega, h1, h2]
    simp only [List.append_assoc, show i + 1 + m = i + (m + 1) by omega,
      show c.scannedPages + 1 + m = c.scannedPages + (m + 1) by omega,
      show c.transfers + 1 + m = c.transfers + (m + 1) by omega]

theorem captureLoop_later_failure (env : WiaEnv) (pageCount : Int) (n i : Nat) (c : Capture)
    (err : GoError) (hctx : env.ctxDone i = false)
    (ht : env.transfer i = TransferReply.failed err) (hi : i ≠ 0) :
    ∃ l, captureLoop env pageCount (n + 1) i c =
      ({ scannedPages := c.scannedPages, transfers := c.transfers + 1,
         progress := c.progress ++ l }, none) := by
  by_cases hp : (env.hasCallback && decide (pageCount > 0)) = true
  · refine ⟨[Int.tdiv (wrapInt64 ((i : Int) * 50)) pageCount], ?_⟩
    rw [captureLoop]
    simp only [hctx, ht, hp, hi, if_true, Bool.false_eq_true, if_false]
    split_ifs <;> rfl
  · refine ⟨[], ?_⟩
    rw [captureLoop]
    simp only [hctx, ht, hp, hi, if_false, Bool.false_eq_true, List.append_nil]
    split_ifs <;> rfl

theorem captureLoop_first_failure (env : WiaEnv) (pageCount : Int) (n : Nat) (c : Capture)
    (err : GoError) (hctx : env.ctxDone 0 = false)
    (ht : env.transfer 0 = TransferReply.failed err)
    (h1 : isWiaError err WIA_ERROR_PAPER_EMPTY = false)
    (h2 : isWiaError err WIA_ERROR_NO_MORE_ITEMS = false) :
    ∃ l, captureLoop env pageCount (n + 1) 0 c =
      ({ scannedPages := c.scannedPages, transfers := c.transfers + 1,
         progress := c.progress ++ l }, some (handleWiaError err)) := by
  by_cases hp : (env.hasCallback && decide (pageCount > 0)) = true
  · refine ⟨[Int.tdiv (wrapInt64 (((0 : Nat) : Int) * 50)) pageCount], ?_⟩
    rw [captureLoop]
    simp only [hctx, ht, h1, h2, hp, Bool.false_eq_true, if_false, if_true]
  · refine ⟨[], ?_⟩
    rw [captureLoop]
    simp only [hctx, ht, h1, h2, hp, Bool.false_eq_true, if_false, if_true, List.append_nil]

theorem captureLoop_bounds (env : WiaEnv) (pageCount : Int) :
    ∀ (n i : Nat) (c : Capture),
      (captureLoop env pageCount n i c).1.scannedPages ≤ c.scannedPages + n ∧
      (captureLoop env pageCount n i c).1.transfers ≤ c.transfers + n := by
  intro n
  induction n with
  | zero => intro i c; simp [captureLoop]
  | succ n ih =>
    intro i c
    cases hctx : env.ctxDone i with
    | true =>
      rw [captureLoop]
      simp only [hctx, if_true]
      omega
    | false =>
      cases ht : env.transfer i with
      | image =>
        obtain ⟨l, h⟩ := captureLoop_image env pageCount n i c hctx ht
        rw [h]
        have := ih (i + 1) ⟨c.scannedPages + 1, c.transfers + 1, c.progress ++ l⟩
        simp only at this
        omega
      | nilImage =>
        rw [captureLoop]
        by_cases hp : (env.hasCallback && decide (pageCount > 0)) = true <;>
          simp only [hctx, ht, hp, if_true, Bool.false_eq_true, if_false] <;> omega
      | failed err =>
        rw [captureLoop]
        by_cases hp : (env.hasCallback && decide (pageCount > 0)) = true <;>
          simp only [hctx, ht, hp, if_true, Bool.false_eq_true, if_false] <;>
          split_ifs <;> simp only [] <;> omega

end WindowsDriver

namespace WindowsDriver

theorem selectCase_result (env : WiaEnv) (i : Nat) (r : ScanResult) (rest : List ScanResult)
    (hctx : env.ctxDoneCollect i = false) :
    selectCase env i (r :: rest) [] = Selected.result r rest := by
  unfold selectCase
  cases env.choose i <;> simp [hctx]

theorem selectCase_inv (env : WiaEnv) (i : Nat) (rc : List ScanResult) (ec : List GoError)
    (r : ScanResult) (rest : List ScanResult)
    (h : selectCase env i rc ec = Selected.result r rest) : rc = r :: rest := by
  unfold selectCase at h
  cases hc : env.choose i <;> cases rc <;> cases ec <;> cases hd : env.ctxDoneCollect i <;>
    simp [hc, hd] at h <;> simp [h]

theorem collectLoop_all (env : WiaEnv) (scannedPages : Nat) :
    ∀ (rc : List ScanResult) (i : Nat) (results : List ScanResult) (progress : List Int),
      (∀ j, j < rc.length → env.ctxDoneCollect (i + j) = false) →
      (collectLoop env scannedPages rc.length i rc [] results progress).1 =
        ScanOutcome.returned (results ++ rc) none := by
  intro rc
  induction rc with
  | nil => intro i results progress _; simp [collectLoop]
  | cons r rest ih =>
    intro i results progress hctx
    show (collectLoop env scannedPages (rest.length + 1) i (r :: rest) [] results progress).1 = _
    rw [collectLoop, selectCase_result env i r rest (by simpa using hctx 0 (Nat.succ_pos _))]
    simp only
    rw [ih (i + 1) _ _ (fun j hj => by
      have := hctx (j + 1) (Nat.succ_lt_succ hj)
      rwa [show i + (j + 1) = i + 1 + j by omega] at this)]
    simp

theorem collectLoop_returned (env : WiaEnv) (scannedPages : Nat) :
    ∀ (n i : Nat) (rc : List ScanResult) (ec : List GoError) (results : List ScanResult)
      (progress : List Int) (res : List ScanResult) (err : Option GoError),
      (collectLoop env scannedPages n i rc ec results progress).1 =
        ScanOutcome.returned res err →
      ∃ k, res = results ++ rc.take k := by
  intro n
  induction n with
  | zero =>
    intro i rc ec results progress res err h
    simp only [collectLoop, ScanOutcome.returned.injEq] at h
    exact ⟨0, by simp [h.1]⟩
  | succ n ih =>
    intro i rc ec results progress res err h
    rw [collectLoop] at h
    cases hs : selectCase env i rc ec with
    | result r rest =>
      rw [hs] at h
      simp only at h
      obtain ⟨k, hk⟩ := ih _ _ _ _ _ _ _ h
      have hrc := selectCase_inv env i rc ec r rest hs
      exact ⟨k + 1, by rw [hk, hrc]; simp⟩
    | error e =>
      rw [hs] at h
      simp only [ScanOutcome.returned.injEq] at h
      exact ⟨0, by simp [h.1]⟩
    | done =>
      rw [hs] at h
      simp only [ScanOutcome.returned.injEq] at h
      exact ⟨0, by simp [h.1]⟩
    | wait =>
      rw [hs] at h
      simp only at h
      split_ifs at h
      simp only [ScanOutcome.returned.injEq] at h
      exact ⟨0, by simp [h.1]⟩

theorem saveWorker_page (env : WiaEnv) (params : ScanParams) (p : Nat) (r : ScanResult)
    (h : (saveWorker env params p).1 = WorkerMsg.page r) : r = pageResult env params p := by
  unfold saveWorker at h
  cases hs : env.saveFile p with
  | some e => rw [hs] at h; simp at h
  | none =>
    rw [hs] at h
    simp only at h
    split_ifs at h
    · split at h
      · simp at h
      · simp at h; exact h.symm
    · simp at h; exact h.symm

theorem resultsOf_sublist (env : WiaEnv) (params : ScanParams) : ∀ pages : List Nat,
    (resultsOf (pages.map (fun p => (saveWorker env params p).1))).Sublist
      (pages.map (pageResult env params)) := by
  intro pages
  induction pages with
  | nil => exact List.Sublist.slnil
  | cons p pages ih =>
    unfold resultsOf at ih ⊢
    rw [List.map_cons, List.map_cons, List.filterMap_cons]
    cases hm : (saveWorker env params p).1 with
    | failed e => exact List.Sublist.cons _ ih
    | excluded => exact List.Sublist.cons _ ih
    | page r =>
      rw [saveWorker_page env params p r hm]
      exact List.Sublist.cons₂ _ ih

theorem saveWorker_ok (env : WiaEnv) (params : ScanParams) (p : Nat)
    (hs : env.saveFile p = none) (hb : params.ExcludeBlankPages = false) :
    saveWorker env params p = (WorkerMsg.page (pageResult env params p), workerSteps params) := by
  unfold saveWorker
  rw [hs]
  simp [hb]

theorem msgs_ok (env : WiaEnv) (params : ScanParams) (hb : params.ExcludeBlankPages = false) :
    ∀ pages : List Nat, (∀ p ∈ pages, env.saveFile p = none) →
      resultsOf (pages.map (fun p => (saveWorker env params p).1)) =
        pages.map (pageResult env params) ∧
      errorsOf (pages.map (fun p => (saveWorker env params p).1)) = [] := by
  intro pages
  induction pages with
  | nil => intro _; exact ⟨rfl, rfl⟩
  | cons p pages ih =>
    intro h
    obtain ⟨h1, h2⟩ := ih (fun q hq => h q (List.mem_cons_of_mem _ hq))
    unfold resultsOf at h1 ⊢
    unfold errorsOf at h2 ⊢
    rw [List.map_cons, List.filterMap_cons, List.filterMap_cons,
      saveWorker_ok env params p (h p (List.mem_cons_self _ _)) hb]
    simp only [h1, h2, List.map_cons, and_self]

theorem mem_pageNumbers (m p : Nat) : p ∈ pageNumbers m ↔ 1 ≤ p ∧ p ≤ m := by
  unfold pageNumbers
  simp only [List.mem_map, List.mem_range]
  constructor
  · rintro ⟨j, hj, rfl⟩; omega
  · rintro ⟨h1, h2⟩; exact ⟨p - 1, by omega, by omega⟩

theorem length_pageNumbers (m : Nat) : (pageNumbers m).length = m := by
  simp [pageNumbers]

end WindowsDriver

namespace WindowsDriver

/-- C12, as the code has it. In a feeder invocation in which the first `k - 1` calls of
`Transfer` capture a page and call number `k` (`1 < k`, `k` within the page
limit) fails with any error, every `SaveFile` succeeds, blank-page exclusion
is off, and the context is not done at the top of these `k` iterations nor at
a `select` of the collection loop, `scanADFBatch` calls `Transfer` `k` times
and returns exactly the `k - 1` captured pages, in capture order, and a nil
error. -/
theorem scanADFBatch_later_failure (env : WiaEnv) (pageCount : Int) (params : ScanParams)
    (k : Nat) (err : GoError)
    (hk : 1 < k)
    (hlimit : (k : Int) ≤ (if pageCount = 0 then 9999 else pageCount))
    (hok : ∀ i, i + 1 < k → env.transfer i = TransferReply.image)
    (hfail : env.transfer (k - 1) = TransferReply.failed err)
    (hctx : ∀ i, i < k → env.ctxDone i = false)
    (hcollect : ∀ i, i + 1 < k → env.ctxDoneCollect i = false)
    (hsave : ∀ p, 1 ≤ p → p < k → env.saveFile p = none)
    (hblank : params.ExcludeBlankPages = false) :
    (scanADFBatch env pageCount params).outcome =
      ScanOutcome.returned ((pageNumbers (k - 1)).map (pageResult env params)) none ∧
    (scanADFBatch env pageCount params).transfers = k ∧
    ((pageNumbers (k - 1)).map (pageResult env params)).length = k - 1 := by
  have hM : ¬ (if pageCount = 0 then (9999 : Int) else pageCount) < 0 := by omega
  obtain ⟨n, hn⟩ : ∃ n, (if pageCount = 0 then (9999 : Int) else pageCount).toNat
      = n + 1 + (k - 1) := ⟨(if pageCount = 0 then (9999 : Int) else pageCount).toNat - k, by omega⟩
  obtain ⟨l1, h1⟩ := captureLoop_images env pageCount (k - 1) (n + 1) 0
    { scannedPages := 0, transfers := 0, progress := [] }
    (fun j hj => by rw [Nat.zero_add]; exact hctx j (by omega))
    (fun j hj => by rw [Nat.zero_add]; exact hok j (by omega))
  obtain ⟨l2, h2⟩ := captureLoop_later_failure env pageCount n (0 + (k - 1))
    { scannedPages := 0 + (k - 1), transfers := 0 + (k - 1), progress := [] ++ l1 } err
    (by rw [Nat.zero_add]; exact hctx _ (by omega)) (by rw [Nat.zero_add]; exact hfail)
    (by omega)
  have hcap : captureLoop env pageCount
      (if pageCount = 0 then (9999 : Int) else pageCount).toNat 0
      { scannedPages := 0, transfers := 0, progress := [] } =
      ({ scannedPages := k - 1, transfers := k, progress := [] ++ l1 ++ l2 }, none) := by
    rw [hn, h1, h2]
    simp only [Nat.zero_add, Prod.mk.injEq, Capture.mk.injEq, and_true, true_and]
    omega
  obtain ⟨hres, herr⟩ := msgs_ok env params hblank (pageNumbers (k - 1))
    (fun p hp => by
      rw [mem_pageNumbers] at hp
      exact hsave p hp.1 (by omega))
  refine ⟨?_, ?_, by rw [List.length_map, length_pageNumbers]⟩
  · unfold scanADFBatch
    simp only [hM, if_false, hcap, hres, herr]
    have hlen : k - 1 = ((pageNumbers (k - 1)).map (pageResult env params)).length := by
      rw [List.length_map, length_pageNumbers]
    have := collectLoop_all env (k - 1) ((pageNumbers (k - 1)).map (pageResult env params)) 0 []
      ([] ++ l1 ++ l2)
      (fun j hj => by
        rw [Nat.zero_add]
        rw [← hlen] at hj
        exact hcollect j (by omega))
    rw [← hlen] at this
    rw [this, List.nil_append]
  · unfold scanADFBatch
    simp only [hM, if_false, hcap]

end WindowsDriver

namespace WindowsDriver

theorem scanADFBatch_first_failure (env : WiaEnv) (pageCount : Int) (params : ScanParams)
    (err : GoError) (hfail : env.transfer 0 = TransferReply.failed err)
    (h1 : isWiaError err WIA_ERROR_PAPER_EMPTY = false)
    (h2 : isWiaError err WIA_ERROR_NO_MORE_ITEMS = false)
    (hcall : 0 < (scanADFBatch env pageCount params).transfers) :
    (scanADFBatch env pageCount params).outcome =
      ScanOutcome.returned [] (some (handleWiaError err)) ∧
    (scanADFBatch env pageCount params).transfers = 1 := by
  unfold scanADFBatch at hcall ⊢
  dsimp only at hcall ⊢
  generalize (if pageCount = 0 then (9999 : Int) else pageCount) = M at hcall ⊢
  by_cases hneg : M < 0
  · rw [if_pos hneg] at hcall
    exact absurd hcall (by simp)
  · rw [if_neg hneg] at hcall ⊢
    cases hN : M.toNat with
    | zero =>
      rw [hN] at hcall
      simp [captureLoop] at hcall
    | succ n =>
      rw [hN] at hcall
      cases hctx : env.ctxDone 0 with
      | true =>
        rw [captureLoop] at hcall
        simp [hctx] at hcall
      | false =>
        obtain ⟨l, hl⟩ := captureLoop_first_failure env pageCount n
          { scannedPages := 0, transfers := 0, progress := [] } err hctx hfail h1 h2
        rw [hl]
        simp

/-- C13. In every invocation of `Scan`, feeder or not, that reaches its
first call of `Transfer`, if that call fails with an error that is neither
`WIA_ERROR_PAPER_EMPTY` nor `WIA_ERROR_NO_MORE_ITEMS`, the invocation
returns zero pages and a non-nil error, after that one call: the error of
`handleWiaError` in feeder mode, the error wrapped as
`failed to transfer image` otherwise. -/
theorem scan_first_transfer_failure (env : WiaEnv) (params : ScanParams) (err : GoError)
    (hfail : env.transfer 0 = TransferReply.failed err)
    (h1 : isWiaError err WIA_ERROR_PAPER_EMPTY = false)
    (h2 : isWiaError err WIA_ERROR_NO_MORE_ITEMS = false)
    (hcall : 0 < (Scan env params).transfers) :
    (Scan env params).outcome = ScanOutcome.returned []
      (some (if params.UseFeeder then handleWiaError err
        else GoError.wrap ("failed to transfer image: ".toList ++ err.Error) err)) ∧
    (Scan env params).transfers = 1 := by
  unfold Scan at hcall ⊢
  cases hp : env.prelude with
  | some e =>
    rw [hp] at hcall
    exact absurd hcall (by simp)
  | none =>
    rw [hp] at hcall
    dsimp only at hcall ⊢
    cases hf : params.UseFeeder with
    | false =>
      simp only [hfail, Bool.false_eq_true, if_false, and_self]
    | true =>
      rw [hf] at hcall
      rw [if_pos rfl] at hcall ⊢
      rw [if_pos rfl]
      exact scanADFBatch_first_failure env _ params err hfail h1 h2 hcall

/-- Witness of C13: a feeder whose first `Transfer` reports a paper jam. -/
theorem scan_first_transfer_failure_witness :
    (Scan (feederEnv 0 (TransferReply.failed paperJam) SelectCase.result)
      (feederParams 3)).outcome =
      ScanOutcome.returned [] (some (GoError.leaf "paper jam detected".toList)) ∧
    (Scan (feederEnv 0 (TransferReply.failed paperJam) SelectCase.result)
      (feederParams 3)).transfers = 1 :=
  scan_first_transfer_failure (feederEnv 0 (TransferReply.failed paperJam) SelectCase.result)
    (feederParams 3) paperJam rfl (by decide) (by decide) (by decide)

/-- Witness of C12 as amended: a feeder with two sheets whose third `Transfer` reports a
paper jam returns the two pages and a nil error. -/
theorem scanADFBatch_later_failure_witness :
    (scanADFBatch (feederEnv 2 (TransferReply.failed paperJam) SelectCase.error) 5
      (feederParams 5)).outcome =
      ScanOutcome.returned ((pageNumbers (3 - 1)).map
        (pageResult (feederEnv 2 (TransferReply.failed paperJam) SelectCase.error)
          (feederParams 5))) none ∧
    (scanADFBatch (feederEnv 2 (TransferReply.failed paperJam) SelectCase.error) 5
      (feederParams 5)).transfers = 3 ∧
    ((pageNumbers (3 - 1)).map
        (pageResult (feederEnv 2 (TransferReply.failed paperJam) SelectCase.error)
          (feederParams 5))).length = 3 - 1 :=
  scanADFBatch_later_failure (feederEnv 2 (TransferReply.failed paperJam) SelectCase.error) 5
    (feederParams 5) 3 paperJam (by decide) (by decide)
    (fun i hi => by
      have : i < 2 := by omega
      simp [feederEnv, this])
    (by decide) (fun _ _ => rfl) (fun _ _ => rfl) (fun _ _ _ => rfl) rfl

set_option maxRecDepth 100000 in
/-- Counterexample to C12 as stated: a feeder with two sheets whose third `Transfer`
reports a paper jam, every `SaveFile` succeeding and blank-page exclusion
off, with a context that is done when the results are collected.  All three
calls of `Transfer` are made, and the `select` of the collection loop takes
`ctx.Done()`: `scanADFBatch` returns no page and the cancellation error. -/
theorem scanADFBatch_late_cancel :
    (lateCancelEnv 2).transfer 0 = TransferReply.image ∧
    (lateCancelEnv 2).transfer 1 = TransferReply.image ∧
    (lateCancelEnv 2).transfer 2 = TransferReply.failed paperJam ∧
    (lateCancelEnv 2).saveFile 1 = none ∧ (lateCancelEnv 2).saveFile 2 = none ∧
    (feederParams 5).ExcludeBlankPages = false ∧
    (scanADFBatch (lateCancelEnv 2) 5 (feederParams 5)).transfers = 3 ∧
    (scanADFBatch (lateCancelEnv 2) 5 (feederParams 5)).outcome =
      ScanOutcome.returned [] (some (lateCancelEnv 2).ctxErr) := by
  decide

theorem scanADFBatch_limit (env : WiaEnv) (pageCount : Int) (params : ScanParams) :
    (scanADFBatch env pageCount params).transfers ≤
      (if pageCount = 0 then (9999 : Int) else pageCount).toNat ∧
    ∀ results err,
      (scanADFBatch env pageCount params).outcome = ScanOutcome.returned results err →
      results.length ≤ (if pageCount = 0 then (9999 : Int) else pageCount).toNat := by
  unfold scanADFBatch
  dsimp only
  generalize (if pageCount = 0 then (9999 : Int) else pageCount) = M
  by_cases hneg : M < 0
  · rw [if_pos hneg]
    exact ⟨Nat.zero_le _, fun results err h => by simp at h⟩
  · rw [if_neg hneg]
    have hb := captureLoop_bounds env pageCount M.toNat 0
      { scannedPages := 0, transfers := 0, progress := [] }
    generalize captureLoop env pageCount M.toNat 0
      { scannedPages := 0, transfers := 0, progress := [] } = cap at hb
    obtain ⟨c, early⟩ := cap
    simp only [Nat.zero_add] at hb
    cases early with
    | some e =>
      refine ⟨hb.2, fun results err h => ?_⟩
      simp only [ScanOutcome.returned.injEq] at h
      rw [← h.1]
      exact Nat.zero_le _
    | none =>
      refine ⟨hb.2, fun results err h => ?_⟩
      dsimp only at h
      obtain ⟨k, hk⟩ := collectLoop_returned env _ _ _ _ _ _ _ _ _ h
      rw [hk, List.nil_append]
      refine le_trans (List.take_sublist k _).length_le ?_
      unfold resultsOf
      refine le_trans (List.length_filterMap_le _ _) ?_
      rw [List.length_map, length_pageNumbers]
      exact hb.1

/-- In feeder mode `Scan` calls `Transfer` and returns pages at most
`PageCount` times, and once when `PageCount` is 0. -/
theorem scan_feeder_limit (env : WiaEnv) (params : ScanParams)
    (hf : params.UseFeeder = true) :
    (Scan env params).transfers ≤
      (if params.PageCount = 0 then (1 : Int) else params.PageCount).toNat ∧
    ∀ results err, (Scan env params).outcome = ScanOutcome.returned results err →
      results.length ≤ (if params.PageCount = 0 then (1 : Int) else params.PageCount).toNat := by
  have hM : (if (if params.PageCount = 0 then (1 : Int) else params.PageCount) = 0
      then (9999 : Int) else (if params.PageCount = 0 then (1 : Int) else params.PageCount)) =
      (if params.PageCount = 0 then (1 : Int) else params.PageCount) := by
    split_ifs <;> first | rfl | omega
  have h := scanADFBatch_limit env
    (if params.PageCount = 0 then (1 : Int) else params.PageCount) params
  rw [hM] at h
  unfold Scan
  cases hp : env.prelude with
  | some e =>
    exact ⟨Nat.zero_le _, fun results err h => by
      simp only [ScanOutcome.returned.injEq] at h
      rw [← h.1]
      exact Nat.zero_le _⟩
  | none =>
    dsimp only
    rw [if_pos hf]
    exact h

set_option maxRecDepth 100000 in
/-- C14. With `PageCount = 0` a feeder scan is not unbounded: `Scan` turns
the page count into 1 before it calls `scanADFBatch`.  At a feeder holding
two sheets and then reporting `WIA_ERROR_PAPER_EMPTY`, `Scan` calls
`Transfer` once and returns page 1 alone, where `scanADFBatch` called with
page count 0 would call `Transfer` three times and return both pages.  In
general a feeder scan makes at most `n` calls of `Transfer` and returns at
most `n` pages, `n` being `PageCount`, or 1 when `PageCount` is 0. -/
theorem scan_unbounded_feeder_one_page :
    ((feederEnv 2 (TransferReply.failed paperEmpty) SelectCase.result).transfer 0 =
      TransferReply.image ∧
    (feederEnv 2 (TransferReply.failed paperEmpty) SelectCase.result).transfer 1 =
      TransferReply.image ∧
    (feederEnv 2 (TransferReply.failed paperEmpty) SelectCase.result).transfer 2 =
      TransferReply.failed paperEmpty ∧
    isWiaError paperEmpty WIA_ERROR_PAPER_EMPTY = true ∧
    (feederParams 0).UseFeeder = true ∧ (feederParams 0).PageCount = 0 ∧
    (Scan (feederEnv 2 (TransferReply.failed paperEmpty) SelectCase.result)
      (feederParams 0)).transfers = 1 ∧
    (Scan (feederEnv 2 (TransferReply.failed paperEmpty) SelectCase.result)
      (feederParams 0)).outcome =
      ScanOutcome.returned
        [pageResult (feederEnv 2 (TransferReply.failed paperEmpty) SelectCase.result)
          (feederParams 0) 1] none ∧
    (scanADFBatch (feederEnv 2 (TransferReply.failed paperEmpty) SelectCase.result) 0
      (feederParams 0)).transfers = 3 ∧
    (scanADFBatch (feederEnv 2 (TransferReply.failed paperEmpty) SelectCase.result) 0
      (feederParams 0)).outcome =
      ScanOutcome.returned
        [pageResult (feederEnv 2 (TransferReply.failed paperEmpty) SelectCase.result)
          (feederParams 0) 1,
         pageResult (feederEnv 2 (TransferReply.failed paperEmpty) SelectCase.result)
          (feederParams 0) 2] none) ∧
    ∀ (env : WiaEnv) (params : ScanParams), params.UseFeeder = true →
      (Scan env params).transfers ≤
        (if params.PageCount = 0 then (1 : Int) else params.PageCount).toNat ∧
      ∀ results err, (Scan env params).outcome = ScanOutcome.returned results err →
        results.length ≤
          (if params.PageCount = 0 then (1 : Int) else params.PageCount).toNat :=
  ⟨by decide, scan_feeder_limit⟩

set_option maxRecDepth 100000 in
/-- C15, at a feeder with five sheets and a page limit of five whose
context is done at the top of the third iteration of the capture loop: two
pages were captured and both were post-processed by the worker, and
`scanADFBatch` returns no page with the cancellation error. -/
theorem scanADFBatch_cancel_drops_pages :
    (scanADFBatch (cancelledEnv 5 2) 5 (feederParams 5)).transfers = 2 ∧
    (scanADFBatch (cancelledEnv 5 2) 5 (feederParams 5)).steps =
      [(1, PostStep.imageQuality), (2, PostStep.imageQuality)] ∧
    resultsOf ((pageNumbers 2).map
      (fun p => (saveWorker (cancelledEnv 5 2) (feederParams 5) p).1)) =
      [pageResult (cancelledEnv 5 2) (feederParams 5) 1,
       pageResult (cancelledEnv 5 2) (feederParams 5) 2] ∧
    (scanADFBatch (cancelledEnv 5 2) 5 (feederParams 5)).outcome =
      ScanOutcome.returned [] (some (cancelledEnv 5 2).ctxErr) := by
  decide

set_option maxRecDepth 100000 in
/-- C16, at a feeder with two sheets in which `SaveFile` fails for page 2:
page 1 is post-processed and put on `resultChan`; when the `select` of the
collection loop takes `errChan` first, `scanADFBatch` returns the error and
no page, and when it takes `resultChan` first it returns the error and
page 1. -/
theorem scanADFBatch_save_error_drops_pages :
    resultsOf ((pageNumbers 2).map
      (fun p => (saveWorker (saveFailEnv 2 2 SelectCase.error) (feederParams 5) p).1)) =
      [pageResult (saveFailEnv 2 2 SelectCase.error) (feederParams 5) 1] ∧
    (scanADFBatch (saveFailEnv 2 2 SelectCase.error) 5 (feederParams 5)).outcome =
      ScanOutcome.returned []
        (some (GoError.wrap "failed to save page 2: disk full".toList
          (GoError.leaf "disk full".toList))) ∧
    (scanADFBatch (saveFailEnv 2 2 SelectCase.result) 5 (feederParams 5)).outcome =
      ScanOutcome.returned [pageResult (saveFailEnv 2 2 SelectCase.result) (feederParams 5) 1]
        (some (GoError.wrap "failed to save page 2: disk full".toList
          (GoError.leaf "disk full".toList))) := by
  decide

end WindowsDriver

theorem pairwise_pageNumber_range (f : Nat → ScanResult)
    (hf : ∀ j, (f j).PageNumber = (j : Int) + 1) (i n : Nat) :
    ((List.range' i n).map f).Pairwise (fun a b => a.PageNumber < b.PageNumber) ∧
    ∀ r ∈ (List.range' i n).map f, 1 ≤ r.PageNumber := by
  constructor
  · rw [List.pairwise_map]
    refine List.Pairwise.imp ?_ (List.pairwise_lt_range' i n)
    intro a b hab
    rw [hf, hf]
    omega
  · intro r hr
    obtain ⟨j, -, rfl⟩ := List.mem_map.mp hr
    rw [hf]
    omega

namespace WindowsDriver

theorem feeder_pages_ordered (env : WiaEnv) (params : ScanParams) (m : Nat)
    (results : List ScanResult)
    (h : results.Sublist ((pageNumbers m).map (pageResult env params))) :
    results.Pairwise (fun a b => a.PageNumber < b.PageNumber) ∧
    ∀ r ∈ results, 1 ≤ r.PageNumber := by
  have hmap : (pageNumbers m).map (pageResult env params) =
      (List.range' 0 m).map (fun j => pageResult env params (j + 1)) := by
    unfold pageNumbers
    rw [List.map_map, List.range_eq_range']
    rfl
  rw [hmap] at h
  obtain ⟨h1, h2⟩ := pairwise_pageNumber_range (fun j => pageResult env params (j + 1))
    (fun j => by simp [pageResult]) 0 m
  exact ⟨h1.sublist h, fun r hr => h2 r (h.subset hr)⟩

theorem scanADFBatch_sublist (env : WiaEnv) (pageCount : Int) (params : ScanParams)
    (results : List ScanResult) (err : Option GoError)
    (h : (scanADFBatch env pageCount params).outcome = ScanOutcome.returned results err) :
    ∃ m, results.Sublist ((pageNumbers m).map (pageResult env params)) := by
  unfold scanADFBatch at h
  dsimp only at h
  generalize (if pageCount = 0 then (9999 : Int) else pageCount) = M at h
  by_cases hneg : M < 0
  · rw [if_pos hneg] at h
    simp at h
  · rw [if_neg hneg] at h
    generalize captureLoop env pageCount M.toNat 0
      { scannedPages := 0, transfers := 0, progress := [] } = cap at h
    obtain ⟨c, early⟩ := cap
    cases early with
    | some e =>
      simp only [ScanOutcome.returned.injEq] at h
      exact ⟨0, by rw [← h.1]; exact List.nil_sublist _⟩
    | none =>
      dsimp only at h
      obtain ⟨k, hk⟩ := collectLoop_returned env _ _ _ _ _ _ _ _ _ h
      refine ⟨c.scannedPages, ?_⟩
      rw [hk, List.nil_append]
      exact (List.take_sublist _ _).trans (resultsOf_sublist env params _)

end WindowsDriver

namespace PosixDriver

theorem scanLoop_returned (env : PosixEnv) (pageCount : Int) (params : ScanParams) :
    ∀ (n i : Nat) (results : List ScanResult) (progress : List Int)
      (res : List ScanResult) (err : Option GoError),
      (scanLoop env pageCount params n i results progress).1 = ScanOutcome.returned res err →
      (res = [] ∧ err = some env.ctxErr) ∨
      (err = none ∧ ∃ f : Nat → ScanResult, (∀ j, (f j).PageNumber = (j : Int) + 1) ∧
        res = results ++ (List.range' i n).map f) := by
  intro n
  induction n with
  | zero =>
    intro i results progress res err h
    simp only [scanLoop, ScanOutcome.returned.injEq] at h
    exact Or.inr ⟨h.2.symm, fun j => ⟨(j : Int) + 1, [], 0, [], 0, 0⟩, fun _ => rfl,
      by simp [h.1]⟩
  | succ n ih =>
    intro i results progress res err h
    rw [scanLoop] at h
    cases hctx : env.ctxDone i with
    | true =>
      simp only [hctx, if_true, ScanOutcome.returned.injEq] at h
      exact Or.inl ⟨h.1.symm, h.2.symm⟩
    | false =>
      simp only [hctx, Bool.false_eq_true, if_false] at h
      rcases ih _ _ _ _ _ h with h1 | ⟨he, f, hf, hres⟩
      · exact Or.inl h1
      · refine Or.inr ⟨he, fun j => if j = i then
          { PageNumber := (i : Int) + 1
            FilePath := "scan_".toList ++ WindowsDriver.baseTimestamp (env.now i) ++
               "_page_".toList ++ fmtD ((i : Int) + 1) ++ ".".toList ++ params.Format
            FileSize := 1024 * 1024
            Format := params.Format
            Width := params.Width
            Height := params.Height } else f j, ?_, ?_⟩
        · intro j
          by_cases hj : j = i
          · simp [hj]
          · simp [hj, hf]
        · rw [hres, List.range'_succ, List.map_cons, List.append_assoc]
          simp only [if_true, List.singleton_append, List.cons.injEq, true_and,
            List.append_cancel_left_eq]
          apply List.map_congr_left
          intro j hj
          have : j ≠ i := by
            have := (List.mem_range'_1.mp hj).1
            omega
          simp [this]

end PosixDriver

set_option maxRecDepth 100000 in
/-- C17. In every batch that a driver `Scan` returns (the WIA driver, in
feeder mode and outside it, and the Linux and Darwin drivers), the
`PageNumber` values are strictly increasing along the list and at least 1;
the pages of `scanADFBatch` are a sublist, in capture order, of the pages
captured, the page captured in place `p` having `PageNumber` `p`.  A feeder
with two sheets returns pages 1 and 2 without error. -/
theorem scan_pages_in_capture_order :
    (∀ (env : WiaEnv) (pageCount : Int) (params : ScanParams) (results : List ScanResult)
        (err : Option GoError),
      (WindowsDriver.scanADFBatch env pageCount params).outcome =
        ScanOutcome.returned results err →
      ∃ m, results.Sublist
        ((WindowsDriver.pageNumbers m).map (WindowsDriver.pageResult env params))) ∧
    (∀ (env : WiaEnv) (params : ScanParams) (p : Nat),
      (WindowsDriver.pageResult env params p).PageNumber = p) ∧
    (∀ (env : WiaEnv) (params : ScanParams) (results : List ScanResult)
        (err : Option GoError),
      (WindowsDriver.Scan env params).outcome = ScanOutcome.returned results err →
      results.Pairwise (fun a b => a.PageNumber < b.PageNumber) ∧
      ∀ r ∈ results, 1 ≤ r.PageNumber) ∧
    (∀ (env : PosixEnv) (params : ScanParams) (results : List ScanResult)
        (err : Option GoError),
      (PosixDriver.Scan env params).outcome = ScanOutcome.returned results err →
      results.Pairwise (fun a b => a.PageNumber < b.PageNumber) ∧
      ∀ r ∈ results, 1 ≤ r.PageNumber) ∧
    ((WindowsDriver.Scan
        (WindowsDriver.feederEnv 2 (TransferReply.failed WindowsDriver.paperEmpty)
          SelectCase.result) (WindowsDriver.feederParams 5)).outcome =
      ScanOutcome.returned
        ([1, 2].map (WindowsDriver.pageResult
          (WindowsDriver.feederEnv 2 (TransferReply.failed WindowsDriver.paperEmpty)
            SelectCase.result) (WindowsDriver.feederParams 5))) none) := by
  have hnil : ([] : List ScanResult).Pairwise (fun a b => a.PageNumber < b.PageNumber) ∧
      ∀ r ∈ ([] : List ScanResult), 1 ≤ r.PageNumber :=
    ⟨List.Pairwise.nil, fun r hr => absurd hr (List.not_mem_nil r)⟩
  refine ⟨WindowsDriver.scanADFBatch_sublist, fun _ _ _ => rfl, ?_, ?_, ?_⟩
  · intro env params results err h
    unfold WindowsDriver.Scan at h
    cases hp : env.prelude with
    | some e =>
      rw [hp] at h
      simp only [ScanOutcome.returned.injEq] at h
      rw [← h.1]; exact hnil
    | none =>
      rw [hp] at h
      dsimp only at h
      cases hf : params.UseFeeder with
      | true =>
        rw [hf, if_pos rfl] at h
        obtain ⟨m, hm⟩ := WindowsDriver.scanADFBatch_sublist env _ params results err h
        exact WindowsDriver.feeder_pages_ordered env params m results hm
      | false =>
        rw [hf] at h
        simp only [Bool.false_eq_true, if_false] at h
        cases ht : env.transfer 0 with
        | failed e =>
          rw [ht] at h
          simp only [ScanOutcome.returned.injEq] at h
          rw [← h.1]; exact hnil
        | nilImage =>
          rw [ht] at h
          simp at h
        | image =>
          rw [ht] at h
          dsimp only at h
          cases hs : env.saveFile 0 with
          | some e =>
            rw [hs] at h
            simp only [ScanOutcome.returned.injEq] at h
            rw [← h.1]; exact hnil
          | none =>
            rw [hs] at h
            simp only [ScanOutcome.returned.injEq] at h
            rw [← h.1]
            exact ⟨List.pairwise_singleton _ _, fun r hr => by
              rw [List.mem_singleton.mp hr]⟩
  · intro env params results err h
    unfold PosixDriver.Scan at h
    cases hp : env.prelude with
    | some e =>
      rw [hp] at h
      simp only [ScanOutcome.returned.injEq] at h
      rw [← h.1]; exact hnil
    | none =>
      rw [hp] at h
      dsimp only at h
      rcases PosixDriver.scanLoop_returned env _ params _ _ _ _ _ _ h with h1 | ⟨-, f, hf, hres⟩
      · rw [h1.1]; exact hnil
      · rw [hres, List.nil_append]
        exact pairwise_pageNumber_range f hf 0 _
  · decide

theorem in_range {b : ℚ} (h1 : 1 / 2 ^ 100 ≤ b) (h2 : b ≤ 2 ^ 100) :
    b = 0 ∨ (1 / 2 ^ 900 ≤ b ∧ b ≤ 2 ^ 900) :=
  Or.inr ⟨le_trans (by norm_num) h1, le_trans h2 (by norm_num)⟩

theorem relErr_rnd_int (fa : Float64Ops) (n : Int) (h0 : 0 ≤ n) (h1 : n ≤ 2 ^ 64) :
    RelErr 1 (fa.rnd (n : ℚ)) (n : ℚ) := by
  refine relErr_rnd fa (relErr_refl _) ?_ (by norm_num)
  rcases eq_or_lt_of_le h0 with h | h
  · left; rw [← h]; simp
  · refine in_range ?_ ?_
    · have : (1 : ℚ) ≤ n := by exact_mod_cast h
      exact le_trans (by norm_num) this
    · have : (n : ℚ) ≤ 2 ^ 64 := by exact_mod_cast h1
      exact le_trans this (by norm_num)

namespace BlankPageDetector

theorem whiteThresholdAdjusted_exact (fa : Float64Ops) (c w : Int) (n : Int) (k : Nat)
    (hq : (w : ℚ) / 100 = (n : ℚ) / 2 ^ k) (hn : |n| ≤ 2 ^ 53) (hk : k ≤ 1000)
    (hw : |w| ≤ 2 ^ 53) (m : Int) (hm : (w : ℚ) / 100 * 254 = (m : ℚ)) (hm0 : 0 ≤ m)
    (hm1 : |m| ≤ 2 ^ 53) :
    whiteThresholdAdjusted fa { WhiteThreshold := w, CoverageThreshold := c } = 1 + m := by
  unfold whiteThresholdAdjusted
  simp only
  rw [fa.rnd_int w hw, hq, fa.exact n k hn hk, ← hq, hm, fa.rnd_int m hm1,
    truncate_eq (m : ℚ) m hm0 le_rfl (by linarith)]

/-- The white threshold of the code: the product is truncated. -/
theorem whiteThresholdAdjusted_eq (fa : Float64Ops) (d : BlankPageDetector)
    (h0 : 0 ≤ d.WhiteThreshold) (h1 : d.WhiteThreshold ≤ 100) :
    whiteThresholdAdjusted fa d = 1 + 254 * d.WhiteThreshold / 100 := by
  obtain ⟨w, c⟩ := d
  simp only at h0 h1 ⊢
  by_cases h50 : w % 50 = 0
  · have hw : w = 0 ∨ w = 50 ∨ w = 100 := by omega
    rcases hw with rfl | rfl | rfl
    · exact whiteThresholdAdjusted_exact fa c 0 0 0 (by norm_num) (by norm_num) (by norm_num)
        (by norm_num) 0 (by norm_num) (by norm_num) (by norm_num)
    · exact whiteThresholdAdjusted_exact fa c 50 1 1 (by norm_num) (by norm_num) (by norm_num)
        (by norm_num) 127 (by norm_num) (by norm_num) (by norm_num)
    · exact whiteThresholdAdjusted_exact fa c 100 1 0 (by norm_num) (by norm_num)
        (by norm_num) (by norm_num) 254 (by norm_num) (by norm_num) (by norm_num)
  · have hwpos : 0 < w := by omega
    have hr1 : 1 ≤ (254 * w) % 100 := by omega
    have hr2 : (254 * w) % 100 ≤ 99 := by omega
    have hdiv : 254 * w = 100 * (254 * w / 100) + (254 * w) % 100 :=
      (Int.ediv_add_emod (254 * w) 100).symm
    have hk0 : 0 ≤ 254 * w / 100 := by omega
    have hdivq : (254 : ℚ) * w = 100 * ((254 * w / 100 : Int) : ℚ) + (((254 * w) % 100 : Int) : ℚ) := by
      exact_mod_cast hdiv
    have hr1q : (1 : ℚ) ≤ (((254 * w) % 100 : Int) : ℚ) := by exact_mod_cast hr1
    have hr2q : (((254 * w) % 100 : Int) : ℚ) ≤ 99 := by exact_mod_cast hr2
    have hwq : (w : ℚ) ≤ 100 := by exact_mod_cast h1
    have hwq0 : (1 : ℚ) ≤ w := by exact_mod_cast hwpos
    have e1 := relErr_rnd_int fa w h0 (by omega)
    have e2 : RelErr 1 (fa.rnd (w : ℚ) / 100) ((w : ℚ) / 100) := by
      have := relErr_div e1 (relErr_refl (100 : ℚ)) (by linarith) (by norm_num)
      simpa using this
    have e3 := relErr_rnd fa e2 (in_range (by linarith) (by linarith)) (by norm_num)
    have e4 : RelErr 2 (fa.rnd (fa.rnd (w : ℚ) / 100) * 254) ((w : ℚ) / 100 * 254) := by
      have := relErr_mul e3 (relErr_refl (254 : ℚ)) (by linarith) (by norm_num)
      simpa using this
    have e5 := relErr_rnd fa e4 (in_range (by linarith) (by linarith)) (by norm_num)
    have habs := relErr_abs e5 (by linarith) (by norm_num)
    rw [abs_le] at habs
    have hv : (w : ℚ) / 100 * 254 ≤ 254 := by linarith
    have hsmall : (w : ℚ) / 100 * 254 / 2 ^ 47 ≤ 1 / 200 := by
      have : (w : ℚ) / 100 * 254 / 2 ^ 47 ≤ 254 / 2 ^ 47 :=
        div_le_div_of_nonneg_right hv (by norm_num)
      exact le_trans this (by norm_num)
    unfold whiteThresholdAdjusted
    simp only
    rw [truncate_eq _ (254 * w / 100) hk0 (by linarith) (by linarith)]

end BlankPageDetector

theorem in_range_zero {b : ℚ} (h1 : b = 0 ∨ 1 / 2 ^ 100 ≤ b) (h2 : b ≤ 2 ^ 100) :
    b = 0 ∨ (1 / 2 ^ 900 ≤ b ∧ b ≤ 2 ^ 900) := by
  rcases h1 with h | h
  · exact Or.inl h
  · exact in_range h h2

/-- Truncation of a value that is the fraction `N / D` up to a few roundings,
when the fraction is not a whole number. -/
theorem truncate_relErr {j : Nat} {x : ℚ} (N D : Int) (hD : 0 < D) (hN : 0 ≤ N)
    (hrel : RelErr j x ((N : ℚ) / D)) (hj : j ≤ 16) (hrem : N % D ≠ 0)
    (hsmall : (N : ℚ) < 2 ^ 47) : truncate x = N / D := by
  have hDq : (0 : ℚ) < D := by exact_mod_cast hD
  have hNq : (0 : ℚ) ≤ N := by exact_mod_cast hN
  have hr0 : 0 ≤ N % D := Int.emod_nonneg N hD.ne'
  have hr1 : 1 ≤ N % D := by omega
  have hr2 : N % D ≤ D - 1 := by have := Int.emod_lt_of_pos N hD; omega
  have hdiv : N = D * (N / D) + N % D := (Int.ediv_add_emod N D).symm
  have hk0 : 0 ≤ N / D := Int.ediv_nonneg hN hD.le
  have hdivq : (N : ℚ) = D * ((N / D : Int) : ℚ) + ((N % D : Int) : ℚ) := by
    exact_mod_cast hdiv
  have hr1q : (1 : ℚ) ≤ ((N % D : Int) : ℚ) := by exact_mod_cast hr1
  have hr2q : ((N % D : Int) : ℚ) ≤ D - 1 := by exact_mod_cast hr2
  have hv : (N : ℚ) / D = ((N / D : Int) : ℚ) + ((N % D : Int) : ℚ) / D := by
    rw [hdivq]
    field_simp
    ring
  have habs := relErr_abs hrel (div_nonneg hNq hDq.le) hj
  rw [abs_le] at habs
  have herr : (N : ℚ) / D / 2 ^ 47 < 1 / D := by
    rw [div_div, div_lt_div_iff₀ (by positivity) hDq]
    have : (N : ℚ) * D < 1 * (D * 2 ^ 47) := by nlinarith
    linarith
  have hlo : (1 : ℚ) / D ≤ ((N % D : Int) : ℚ) / D :=
    div_le_div_of_nonneg_right hr1q hDq.le
  have hhi : ((N % D : Int) : ℚ) / D ≤ 1 - 1 / D := by
    rw [div_le_iff₀ hDq]
    have : (1 - 1 / (D : ℚ)) * D = D - 1 := by field_simp
    rw [this]
    exact hr2q
  exact truncate_eq x (N / D) hk0 (by linarith) (by linarith)

theorem mem_span (a b x : Int) : x ∈ span a b ↔ a ≤ x ∧ x < b := by
  unfold span
  simp only [List.mem_map, List.mem_range]
  constructor
  · rintro ⟨j, hj, rfl⟩
    omega
  · rintro ⟨h1, h2⟩
    exact ⟨(x - a).toNat, by omega, by omega⟩

theorem length_span (a b : Int) : (span a b).length = (b - a).toNat := by
  simp [span]

theorem sum_map_eq_zero {α : Type} (l : List α) (f : α → Nat) (h : ∀ a ∈ l, f a = 0) :
    (l.map f).sum = 0 := by
  induction l with
  | nil => rfl
  | cons a l ih =>
    rw [List.map_cons, List.sum_cons, h a (List.mem_cons_self _ _),
      ih (fun b hb => h b (List.mem_cons_of_mem _ hb))]

theorem sum_map_le {α : Type} (l : List α) (f g : α → Nat) (h : ∀ a ∈ l, f a ≤ g a) :
    (l.map f).sum ≤ (l.map g).sum := by
  induction l with
  | nil => exact Nat.le_refl _
  | cons a l ih =>
    rw [List.map_cons, List.map_cons, List.sum_cons, List.sum_cons]
    exact Nat.add_le_add (h a (List.mem_cons_self _ _))
      (ih (fun b hb => h b (List.mem_cons_of_mem _ hb)))

theorem sum_map_const {α : Type} (l : List α) (c : Nat) :
    (l.map (fun _ => c)).sum = l.length * c := by
  induction l with
  | nil => simp
  | cons a l ih =>
    rw [List.map_cons, List.sum_cons, ih, List.length_cons]
    ring

theorem countPixels_eq_zero (img : Image) (rg : Region) (p : Pixel → Bool)
    (h : ∀ x y, rg.startX ≤ x → x < rg.endX → rg.startY ≤ y → y < rg.endY →
      p (img.colorAt x y) = false) :
    countPixels img rg p = 0 := by
  unfold countPixels
  apply sum_map_eq_zero
  intro y hy
  rw [mem_span] at hy
  rw [List.countP_eq_zero]
  intro x hx
  rw [mem_span] at hx
  simp [h x y hx.1 hx.2 hy.1 hy.2]

theorem countPixels_mono (img : Image) (rg : Region) (p q : Pixel → Bool)
    (h : ∀ c, p c = true → q c = true) :
    countPixels img rg p ≤ countPixels img rg q := by
  unfold countPixels
  apply sum_map_le
  intro y _
  exact List.countP_mono_left (fun x _ hx => h _ hx) 

theorem countPixels_true (img : Image) (rg : Region) :
    countPixels img rg (fun _ => true) =
      (rg.endY - rg.startY).toNat * (rg.endX - rg.startX).toNat := by
  unfold countPixels
  have : ∀ y : Int, (span rg.startX rg.endX).countP (fun x => (fun _ => true) (img.colorAt x y))
      = (rg.endX - rg.startX).toNat := by
    intro y
    rw [List.countP_eq_length.mpr (fun _ _ => rfl), length_span]
  simp only [this]
  rw [sum_map_const, length_span]
  simp only [List.countP_eq_length.mpr (fun _ _ => rfl), length_span]

theorem countPixels_le (img : Image) (rg : Region) (p : Pixel → Bool) :
    countPixels img rg p ≤ (rg.endY - rg.startY).toNat * (rg.endX - rg.startX).toNat := by
  rw [← countPixels_true img rg]
  exact countPixels_mono img rg p _ (fun _ _ => rfl)

namespace BlankPageDetector

/-- The coverage threshold of the code is `coverageThreshold / 100 × 0.01` up
to five roundings. -/
theorem coverageThresholdAdjusted_relErr (fa : Float64Ops) (d : BlankPageDetector)
    (h0 : 0 ≤ d.CoverageThreshold) (h1 : d.CoverageThreshold ≤ 100) :
    RelErr 5 (coverageThresholdAdjusted fa d)
      ((d.CoverageThreshold : ℚ) / 100 * (1 / 100)) := by
  obtain ⟨w, c⟩ := d
  simp only at h0 h1 ⊢
  have hc0 : (0 : ℚ) ≤ c := by exact_mod_cast h0
  have hc1 : (c : ℚ) ≤ 100 := by exact_mod_cast h1
  have hcz : (c : ℚ) = 0 ∨ (1 : ℚ) ≤ c := by
    rcases eq_or_lt_of_le h0 with h | h
    · left; rw [← h]; simp
    · right; exact_mod_cast h
  have e1 := relErr_rnd_int fa c h0 (by omega)
  have e2 : RelErr 1 (fa.rnd (c : ℚ) / 100) ((c : ℚ) / 100) := by
    have := relErr_div e1 (relErr_refl (100 : ℚ)) hc0 (by norm_num)
    simpa using this
  have e3 := relErr_rnd fa e2 (in_range_zero (by
    rcases hcz with h | h
    · left; rw [h]; norm_num
    · right; linarith) (by linarith)) (by norm_num)
  have c1 : RelErr 1 (fa.rnd (1 / 100)) (1 / 100) :=
    relErr_rnd fa (relErr_refl _) (in_range (by norm_num) (by norm_num)) (by norm_num)
  have e4 := relErr_mul e3 c1 (by positivity) (by norm_num)
  have hr : (c : ℚ) / 100 * (1 / 100) = 0 ∨ 1 / 2 ^ 100 ≤ (c : ℚ) / 100 * (1 / 100) := by
    rcases hcz with h | h
    · left; rw [h]; norm_num
    · right
      have : (1 : ℚ) / 10000 ≤ (c : ℚ) / 100 * (1 / 100) := by linarith
      exact le_trans (by norm_num) this
  have hr2 : (c : ℚ) / 100 * (1 / 100) ≤ 2 ^ 100 := by
    have : (c : ℚ) / 100 * (1 / 100) ≤ 1 := by linarith
    exact le_trans this (by norm_num)
  have e5 := relErr_rnd fa e4 (in_range_zero hr hr2) (by norm_num)
  have e6 := relErr_rnd fa e5 (in_range_zero hr hr2) (by norm_num)
  unfold coverageThresholdAdjusted
  simp only [zero_add]
  exact e6

theorem coverageThresholdAdjusted_default (fa : Float64Ops) :
    0 < coverageThresholdAdjusted fa defaultDetector ∧
    coverageThresholdAdjusted fa defaultDetector < 1 / 500 := by
  have h := coverageThresholdAdjusted_relErr fa defaultDetector (by decide) (by decide)
  have hb : (0 : ℚ) < ((defaultDetector.CoverageThreshold : Int) : ℚ) / 100 * (1 / 100) := by
    simp only [defaultDetector]; norm_num
  refine ⟨relErr_pos h hb, ?_⟩
  have habs := relErr_abs h hb.le (by norm_num)
  rw [abs_le] at habs
  have : ((defaultDetector.CoverageThreshold : Int) : ℚ) / 100 * (1 / 100) = 15 / 10000 := by
    simp only [defaultDetector]; norm_num
  rw [this] at habs
  have h2 : (15 : ℚ) / 10000 / 2 ^ 47 ≤ 1 / 10000 := by norm_num
  linarith [habs.2]

theorem whiteThresholdAdjusted_default (fa : Float64Ops) :
    whiteThresholdAdjusted fa defaultDetector = 178 := by
  rw [whiteThresholdAdjusted_eq fa defaultDetector (by decide) (by decide)]
  rfl

/-- The border that `isBlankPage` ignores is a hundredth of the width,
truncated, when the width is not a multiple of 100. -/
theorem ignoreEdge_eq (fa : Float64Ops) (img : Image) (h0 : 0 ≤ img.maxX - img.minX)
    (h1 : img.maxX - img.minX ≤ 2 ^ 40) (hrem : (img.maxX - img.minX) % 100 ≠ 0) :
    ignoreEdge fa img = (img.maxX - img.minX) / 100 := by
  have hq0 : (0 : ℚ) ≤ ((img.maxX - img.minX : Int) : ℚ) := by exact_mod_cast h0
  have hq1 : ((img.maxX - img.minX : Int) : ℚ) ≤ 2 ^ 40 := by exact_mod_cast h1
  have hpos : 0 < img.maxX - img.minX := by omega
  have hq2 : (1 : ℚ) ≤ ((img.maxX - img.minX : Int) : ℚ) := by exact_mod_cast hpos
  have e1 := relErr_rnd_int fa (img.maxX - img.minX) h0 (by omega)
  have c1 : RelErr 1 (fa.rnd (1 / 100)) (1 / 100) :=
    relErr_rnd fa (relErr_refl _) (in_range (by norm_num) (by norm_num)) (by norm_num)
  have e2 := relErr_mul e1 c1 hq0 (by norm_num)
  have e3 := relErr_rnd fa e2 (in_range (by
      have : (1 : ℚ) / 100 ≤ ((img.maxX - img.minX : Int) : ℚ) * (1 / 100) := by linarith
      exact le_trans (by norm_num) this) (by
      have : ((img.maxX - img.minX : Int) : ℚ) * (1 / 100) ≤ 2 ^ 40 := by linarith
      exact le_trans this (by norm_num))) (by norm_num)
  have e4 : RelErr 3 (fa.rnd (fa.rnd ((img.maxX - img.minX : Int) : ℚ) * fa.rnd (1 / 100)))
      (((img.maxX - img.minX : Int) : ℚ) / ((100 : Int) : ℚ)) := by
    have : ((img.maxX - img.minX : Int) : ℚ) / ((100 : Int) : ℚ) =
        ((img.maxX - img.minX : Int) : ℚ) * (1 / 100) := by push_cast; ring
    rw [this]
    exact e3
  have ht := truncate_relErr (img.maxX - img.minX) 100 (by norm_num) h0 e4 (by norm_num) hrem
    (lt_of_le_of_lt hq1 (by norm_num))
  unfold ignoreEdge
  simp only
  rw [ht]
  split_ifs with hlt
  · omega
  · rfl

theorem ignoreEdge_nonneg (fa : Float64Ops) (img : Image) : 0 ≤ ignoreEdge fa img := by
  unfold ignoreEdge
  simp only
  split_ifs with h
  · exact le_refl _
  · omega

/-- The rectangle scanned lies inside the image and is not empty. -/
theorem region_inside (fa : Float64Ops) (img : Image) (hx : img.minX < img.maxX)
    (hy : img.minY < img.maxY) :
    img.minX ≤ (region fa img).startX ∧ (region fa img).startX < (region fa img).endX ∧
    (region fa img).endX ≤ img.maxX ∧
    img.minY ≤ (region fa img).startY ∧ (region fa img).startY < (region fa img).endY ∧
    (region fa img).endY ≤ img.maxY := by
  have he := ignoreEdge_nonneg fa img
  unfold region
  simp only
  split_ifs with h
  · simp only
    omega
  · simp only
    omega

end BlankPageDetector

namespace BlankPageDetector

theorem luma_white (p : Pixel) (h : isWhite p = true) : luma p = 255000 := by
  unfold isWhite at h
  simp only [Bool.and_eq_true, decide_eq_true_eq] at h
  unfold luma
  rw [h.1.1, h.1.2, h.2]
  rfl

theorem luma_black (p : Pixel) (h : isBlack p = true) : luma p = 0 := by
  unfold isBlack at h
  simp only [Bool.and_eq_true, decide_eq_true_eq] at h
  unfold luma
  rw [h.1.1, h.1.2, h.2]
  rfl

theorem total_bounds (rg : Region) (hx : rg.startX < rg.endX) (hy : rg.startY < rg.endY)
    (hsx : rg.endX - rg.startX ≤ 2 ^ 31) (hsy : rg.endY - rg.startY ≤ 2 ^ 31) :
    1 ≤ (rg.endX - rg.startX) * (rg.endY - rg.startY) ∧
    (rg.endX - rg.startX) * (rg.endY - rg.startY) ≤ 2 ^ 62 := by
  constructor
  · nlinarith
  · nlinarith

/-- With the default thresholds, a page without a non-white pixel in the
rectangle scanned is blank. -/
theorem isBlankPage_of_white (fa : Float64Ops) (img : Image)
    (hx : (region fa img).startX < (region fa img).endX)
    (hy : (region fa img).startY < (region fa img).endY)
    (hsx : (region fa img).endX - (region fa img).startX ≤ 2 ^ 31)
    (hsy : (region fa img).endY - (region fa img).startY ≤ 2 ^ 31)
    (hw : ∀ x y, (region fa img).startX ≤ x → x < (region fa img).endX →
      (region fa img).startY ≤ y → y < (region fa img).endY →
      isWhite (img.colorAt x y) = true) :
    isBlankPage fa defaultDetector img = true := by
  obtain ⟨ht1, ht2⟩ := total_bounds (region fa img) hx hy hsx hsy
  have hT := relErr_rnd_int fa _ (by omega : (0 : Int) ≤
    ((region fa img).endX - (region fa img).startX) *
      ((region fa img).endY - (region fa img).startY)) (by omega)
  have hTpos : (0 : ℚ) < fa.rnd ((((region fa img).endX - (region fa img).startX) *
      ((region fa img).endY - (region fa img).startY) : Int) : ℚ) :=
    relErr_pos hT (by exact_mod_cast ht1)
  have hcount : countPixels img (region fa img)
      (fun p => decide (luma p < whiteThresholdAdjusted fa defaultDetector * 1000)) = 0 := by
    apply countPixels_eq_zero
    intro x y h1 h2 h3 h4
    rw [whiteThresholdAdjusted_default, luma_white _ (hw x y h1 h2 h3 h4)]
    decide
  unfold isBlankPage
  simp only [hcount]
  rw [if_neg hTpos.ne']
  simp only [Nat.cast_zero, fa.rnd_zero, zero_div, decide_eq_true_eq]
  exact (coverageThresholdAdjusted_default fa).1

/-- With the default thresholds, a page is not blank when at least a fifth
of the pixels of the rectangle scanned are black. -/
theorem isBlankPage_of_black (fa : Float64Ops) (img : Image)
    (hx : (region fa img).startX < (region fa img).endX)
    (hy : (region fa img).startY < (region fa img).endY)
    (hsx : (region fa img).endX - (region fa img).startX ≤ 2 ^ 31)
    (hsy : (region fa img).endY - (region fa img).startY ≤ 2 ^ 31)
    (hb : countPixels img (region fa img) (fun _ => true) ≤
      5 * countPixels img (region fa img) isBlack) :
    isBlankPage fa defaultDetector img = false := by
  obtain ⟨ht1, ht2⟩ := total_bounds (region fa img) hx hy hsx hsy
  have hT := relErr_rnd_int fa _ (by omega : (0 : Int) ≤
    ((region fa img).endX - (region fa img).startX) *
      ((region fa img).endY - (region fa img).startY)) (by omega)
  have hTq : (1 : ℚ) ≤ ((((region fa img).endX - (region fa img).startX) *
      ((region fa img).endY - (region fa img).startY) : Int) : ℚ) := by exact_mod_cast ht1
  have hTpos := relErr_pos hT (lt_of_lt_of_le one_pos hTq)
  -- the number of pixels as a natural number
  have htot : (countPixels img (region fa img) (fun _ => true) : Int) =
      ((region fa img).endX - (region fa img).startX) *
        ((region fa img).endY - (region fa img).startY) := by
    rw [countPixels_true]
    push_cast
    rw [Int.toNat_of_nonneg (by omega), Int.toNat_of_nonneg (by omega)]
    ring
  have hmono : countPixels img (region fa img) isBlack ≤
      countPixels img (region fa img)
        (fun p => decide (luma p < whiteThresholdAdjusted fa defaultDetector * 1000)) := by
    apply countPixels_mono
    intro c hc
    rw [whiteThresholdAdjusted_default, luma_black c hc]
    decide
  have hle := countPixels_le img (region fa img)
    (fun p => decide (luma p < whiteThresholdAdjusted fa defaultDetector * 1000))
  rw [← countPixels_true img (region fa img)] at hle
  unfold isBlankPage
  simp only
  generalize countPixels img (region fa img)
    (fun p => decide (luma p < whiteThresholdAdjusted fa defaultDetector * 1000)) = n
    at hmono hle ⊢
  have hn5 : (countPixels img (region fa img) (fun _ => true) : Int) ≤ 5 * (n : Int) := by
    have : countPixels img (region fa img) (fun _ => true) ≤ 5 * n :=
      le_trans hb (Nat.mul_le_mul_left 5 hmono)
    exact_mod_cast this
  have hnT : (n : Int) ≤ countPixels img (region fa img) (fun _ => true) := by
    exact_mod_cast hle
  rw [htot] at hn5 hnT
  generalize ((region fa img).endX - (region fa img).startX) *
    ((region fa img).endY - (region fa img).startY) = T at *
  have hn5q : (T : ℚ) ≤ 5 * (n : ℚ) := by exact_mod_cast hn5
  have hnTq : (n : ℚ) ≤ T := by exact_mod_cast hnT
  have hTq0 : (0 : ℚ) < T := lt_of_lt_of_le one_pos hTq
  have hn1 : (1 : ℚ) ≤ n := by
    have : (1 : Int) ≤ (n : Int) := by omega
    exact_mod_cast this
  have hN : RelErr 1 (fa.rnd (n : ℚ)) (n : ℚ) := by
    have := relErr_rnd_int fa (n : Int) (by omega) (by omega)
    simpa using this
  have hdiv := relErr_div hN hT (by linarith) hTq0
  have hratio1 : (1 : ℚ) / 5 ≤ (n : ℚ) / T := by
    rw [div_le_div_iff₀ (by norm_num) hTq0]
    linarith
  have hratio2 : (n : ℚ) / T ≤ 1 := by
    rw [div_le_one hTq0]
    exact hnTq
  have hcov := relErr_rnd fa hdiv (in_range (le_trans (by norm_num) hratio1)
    (le_trans hratio2 (by norm_num))) (by norm_num)
  have habs := relErr_abs hcov (by linarith) (by norm_num)
  rw [abs_le] at habs
  have herr : (n : ℚ) / T / 2 ^ 47 ≤ 1 / 100 := by
    have : (n : ℚ) / T / 2 ^ 47 ≤ 1 / 2 ^ 47 := div_le_div_of_nonneg_right hratio2 (by norm_num)
    exact le_trans this (by norm_num)
  have hthr := (coverageThresholdAdjusted_default fa).2
  rw [if_neg hTpos.ne']
  simp only [decide_eq_false_iff_not, not_lt]
  linarith [habs.1]

end BlankPageDetector

theorem whiteThresholdSpec_default : whiteThresholdSpec 70 = 179 := by
  unfold whiteThresholdSpec
  have : round (((70 : Int) : ℚ) / 100 * 254) = 178 := by
    rw [round_eq, Int.floor_eq_iff]
    constructor <;> norm_num
  rw [this]
  rfl

theorem pixelsTruncated_eq (mm dpi : Int) : pixelsTruncated mm dpi = 5 * mm * dpi / 127 := by
  unfold pixelsTruncated
  have : (mm : ℚ) / (254 / 10) * dpi = ((5 * mm * dpi : Int) : ℚ) / ((127 : Nat) : ℚ) := by
    push_cast
    field_simp
    ring
  rw [this, Rat.floor_intCast_div_natCast]
  rfl

theorem truncate_near (x : ℚ) (k : Int) (hx : 0 ≤ x) (h1 : (k : ℚ) - 1 < x)
    (h2 : x < k + 1) : truncate x = k ∨ truncate x = k - 1 := by
  unfold truncate
  rw [if_pos hx]
  by_cases h : (k : ℚ) ≤ x
  · left
    rw [Int.floor_eq_iff]
    exact ⟨h, h2⟩
  · right
    rw [Int.floor_eq_iff]
    push_cast
    constructor
    · linarith
    · linarith

namespace WindowsDriver

/-- The argument of the truncation in `toPixels` is `5 * mm * resolution / 127`
up to six roundings. -/
theorem toPixels_relErr (fa : Float64Ops) (mm resolution : Int) (h0 : 0 ≤ mm)
    (h1 : mm ≤ 2 ^ 20) (hr0 : 0 ≤ resolution) (hr1 : resolution ≤ 2 ^ 20) :
    RelErr 6 (fa.rnd (fa.rnd (fa.rnd (mm : ℚ) / fa.rnd (254 / 10)) * fa.rnd (resolution : ℚ)))
      (((5 * mm * resolution : Int) : ℚ) / ((127 : Int) : ℚ)) := by
  have hm0 : (0 : ℚ) ≤ mm := by exact_mod_cast h0
  have hm1 : (mm : ℚ) ≤ 2 ^ 20 := by exact_mod_cast h1
  have hq0 : (0 : ℚ) ≤ resolution := by exact_mod_cast hr0
  have hq1 : (resolution : ℚ) ≤ 2 ^ 20 := by exact_mod_cast hr1
  have hmz : (mm : ℚ) = 0 ∨ (1 : ℚ) ≤ mm := by
    rcases eq_or_lt_of_le h0 with h | h
    · left; rw [← h]; simp
    · right; exact_mod_cast h
  have hrz : (resolution : ℚ) = 0 ∨ (1 : ℚ) ≤ resolution := by
    rcases eq_or_lt_of_le hr0 with h | h
    · left; rw [← h]; simp
    · right; exact_mod_cast h
  have e1 := relErr_rnd_int fa mm h0 (by omega)
  have c1 : RelErr 1 (fa.rnd (254 / 10)) (254 / 10) :=
    relErr_rnd fa (relErr_refl _) (in_range (by norm_num) (by norm_num)) (by norm_num)
  have e2 := relErr_div e1 c1 hm0 (by norm_num)
  have hb2 : (mm : ℚ) / (254 / 10) = 0 ∨ 1 / 2 ^ 100 ≤ (mm : ℚ) / (254 / 10) := by
    rcases hmz with h | h
    · left; rw [h]; norm_num
    · right
      have : (1 : ℚ) / (254 / 10) ≤ (mm : ℚ) / (254 / 10) :=
        div_le_div_of_nonneg_right h (by norm_num)
      exact le_trans (by norm_num) this
  have hb2u : (mm : ℚ) / (254 / 10) ≤ 2 ^ 20 := by
    have : (mm : ℚ) / (254 / 10) ≤ 2 ^ 20 / (254 / 10) :=
      div_le_div_of_nonneg_right hm1 (by norm_num)
    exact le_trans this (by norm_num)
  have hb2n : (0 : ℚ) ≤ (mm : ℚ) / (254 / 10) := div_nonneg hm0 (by norm_num)
  have e3 := relErr_rnd fa e2 (in_range_zero hb2 (le_trans hb2u (by norm_num))) (by norm_num)
  have r1 := relErr_rnd_int fa resolution hr0 (by omega)
  have e4 := relErr_mul e3 r1 hb2n hq0
  have hb4u : (mm : ℚ) / (254 / 10) * resolution ≤ 2 ^ 40 := by
    calc (mm : ℚ) / (254 / 10) * resolution ≤ 2 ^ 20 * 2 ^ 20 :=
          mul_le_mul hb2u hq1 hq0 (by norm_num)
      _ = 2 ^ 40 := by norm_num
  have hb4 : (mm : ℚ) / (254 / 10) * resolution = 0 ∨
      1 / 2 ^ 100 ≤ (mm : ℚ) / (254 / 10) * resolution := by
    rcases hmz with h | h
    · left; rw [h]; norm_num
    · rcases hrz with h' | h'
      · left; rw [h']; norm_num
      · right
        have h3 : (1 : ℚ) / (254 / 10) ≤ (mm : ℚ) / (254 / 10) :=
          div_le_div_of_nonneg_right h (by norm_num)
        have : (1 : ℚ) / (254 / 10) * 1 ≤ (mm : ℚ) / (254 / 10) * resolution :=
          mul_le_mul h3 h' (by norm_num) hb2n
        exact le_trans (by norm_num) this
  have e5 := relErr_rnd fa e4 (in_range_zero hb4 (le_trans hb4u (by norm_num))) (by norm_num)
  have hv : ((5 * mm * resolution : Int) : ℚ) / ((127 : Int) : ℚ) =
      (mm : ℚ) / (254 / 10) * resolution := by
    push_cast
    field_simp
    ring
  rw [hv]
  exact relErr_mono e5 (by norm_num) (mul_nonneg hb2n hq0)

theorem toPixels_eq (fa : Float64Ops) (mm resolution : Int) (h0 : 0 ≤ mm)
    (h1 : mm ≤ 2 ^ 20) (hr0 : 0 ≤ resolution) (hr1 : resolution ≤ 2 ^ 20)
    (hrem : (5 * mm * resolution) % 127 ≠ 0) :
    toPixels fa mm resolution = pixelsTruncated mm resolution := by
  have hN : (5 * mm * resolution : Int) ≤ 5 * 2 ^ 40 := by nlinarith
  have hN0 : (0 : Int) ≤ 5 * mm * resolution := by positivity
  have hNq : ((5 * mm * resolution : Int) : ℚ) < 2 ^ 47 := by
    have : ((5 * mm * resolution : Int) : ℚ) ≤ ((5 * 2 ^ 40 : Int) : ℚ) := by exact_mod_cast hN
    exact lt_of_le_of_lt this (by norm_num)
  rw [pixelsTruncated_eq]
  exact truncate_relErr (5 * mm * resolution) 127 (by norm_num) hN0
    (toPixels_relErr fa mm resolution h0 h1 hr0 hr1) (by norm_num) hrem hNq

theorem toPixels_whole (fa : Float64Ops) (mm resolution : Int) (h0 : 0 ≤ mm)
    (h1 : mm ≤ 2 ^ 20) (hr0 : 0 ≤ resolution) (hr1 : resolution ≤ 2 ^ 20)
    (hrem : (5 * mm * resolution) % 127 = 0) :
    toPixels fa mm resolution = pixelsTruncated mm resolution ∨
    toPixels fa mm resolution = pixelsTruncated mm resolution - 1 := by
  have hN : (5 * mm * resolution : Int) ≤ 5 * 2 ^ 40 := by nlinarith
  have hN0 : (0 : Int) ≤ 5 * mm * resolution := by positivity
  have hNq : ((5 * mm * resolution : Int) : ℚ) ≤ 2 ^ 43 := by
    have : ((5 * mm * resolution : Int) : ℚ) ≤ ((5 * 2 ^ 40 : Int) : ℚ) := by exact_mod_cast hN
    exact le_trans this (by norm_num)
  have hNq0 : (0 : ℚ) ≤ ((5 * mm * resolution : Int) : ℚ) := by exact_mod_cast hN0
  have hrel := toPixels_relErr fa mm resolution h0 h1 hr0 hr1
  have hdiv : 5 * mm * resolution = 127 * (5 * mm * resolution / 127) := by omega
  have hv : ((5 * mm * resolution : Int) : ℚ) / ((127 : Int) : ℚ) =
      ((5 * mm * resolution / 127 : Int) : ℚ) := by
    have : ((5 * mm * resolution : Int) : ℚ) =
        127 * ((5 * mm * resolution / 127 : Int) : ℚ) := by exact_mod_cast hdiv
    rw [this]
    push_cast
    field_simp
  have hvn : (0 : ℚ) ≤ ((5 * mm * resolution : Int) : ℚ) / ((127 : Int) : ℚ) :=
    div_nonneg hNq0 (by norm_num)
  have habs := relErr_abs hrel hvn (by norm_num)
  rw [abs_le] at habs
  have herr : ((5 * mm * resolution : Int) : ℚ) / ((127 : Int) : ℚ) / 2 ^ 47 < 1 := by
    have h3 : ((5 * mm * resolution : Int) : ℚ) / ((127 : Int) : ℚ) ≤ 2 ^ 43 := by
      have : ((5 * mm * resolution : Int) : ℚ) / ((127 : Int) : ℚ) ≤
          ((5 * mm * resolution : Int) : ℚ) / 1 :=
        div_le_div_of_nonneg_left hNq0 (by norm_num) (by norm_num)
      rw [div_one] at this
      exact le_trans this hNq
    have : ((5 * mm * resolution : Int) : ℚ) / ((127 : Int) : ℚ) / 2 ^ 47 ≤ 2 ^ 43 / 2 ^ 47 :=
      div_le_div_of_nonneg_right h3 (by norm_num)
    exact lt_of_le_of_lt this (by norm_num)
  rw [pixelsTruncated_eq]
  unfold toPixels
  rw [hv] at habs herr
  exact truncate_near _ _ (relErr_nonneg hrel hvn) (by linarith [habs.1]) (by linarith [habs.2])

end WindowsDriver

namespace BlankPageDetector

/-- C18. For every white threshold in `0..100` the adjusted white threshold
of `isBlankPage` is `1 + ⌊whiteThreshold × 254 / 100⌋`: the product is
truncated, not rounded, so it is 178 for the threshold 70, where
`1 + round(70 / 100 × 254)` is 179.  For every coverage threshold in `0..100`
the adjusted coverage threshold is `coverageThreshold / 100 × 0.01` up to the
rounding of `float64` (one part in `2 ^ 47`). -/
theorem thresholds_adjusted (fa : Float64Ops) (d : BlankPageDetector)
    (hw0 : 0 ≤ d.WhiteThreshold) (hw1 : d.WhiteThreshold ≤ 100)
    (hc0 : 0 ≤ d.CoverageThreshold) (hc1 : d.CoverageThreshold ≤ 100) :
    whiteThresholdAdjusted fa d = 1 + 254 * d.WhiteThreshold / 100 ∧
    (d.WhiteThreshold = 70 →
      whiteThresholdAdjusted fa d = 178 ∧ whiteThresholdSpec d.WhiteThreshold = 179) ∧
    |coverageThresholdAdjusted fa d - (d.CoverageThreshold : ℚ) / 100 * (1 / 100)| ≤
      (d.CoverageThreshold : ℚ) / 100 * (1 / 100) / 2 ^ 47 := by
  have h1 := whiteThresholdAdjusted_eq fa d hw0 hw1
  refine ⟨h1, ?_, ?_⟩
  · intro h70
    rw [h1, h70]
    exact ⟨rfl, whiteThresholdSpec_default⟩
  · have hq : (0 : ℚ) ≤ (d.CoverageThreshold : ℚ) := by exact_mod_cast hc0
    exact relErr_abs (coverageThresholdAdjusted_relErr fa d hc0 hc1) (by positivity)
      (by norm_num)

/-- Witness of C18: the default thresholds 70 and 15, in exact arithmetic. -/
theorem thresholds_adjusted_witness :
    whiteThresholdAdjusted exactOps defaultDetector = 1 + 254 * 70 / 100 ∧
    (defaultDetector.WhiteThreshold = 70 →
      whiteThresholdAdjusted exactOps defaultDetector = 178 ∧
        whiteThresholdSpec defaultDetector.WhiteThreshold = 179) ∧
    |coverageThresholdAdjusted exactOps defaultDetector -
        (defaultDetector.CoverageThreshold : ℚ) / 100 * (1 / 100)| ≤
      (defaultDetector.CoverageThreshold : ℚ) / 100 * (1 / 100) / 2 ^ 47 :=
  thresholds_adjusted exactOps defaultDetector (by decide) (by decide) (by decide) (by decide)

/-- C19, as the code has it. With the thresholds 70 and 15, for every image that is not
empty and at most `2 ^ 31` pixels wide and high, `isBlankPage` classifies
the page as blank when all its pixels are white, and as not blank when at
least 20% of the pixels of the rectangle it scans are black, wherever in
that rectangle they lie.  The rectangle is the image without a border of
`ignoreEdge` pixels on each side, a hundredth of the width truncated (the
whole image when nothing would be left). -/
theorem isBlankPage_default (fa : Float64Ops) (img : Image)
    (hx : img.minX < img.maxX) (hy : img.minY < img.maxY)
    (hsx : img.maxX - img.minX ≤ 2 ^ 31) (hsy : img.maxY - img.minY ≤ 2 ^ 31) :
    ((∀ x y, img.minX ≤ x → x < img.maxX → img.minY ≤ y → y < img.maxY →
        isWhite (img.colorAt x y) = true) →
      isBlankPage fa defaultDetector img = true) ∧
    (countPixels img (region fa img) (fun _ => true) ≤
        5 * countPixels img (region fa img) isBlack →
      isBlankPage fa defaultDetector img = false) ∧
    ((img.maxX - img.minX) % 100 ≠ 0 →
      ignoreEdge fa img = (img.maxX - img.minX) / 100) := by
  obtain ⟨r1, r2, r3, r4, r5, r6⟩ := region_inside fa img hx hy
  refine ⟨?_, ?_, ?_⟩
  · intro hw
    exact isBlankPage_of_white fa img r2 r5 (by omega) (by omega)
      (fun x y h1 h2 h3 h4 => hw x y (by omega) (by omega) (by omega) (by omega))
  · intro hb
    exact isBlankPage_of_black fa img r2 r5 (by omega) (by omega) hb
  · intro hrem
    exact ignoreEdge_eq fa img (by omega) (by omega) hrem

theorem region_smallImage (fa : Float64Ops) : region fa smallImage = wholeImage smallImage := by
  have he : ignoreEdge fa smallImage = 0 :=
    ignoreEdge_eq fa smallImage (by decide) (by decide) (by decide)
  unfold region
  simp only [he]
  rfl

set_option maxRecDepth 100000 in
/-- Witness of C19 as amended: a white page of 10 by 10 pixels is blank, and the page
of 10 by 10 pixels whose two top rows are black is not. -/
theorem isBlankPage_default_witness :
    isBlankPage exactOps defaultDetector whiteImage = true ∧
    isBlankPage exactOps defaultDetector smallImage = false :=
  ⟨(isBlankPage_default exactOps whiteImage (by decide) (by decide) (by decide)
      (by decide)).1 (fun _ _ _ _ _ _ => show isWhite whitePixel = true by decide),
    (isBlankPage_default exactOps smallImage (by decide) (by decide) (by decide)
      (by decide)).2.1 (by
        rw [region_smallImage exactOps]
        decide)⟩

theorem region_stripeImage (fa : Float64Ops) :
    region fa stripeImage = { startX := 1, endX := 149, startY := 1, endY := 2 } := by
  have he : ignoreEdge fa stripeImage = 1 :=
    ignoreEdge_eq fa stripeImage (by decide) (by decide) (by decide)
  unfold region
  simp only [he]
  rfl

set_option maxRecDepth 100000 in
/-- Counterexample to C19 as stated: the page of 150 by 3 pixels whose top row is
black.  A third of its pixels are black, all of them in the border that
`isBlankPage` ignores, and the page is classified as blank in every
arithmetic. -/
theorem stripe_page_is_blank :
    (countPixels stripeImage (wholeImage stripeImage) (fun _ => true) ≤
      5 * countPixels stripeImage (wholeImage stripeImage) isBlack) ∧
    (3 * countPixels stripeImage (wholeImage stripeImage) isBlack =
      countPixels stripeImage (wholeImage stripeImage) (fun _ => true)) ∧
    ∀ fa : Float64Ops, isBlankPage fa defaultDetector stripeImage = true := by
  refine ⟨by decide, by decide, ?_⟩
  intro fa
  have hr := region_stripeImage fa
  refine isBlankPage_of_white fa stripeImage ?_ ?_ ?_ ?_ ?_
  · rw [hr]; decide
  · rw [hr]; decide
  · rw [hr]; decide
  · rw [hr]; decide
  · rw [hr]
    intro x y _ _ h3 h4
    have hy : y = 1 := by
      simp only at h3 h4
      omega
    subst hy
    have hc : stripeImage.colorAt x 1 = whitePixel := by simp [stripeImage]
    rw [hc]
    decide

end BlankPageDetector

namespace WindowsDriver

/-- C20, as the code has it. For every page size of at most `2 ^ 20` millimetres and
every resolution of at most `2 ^ 20`, each target dimension of
`applyCropToPageSize` is `mm / 25.4 × dpi` with the fraction discarded, not
rounded, whenever that product is not a whole number, and that number or
one less when it is whole.  A4 is used when neither a named size nor a
width or height is given, 300 DPI when the resolution is zero; the two
dimensions are swapped when image and page differ in orientation. -/
theorem cropTarget_truncated (fa : Float64Ops) (params : ScanParams)
    (hw : 0 ≤ (cropPageMM params).1 ∧ (cropPageMM params).1 ≤ 2 ^ 20)
    (hh : 0 ≤ (cropPageMM params).2 ∧ (cropPageMM params).2 ≤ 2 ^ 20)
    (hr : 0 ≤ cropResolution params ∧ cropResolution params ≤ 2 ^ 20) :
    ((5 * (cropPageMM params).1 * cropResolution params) % 127 ≠ 0 →
      (cropTarget fa params).1 = pixelsTruncated (cropPageMM params).1 (cropResolution params)) ∧
    ((5 * (cropPageMM params).2 * cropResolution params) % 127 ≠ 0 →
      (cropTarget fa params).2 = pixelsTruncated (cropPageMM params).2 (cropResolution params)) ∧
    ((cropTarget fa params).1 = pixelsTruncated (cropPageMM params).1 (cropResolution params) ∨
      (cropTarget fa params).1 =
        pixelsTruncated (cropPageMM params).1 (cropResolution params) - 1) ∧
    ((cropTarget fa params).2 = pixelsTruncated (cropPageMM params).2 (cropResolution params) ∨
      (cropTarget fa params).2 =
        pixelsTruncated (cropPageMM params).2 (cropResolution params) - 1) ∧
    (params.Resolution = 0 → cropResolution params = 300) ∧
    (params.PageSize = [] → params.PageWidth = 0 → params.PageHeight = 0 →
      params.Width = 0 → params.Height = 0 → cropPageMM params = (210, 297)) ∧
    (∀ currentWidth currentHeight : Int,
      orientedTarget fa params currentWidth currentHeight = cropTarget fa params ∨
      orientedTarget fa params currentWidth currentHeight =
        ((cropTarget fa params).2, (cropTarget fa params).1)) := by
  have one : ∀ mm : Int, 0 ≤ mm → mm ≤ 2 ^ 20 →
      toPixels fa mm (cropResolution params) = pixelsTruncated mm (cropResolution params) ∨
      toPixels fa mm (cropResolution params) =
        pixelsTruncated mm (cropResolution params) - 1 := by
    intro mm h0 h1
    by_cases hrem : (5 * mm * cropResolution params) % 127 = 0
    · exact toPixels_whole fa mm _ h0 h1 hr.1 hr.2 hrem
    · exact Or.inl (toPixels_eq fa mm _ h0 h1 hr.1 hr.2 hrem)
  refine ⟨fun hrem => toPixels_eq fa _ _ hw.1 hw.2 hr.1 hr.2 hrem,
    fun hrem => toPixels_eq fa _ _ hh.1 hh.2 hr.1 hr.2 hrem,
    one _ hw.1 hw.2, one _ hh.1 hh.2, ?_, ?_, ?_⟩
  · intro h
    unfold cropResolution
    rw [if_pos h]
  · intro h1 h2 h3 h4 h5
    unfold cropPageMM
    simp [h1, h2, h3, h4, h5]
  · intro cw ch
    unfold orientedTarget
    simp only
    split_ifs
    · exact Or.inr rfl
    · exact Or.inl rfl

set_option maxRecDepth 100000 in
/-- Witness of C20 as amended: A4 at 300 DPI, in exact arithmetic. -/
theorem cropTarget_truncated_witness :
    (cropTarget exactOps (cropParams "A4".toList 300)).1 = pixelsTruncated 210 300 ∧
    (cropTarget exactOps (cropParams "A4".toList 300)).2 = pixelsTruncated 297 300 ∧
    pixelsTruncated 210 300 = 2480 ∧ pixelsTruncated 297 300 = 3507 :=
  ⟨(cropTarget_truncated exactOps (cropParams "A4".toList 300) (by decide) (by decide)
      (by decide)).1 (by decide),
    (cropTarget_truncated exactOps (cropParams "A4".toList 300) (by decide) (by decide)
      (by decide)).2.1 (by decide),
    by rw [pixelsTruncated_eq]; rfl, by rw [pixelsTruncated_eq]; rfl⟩

theorem cropTarget_a4 (fa : Float64Ops) :
    cropTarget fa (cropParams "A4".toList 300) = (2480, 3507) := by
  have hmm : cropPageMM (cropParams "A4".toList 300) = (210, 297) := by decide
  have hres : cropResolution (cropParams "A4".toList 300) = 300 := by decide
  unfold cropTarget
  rw [hmm, hres]
  simp only
  rw [toPixels_eq fa 210 300 (by norm_num) (by norm_num) (by norm_num) (by norm_num)
      (by decide),
    toPixels_eq fa 297 300 (by norm_num) (by norm_num) (by norm_num) (by norm_num)
      (by decide),
    pixelsTruncated_eq, pixelsTruncated_eq]
  rfl

/-- Counterexample to C20 as stated: A4 at 300 DPI.  The code gives 2480 by 3507 in
every arithmetic, where `round(297 / 25.4 × 300)` is 3508. -/
theorem a4_height_is_3507 :
    cropPageMM (cropParams "A4".toList 300) = (210, 297) ∧
    cropResolution (cropParams "A4".toList 300) = 300 ∧
    pixelsSpec 210 300 = 2480 ∧ pixelsSpec 297 300 = 3508 ∧
    ∀ fa : Float64Ops, cropTarget fa (cropParams "A4".toList 300) = (2480, 3507) := by
  refine ⟨by decide, by decide, ?_, ?_, cropTarget_a4⟩
  · unfold pixelsSpec
    rw [round_eq, Int.floor_eq_iff]
    constructor <;> norm_num
  · unfold pixelsSpec
    rw [round_eq, Int.floor_eq_iff]
    constructor <;> norm_num

end WindowsDriver

theorem wrapInt64_of_nonneg (x : Int) (h0 : 0 ≤ x) (h1 : x < 9223372036854775808) :
    wrapInt64 x = x := by
  unfold wrapInt64
  omega

theorem goodEvent_of_not_progress {e : Event} (h : isProgress e = false) : GoodEvent e := by
  cases e with
  | progress p => exact absurd h (by simp [isProgress])
  | _ => trivial

theorem allGood_append {a b : List Event} (ha : ∀ e ∈ a, GoodEvent e)
    (hb : ∀ e ∈ b, GoodEvent e) : ∀ e ∈ a ++ b, GoodEvent e := by
  intro e he
  rcases List.mem_append.1 he with h | h
  · exact ha e h
  · exact hb e h

namespace batchState

/-- The percentage that `sendProgress` computes is within the bounds when
the current scan is at most the total and their product with 50 is an
`int`. -/
theorem sendProgress_good (s : batchState) (env : Env) (stage : GoString)
    (a b c d : Int) (m : GoString)
    (hst : stage = "scanning".toList ∨ stage = "saving".toList)
    (h : stage = "scanning".toList → 0 < b →
      0 ≤ a ∧ a ≤ b ∧ a * 50 < 9223372036854775808) :
    ∃ l, (∀ e ∈ l, GoodEvent e) ∧
      s.sendProgress env stage a b c d m = { s with trace := s.trace ++ l } := by
  unfold sendProgress
  split
  · exact ⟨[], fun e he => absurd he (List.not_mem_nil e), by simp⟩
  · refine ⟨_, ?_, rfl⟩
    intro e he
    rw [List.mem_singleton] at he
    subst he
    show percentInRange _
    unfold percentInRange
    rcases hst with hs | hs
    · subst hs
      by_cases hb : 0 < b
      · obtain ⟨h0, h1, h2⟩ := h rfl hb
        have hw : wrapInt64 (a * 50) = a * 50 := wrapInt64_of_nonneg _ (by omega) h2
        have hdiv : Int.tdiv (a * 50) b = a * 50 / b :=
          Int.tdiv_eq_ediv (by omega) (by omega)
        have hle : a * 50 / b ≤ 50 := Int.ediv_le_of_le_mul hb (by nlinarith)
        have hge : 0 ≤ a * 50 / b := Int.ediv_nonneg (by omega) (by omega)
        simp only [if_true, gt_iff_lt, hb, hw, hdiv]
        refine ⟨hge, by omega, fun _ => ⟨hle, fun hb0 => by omega⟩, fun hsv => ?_⟩
        exact absurd hsv (by decide)
      · simp only [if_true, gt_iff_lt, hb, if_false]
        refine ⟨by decide, by decide, fun _ => ⟨by decide, fun _ => trivial⟩, fun hsv => ?_⟩
        exact absurd hsv (by decide)
    · subst hs
      have hne : ¬ ("saving".toList = "scanning".toList) := by decide
      simp only [hne, if_false, if_true]
      exact ⟨by decide, by decide, fun hsc => absurd hsc (by simp), fun _ => rfl⟩

theorem scanProgress_good (s : batchState) (env : Env) (n p : Int)
    (hn : n = -1 ∨ (0 < s.settings.ScanCount →
      0 ≤ n + 1 ∧ n + 1 ≤ s.settings.ScanCount ∧ (n + 1) * 50 < 9223372036854775808)) :
    ∃ l, (∀ e ∈ l, GoodEvent e) ∧
      s.scanProgress env n p = { s with trace := s.trace ++ l } := by
  unfold scanProgress
  split
  · exact sendProgress_good s env _ 1 1 p 0 _ (Or.inl rfl)
      (fun _ _ => ⟨by decide, by decide, by decide⟩)
  · rename_i hne
    rcases hn with h | h
    · exact absurd h hne
    · exact sendProgress_good s env _ (n + 1) s.settings.ScanCount p 0 _ (Or.inl rfl)
        (fun _ hb => h hb)

theorem driverTicks_good (env : Env) (n : Int) (k : Nat) : ∀ (p : Int) (s : batchState),
    (n = -1 ∨ (0 < s.settings.ScanCount →
      0 ≤ n + 1 ∧ n + 1 ≤ s.settings.ScanCount ∧ (n + 1) * 50 < 9223372036854775808)) →
    ∃ l, (∀ e ∈ l, GoodEvent e) ∧
      driverTicks env n k p s = { s with trace := s.trace ++ l } := by
  induction k with
  | zero => intro p s _; exact ⟨[], fun e he => absurd he (List.not_mem_nil e), by simp [driverTicks]⟩
  | succ k ih =>
    intro p s hn
    obtain ⟨l1, h1, e1⟩ := scanProgress_good s env n (p + 1) hn
    obtain ⟨l2, h2, e2⟩ := ih (p + 1) (s.scanProgress env n (p + 1)) (by rw [e1]; exact hn)
    refine ⟨l1 ++ l2, allGood_append h1 h2, ?_⟩
    rw [driverTicks, e2, e1]
    simp

theorem inputOneScan_good (s : batchState) (env : Env) (n : Int)
    (hn : n = -1 ∨ (0 < s.settings.ScanCount →
      0 ≤ n + 1 ∧ n + 1 ≤ s.settings.ScanCount ∧ (n + 1) * 50 < 9223372036854775808)) :
    ∃ l, (∀ e ∈ l, GoodEvent e) ∧
      s.inputOneScan env n =
        ({ s with
            trace := s.trace ++ l
            nScan := s.nScan + 1
            scans := s.scans ++ oneScanBatch (env.driver s.nScan) },
          oneScanErr (env.driver s.nScan)) := by
  obtain ⟨l1, h1, e1⟩ := scanProgress_good s env n 1 hn
  obtain ⟨l2, h2, e2⟩ := driverTicks_good env n (env.driver s.nScan).ticks 1
    { s with
      trace := s.trace ++ l1 ++ [Event.scan s.scannerID s.settings.ScanParams]
      nScan := s.nScan + 1 } hn
  refine ⟨l1 ++ Event.scan s.scannerID s.settings.ScanParams :: l2, ?_, ?_⟩
  · intro e he
    rcases List.mem_append.1 he with h | h
    · exact h1 e h
    · rcases List.mem_cons.1 h with h | h
      · subst h; trivial
      · exact h2 e h
  · unfold inputOneScan
    simp only [e1, e2, oneScanErr, oneScanBatch]
    cases h : (env.driver s.nScan).err with
    | some e => simp
    | none =>
      by_cases h0 : (env.driver s.nScan).results.length = 0
      · simp [h0]
      · simp [h0]

end batchState

namespace batchState

theorem inputDelayLoop_good (env : Env) : ∀ (n : Nat) (i : Int) (s : batchState),
    0 ≤ i → (n = 0 ∨ i + n ≤ s.settings.ScanCount) →
    s.settings.ScanCount ≤ maxScanCount →
    ∃ l, (∀ e ∈ l, GoodEvent e) ∧ (inputDelayLoop env n i s).1.trace = s.trace ++ l := by
  intro n
  induction n with
  | zero =>
    intro i s _ _ _
    exact ⟨[], fun e he => absurd he (List.not_mem_nil e), by simp [inputDelayLoop]⟩
  | succ n ih =>
    intro i s hi hn hmax
    have hle : i + (n + 1 : Nat) ≤ s.settings.ScanCount := by
      rcases hn with h | h
      · exact absurd h (Nat.succ_ne_zero n)
      · exact h
    have hmax2 : s.settings.ScanCount ≤ 184467440737095516 := hmax
    have hbound : 0 < s.settings.ScanCount →
        0 ≤ i + 1 ∧ i + 1 ≤ s.settings.ScanCount ∧ (i + 1) * 50 < 9223372036854775808 :=
      fun _ => ⟨by omega, by omega, by omega⟩
    obtain ⟨l0, h0, e0⟩ := sendProgress_good s env "scanning".toList (i + 1)
      s.settings.ScanCount 0 0
      ("Waiting for scan ".toList ++ fmtD (i + 1) ++ " of ".toList ++ fmtD s.settings.ScanCount)
      (Or.inl rfl) (fun _ hb => hbound hb)
    have hnext : n = 0 ∨ i + 1 + (n : Int) ≤ s.settings.ScanCount := by
      right
      push_cast at hle
      omega
    rw [inputDelayLoop]
    simp only [e0]
    by_cases hi0 : i = 0
    · rw [if_neg (by simpa using hi0)]
      obtain ⟨l1, h1, e1⟩ := inputOneScan_good { s with trace := s.trace ++ l0 } env i
        (Or.inr hbound)
      rw [e1]
      cases herr : oneScanErr (env.driver s.nScan) with
      | some err =>
        exact ⟨l0 ++ l1, allGood_append h0 h1, by simp⟩
      | none =>
        simp only
        obtain ⟨l2, h2, e2⟩ := ih (i + 1)
          { s with
            trace := s.trace ++ l0 ++ l1
            nScan := s.nScan + 1
            scans := s.scans ++ oneScanBatch (env.driver s.nScan) }
          (by omega) hnext hmax
        refine ⟨l0 ++ l1 ++ l2, allGood_append (allGood_append h0 h1) h2, ?_⟩
        rw [e2]
        simp
    · rw [if_pos (by simpa using hi0)]
      try dsimp only
      cases hw : env.wait s.nWait with
      | some ctxErr =>
        exact ⟨l0 ++ [Event.wait s.settings.ScanIntervalSeconds],
          allGood_append h0 (fun e he => by
            rw [List.mem_singleton] at he; subst he; trivial), by simp⟩
      | none =>
        simp only
        obtain ⟨l1, h1, e1⟩ := inputOneScan_good
          { s with
            trace := s.trace ++ l0 ++ [Event.wait s.settings.ScanIntervalSeconds]
            nWait := s.nWait + 1 } env i (Or.inr hbound)
        rw [e1]
        cases herr : oneScanErr (env.driver s.nScan) with
        | some err =>
          exact ⟨l0 ++ [Event.wait s.settings.ScanIntervalSeconds] ++ l1,
            allGood_append (allGood_append h0 (fun e he => by
              rw [List.mem_singleton] at he; subst he; trivial)) h1, by simp⟩
        | none =>
          simp only
          obtain ⟨l2, h2, e2⟩ := ih (i + 1)
            { s with
              trace := s.trace ++ l0 ++ [Event.wait s.settings.ScanIntervalSeconds] ++ l1
              nWait := s.nWait + 1
              nScan := s.nScan + 1
              scans := s.scans ++ oneScanBatch (env.driver s.nScan) }
            (by omega) hnext hmax
          refine ⟨l0 ++ [Event.wait s.settings.ScanIntervalSeconds] ++ l1 ++ l2,
            allGood_append (allGood_append (allGood_append h0 (fun e he => by
              rw [List.mem_singleton] at he; subst he; trivial)) h1) h2, ?_⟩
          rw [e2]
          simp

theorem input_good (s : batchState) (env : Env) (hmax : s.settings.ScanCount ≤ maxScanCount) :
    ∃ l, (∀ e ∈ l, GoodEvent e) ∧ (s.input env).1.trace = s.trace ++ l := by
  by_cases h1 : s.settings.ScanType = BatchScanSingle
  · rw [input_of_single env s h1]
    obtain ⟨l, hl, e⟩ := inputOneScan_good s env (-1) (Or.inl rfl)
    exact ⟨l, hl, by rw [e]⟩
  · by_cases h2 : s.settings.ScanType = BatchScanMultipleWithDelay
    · rw [input_of_delay env s h2]
      refine inputDelayLoop_good env _ 0 s (le_refl _) ?_ hmax
      by_cases hc : 0 < s.settings.ScanCount
      · right
        rw [Int.toNat_of_nonneg hc.le]
        omega
      · left
        exact Int.toNat_eq_zero.mpr (by omega)
    · by_cases h3 : s.settings.ScanType = BatchScanMultipleWithPrompt
      · rw [input_of_prompt env s h3]
        obtain ⟨l0, hl0, e0⟩ := sendProgress_good s env "scanning".toList (0 + 1) (-1) 0 0
          ("Scanning batch ".toList ++ fmtD (0 + 1)) (Or.inl rfl)
          (fun _ hb => absurd hb (by decide))
        rw [e0]
        obtain ⟨l1, hl1, e1⟩ := inputOneScan_good { s with trace := s.trace ++ l0 } env 0
          (Or.inr (fun hb => ⟨by decide, by
            have : (0 : Int) < s.settings.ScanCount := hb
            omega, by decide⟩))
        rw [e1]
        exact ⟨l0 ++ l1, allGood_append hl0 hl1, by simp⟩
      · refine ⟨[], fun e he => absurd he (List.not_mem_nil e), ?_⟩
        unfold input
        simp [h1, h2, h3]

end batchState

namespace batchState

theorem sendProgress_saving (s : batchState) (env : Env) (n : Nat) :
    s.sendProgress env "saving".toList 0 0 0 (n : Int) "Saving scan results...".toList =
      { s with trace := s.trace ++ savingEvents env n } := by
  unfold sendProgress savingEvents
  by_cases h : env.hasCallback = false
  · simp [h]
  · rw [if_neg h, if_neg h]
    rfl

/-- The method `output` after its progress update, by output type, with the
progress update written out. -/
theorem output_eq_saving (s : batchState) (env : Env) :
    s.output env =
      if s.settings.OutputType = BatchOutputLoad then (s.afterSaving env, none)
      else if s.settings.OutputType = BatchOutputSingleFile then
        if s.scans.flatten.length > 0 then save (s.afterSaving env) env 0 s.scans.flatten
        else (s.afterSaving env, none)
      else if s.settings.OutputType = BatchOutputMultipleFiles then
        saveEach env (multipleCalls s) (s.afterSaving env)
      else
        (s.afterSaving env,
          some (GoError.leaf ("unknown output type: ".toList ++ s.settings.OutputType))) := by
  have ep := sendProgress_saving { s with trace := s.trace ++ [Event.outputBegin] } env
    s.scans.length
  unfold output afterSaving
  simp only [ep, List.append_assoc, List.singleton_append]
  by_cases h1 : s.settings.OutputType = BatchOutputLoad
  · simp [h1]
  · simp only [h1, if_false]
    by_cases h2 : s.settings.OutputType = BatchOutputSingleFile
    · simp [h2]
    · simp only [h2, if_false]
      by_cases h3 : s.settings.OutputType = BatchOutputMultipleFiles
      · simp only [h3, if_true, multipleCalls]
        by_cases h4 : s.settings.SaveSeparator = SaveSeparatorFilePerScan
        · have h5 : ¬ s.settings.SaveSeparator = SaveSeparatorFilePerPage := by
            rw [h4]; decide
          simp only [h4, h5, if_true, if_false]
          split <;> simp_all
        · simp only [h4, if_false]
          by_cases h5 : s.settings.SaveSeparator = SaveSeparatorFilePerPage
          · simp only [h5, if_true]
            split <;> simp_all
          · simp only [h5, if_false]
            split <;> simp_all
      · simp [h3]

/-- The trace that `output` adds: its entry, its progress update, and then
entries that are not progress updates. -/
theorem output_trace (s : batchState) (env : Env) :
    ∃ l, (∀ e ∈ l, isProgress e = false) ∧
      (s.output env).1.trace =
        s.trace ++ Event.outputBegin :: (savingEvents env s.scans.length ++ l) := by
  have notp : ∀ {l : List Event}, (∀ e ∈ l, isFs e = true ∨ isSaveMark e = true) →
      ∀ e ∈ l, isProgress e = false := by
    intro l h e he
    have := h e he
    cases e <;> simp_all [isFs, isSaveMark, isProgress]
  have base : ∃ l, (∀ e ∈ l, isProgress e = false) ∧
      (s.afterSaving env).trace =
        s.trace ++ Event.outputBegin :: (savingEvents env s.scans.length ++ l) :=
    ⟨[], fun e he => absurd he (List.not_mem_nil e), by simp [afterSaving]⟩
  rw [output_eq_saving]
  split
  · exact base
  · split
    · split
      · obtain ⟨l, a, b, h, -, e1⟩ := save_frame (s.afterSaving env) env 0 s.scans.flatten
        exact ⟨l, notp h, by rw [e1]; simp [afterSaving]⟩
      · exact base
    · split
      · obtain ⟨l, rs, a, b, h, -, -, e1⟩ := saveEach_spec env (multipleCalls s)
          (s.afterSaving env)
        exact ⟨l, notp h, by rw [e1]; simp [afterSaving]⟩
      · exact base

theorem savingEvents_good (env : Env) (n : Nat) : ∀ e ∈ savingEvents env n, GoodEvent e := by
  intro e he
  unfold savingEvents at he
  split at he
  · exact absurd he (List.not_mem_nil e)
  · rw [List.mem_singleton] at he
    subst he
    show percentInRange (savingUpdate n)
    unfold percentInRange savingUpdate
    exact ⟨by norm_num, by norm_num,
      fun h => absurd h (show ¬ ("saving".toList = "scanning".toList) by decide), fun _ => rfl⟩

theorem output_good (s : batchState) (env : Env) :
    ∃ l, (∀ e ∈ l, GoodEvent e) ∧ (s.output env).1.trace = s.trace ++ l := by
  obtain ⟨l, hl, e⟩ := output_trace s env
  refine ⟨Event.outputBegin :: (savingEvents env s.scans.length ++ l), ?_, e⟩
  intro x hx
  rcases List.mem_cons.1 hx with h | h
  · subst h; trivial
  · rcases List.mem_append.1 h with h | h
    · exact savingEvents_good env _ x h
    · exact goodEvent_of_not_progress (hl x h)

theorem mem_progressOf {l : List Event} {p : BatchScanProgress} :
    p ∈ progressOf l ↔ Event.progress p ∈ l := by
  unfold progressOf
  rw [List.mem_filterMap]
  constructor
  · rintro ⟨e, he, h⟩
    cases e <;> simp at h
    subst h
    exact he
  · intro h
    exact ⟨_, h, rfl⟩

/-- C23, as the code has it. Every progress update that `PerformBatchScan`
passes to the callback, for every scan type, every driver, context and file
system and every scan count up to `maxScanCount` (beyond it the product of
the scan number and 50 is no `int`), has a percentage in `0..100`: at most
50 in the stage `scanning`, where it is 25 when the total number of scans is
not known, and 100 in the stage `saving`. -/
theorem progress_percent_in_range (env : Env) (scannerID : GoString)
    (settings : BatchSettings) (hmax : settings.ScanCount ≤ maxScanCount) :
    ∀ p ∈ progressOf (PerformBatchScan env scannerID settings).2.2.trace,
      percentInRange p := by
  intro p hp
  rw [mem_progressOf] at hp
  have hP : PerformBatchScan env scannerID settings =
      (initialState scannerID settings).do_ env := rfl
  rw [hP, (do_state (initialState scannerID settings) env).1] at hp
  obtain ⟨l1, h1, e1⟩ := input_good (initialState scannerID settings) env hmax
  obtain ⟨l2, h2, e2⟩ := output_good ((initialState scannerID settings).input env).1 env
  rw [e2, e1] at hp
  simp only [initialState, List.nil_append] at hp
  exact allGood_append h1 h2 _ hp

/-- Witness of C23: a run of five scans with a delay. -/
theorem progress_percent_in_range_witness :
    fiveDemo.ScanCount ≤ maxScanCount ∧
    ∀ p ∈ progressOf (PerformBatchScan (demoEnv none) [] fiveDemo).2.2.trace,
      percentInRange p :=
  ⟨by decide, progress_percent_in_range (demoEnv none) [] fiveDemo (by decide)⟩

end batchState

theorem progressOf_append (a b : List Event) :
    progressOf (a ++ b) = progressOf a ++ progressOf b := by
  unfold progressOf
  rw [List.filterMap_append]

theorem progressOf_of_not_progress {l : List Event} (h : ∀ e ∈ l, isProgress e = false) :
    progressOf l = [] := by
  unfold progressOf
  rw [List.filterMap_eq_nil_iff]
  intro e he
  have := h e he
  cases e <;> simp_all [isProgress]

namespace batchState

/-- The saving update of `output` carries the number of batches as its
total of pages. -/
theorem output_progress (s : batchState) (env : Env) (hcb : env.hasCallback = true) :
    progressOf (s.output env).1.trace =
      progressOf s.trace ++ [savingUpdate s.scans.length] := by
  obtain ⟨l, hl, e⟩ := output_trace s env
  rw [e, progressOf_append]
  have h2 : progressOf (Event.outputBegin :: (savingEvents env s.scans.length ++ l)) =
      [savingUpdate s.scans.length] := by
    have h3 : savingEvents env s.scans.length =
        [Event.progress (savingUpdate s.scans.length)] := by
      unfold savingEvents
      rw [if_neg (by rw [hcb]; decide)]
    rw [h3]
    show progressOf ([Event.outputBegin, Event.progress (savingUpdate s.scans.length)] ++ l) = _
    rw [progressOf_append, progressOf_of_not_progress hl]
    rfl
  rw [h2]

set_option maxRecDepth 100000 in
/-- C27. The saving update of `output` carries in `TotalPages` the number
of batches, `len(s.scans)`, not the number of pages: for two batches of two
pages and of one page it is 2 where three pages were scanned, and in general
it is the length of `scans`. -/
theorem output_total_pages_counts_batches :
    (singleFileDemo.scans.length = 2 ∧ singleFileDemo.scans.flatten.length = 3 ∧
      (progressOf (singleFileDemo.output (demoEnv none)).1.trace).map
        (fun p => (p.Stage, p.TotalPages)) = [("saving".toList, 2)]) ∧
    ∀ (s : batchState) (env : Env), env.hasCallback = true →
      progressOf (s.output env).1.trace =
        progressOf s.trace ++ [savingUpdate s.scans.length] :=
  ⟨by decide, output_progress⟩

/-- C28. When the driver returns an error, `inputOneScan` returns it and
leaves `scans` as it was, whatever pages the driver returned with the error:
the slice `scan` that it would append is never filled.  A device that returns
three pages together with a paper jam gives a result without any batch. -/
theorem inputOneScan_drops_pages_on_error :
    ((partialEnv.driver 0).results = demoPages ∧
      (partialEnv.driver 0).err = some (GoError.leaf "paper jam".toList) ∧
      (PerformBatchScan partialEnv [] (singleSettings 1)).1 = [] ∧
      (PerformBatchScan partialEnv [] (singleSettings 1)).2.1 =
        some (GoError.leaf "paper jam".toList)) ∧
    ∀ (s : batchState) (env : Env) (scanNumber : Int) (e : GoError),
      (env.driver s.nScan).err = some e →
      (s.inputOneScan env scanNumber).1.scans = s.scans ∧
      (s.inputOneScan env scanNumber).2 = some e := by
  refine ⟨by decide, ?_⟩
  intro s env n e he
  obtain ⟨l1, l2, -, -, eq⟩ := inputOneScan_eq s env n
  rw [eq]
  simp [oneScanErr, oneScanBatch, he]

/-- C25, as the code has it. The error that `PerformBatchScan` returns is nil
when both phases return nil, the error of `input` as it is when only `input`
fails, the error of `output` as it is when only `output` fails, and when
both fail an error with the text `input failed: ` followed by the text of
the input error, `, output failed: ` and the text of the output error.
Only in the last case is a phase named. -/
theorem performBatchScan_error (env : Env) (scannerID : GoString) (settings : BatchSettings) :
    (PerformBatchScan env scannerID settings).2.1 =
      match ((initialState scannerID settings).input env).2,
        (((initialState scannerID settings).input env).1.output env).2 with
      | some err, some saveErr =>
        some (GoError.wrap ("input failed: ".toList ++ err.Error
          ++ ", output failed: ".toList ++ saveErr.Error) err)
      | some err, none => some err
      | none, some err => some err
      | none, none => none :=
  do_error (initialState scannerID settings) env

set_option maxRecDepth 100000 in
/-- Counterexample to C25 as stated: a single scan on a device that reports
a paper jam, results loaded.  Only `input` fails, and the error returned is
the error of the driver, whose text names no phase.  Likewise when only
`output` fails, here for a save path with the extension `.pdf`. -/
theorem single_phase_error_unnamed :
    ((initialState [] (singleSettings 1)).input (demoEnv (some 0))).2 =
      some (GoError.leaf "paper jam".toList) ∧
    (((initialState [] (singleSettings 1)).input (demoEnv (some 0))).1.output
      (demoEnv (some 0))).2 = none ∧
    (PerformBatchScan (demoEnv (some 0)) [] (singleSettings 1)).2.1 =
      some (GoError.leaf "paper jam".toList) ∧
    ¬ "input".toList <:+: (GoError.leaf "paper jam".toList).Error ∧
    ((initialState [] pdfSettings).input (demoEnv none)).2 = none ∧
    (PerformBatchScan (demoEnv none) [] pdfSettings).2.1 =
      some (GoError.leaf "PDF export not yet implemented".toList) ∧
    ¬ "output".toList <:+: (GoError.leaf "PDF export not yet implemented".toList).Error := by
  decide

end batchState

namespace batchState

/-- The delay loop after its first iteration, when the wait before the scan
of iteration `m` is the first one cancelled and the scans before it
succeed. -/
theorem inputDelayLoop_later_cancel (env : Env) (e : GoError) :
    ∀ (m n : Nat) (i : Int) (s : batchState),
    0 < i → m < n →
    (∀ j, j < m → oneScanErr (env.driver (s.nScan + j)) = none) →
    (∀ j, j < m → env.wait (s.nWait + j) = none) →
    env.wait (s.nWait + m) = some e →
    ∃ l, l.filter isCall = laterCalls s m ++ [Event.wait s.settings.ScanIntervalSeconds] ∧
      inputDelayLoop env n i s =
        ({ s with
            trace := s.trace ++ l
            nScan := s.nScan + m
            nWait := s.nWait + (m + 1)
            scans := s.scans ++ (List.range m).map (fun j => (env.driver (s.nScan + j)).results) },
          some e) := by
  intro m
  induction m with
  | zero =>
    intro n i s hi hmn _ _ hc
    obtain ⟨n, rfl⟩ : ∃ k, n = k + 1 := ⟨n - 1, by omega⟩
    obtain ⟨l0, h0, e0⟩ := sendProgress_eq s env "scanning".toList (i + 1) s.settings.ScanCount 0 0
      ("Waiting for scan ".toList ++ fmtD (i + 1) ++ " of ".toList ++ fmtD s.settings.ScanCount)
    have hw0 : env.wait s.nWait = some e := by simpa using hc
    have hi0 : i ≠ 0 := by omega
    refine ⟨l0 ++ [Event.wait s.settings.ScanIntervalSeconds], ?_, ?_⟩
    · simp only [List.filter_append, filter_onlyProgress (f := isCall) (fun _ => rfl) h0]
      simp [laterCalls, isCall]
    · rw [inputDelayLoop]
      simp only [e0, hi0, ne_eq, not_false_eq_true, if_true, hw0]
      simp
  | succ m ih =>
    intro n i s hi hmn hd hw hc
    obtain ⟨n, rfl⟩ : ∃ k, n = k + 1 := ⟨n - 1, by omega⟩
    obtain ⟨l0, h0, e0⟩ := sendProgress_eq s env "scanning".toList (i + 1) s.settings.ScanCount 0 0
      ("Waiting for scan ".toList ++ fmtD (i + 1) ++ " of ".toList ++ fmtD s.settings.ScanCount)
    have hw0 : env.wait s.nWait = none := by simpa using hw 0 (Nat.succ_pos m)
    have hd0 : oneScanErr (env.driver s.nScan) = none := by simpa using hd 0 (Nat.succ_pos m)
    have hi0 : i ≠ 0 := by omega
    obtain ⟨l1, l2, h1, h2, e1⟩ := inputOneScan_eq
      { s with
        trace := s.trace ++ l0 ++ [Event.wait s.settings.ScanIntervalSeconds]
        nWait := s.nWait + 1 } env i
    obtain ⟨l3, h3, e3⟩ := ih n (i + 1)
      { s with
        trace := s.trace ++ l0 ++ [Event.wait s.settings.ScanIntervalSeconds]
          ++ (l1 ++ Event.scan s.scannerID s.settings.ScanParams :: l2)
        nWait := s.nWait + 1
        nScan := s.nScan + 1
        scans := s.scans ++ [(env.driver s.nScan).results] }
      (by omega) (by omega)
      (by intro j hj; simpa [Nat.add_assoc, Nat.add_comm 1 j] using hd (j + 1) (by omega))
      (by intro j hj; simpa [Nat.add_assoc, Nat.add_comm 1 j] using hw (j + 1) (by omega))
      (by simpa [Nat.add_assoc, Nat.add_comm 1 m] using hc)
    refine ⟨l0 ++ [Event.wait s.settings.ScanIntervalSeconds]
      ++ (l1 ++ Event.scan s.scannerID s.settings.ScanParams :: l2) ++ l3, ?_, ?_⟩
    · simp only [List.filter_append, filter_onlyProgress (f := isCall) (fun _ => rfl) h0,
        filter_onlyProgress (f := isCall) (fun _ => rfl) h1, List.filter_cons,
        filter_onlyProgress (f := isCall) (fun _ => rfl) h2, h3]
      simp [laterCalls, isCall, List.replicate_succ]
    · rw [inputDelayLoop]
      simp only [e0, hi0, ne_eq, not_false_eq_true, if_true, hw0] at e1 ⊢
      simp only [e1, hd0, (oneScanBatch_of_ok hd0).1]
      simp only [e3]
      simp [List.range_succ_eq_map, Nat.add_assoc, Nat.add_comm 1, Function.comp_def]

/-- The method `input` in a run with a delay in which the first `k`
invocations succeed and the wait number `k` is the first one cancelled. -/
theorem input_delay_cancel (env : Env) (s : batchState) (N k : Nat) (e : GoError)
    (hType : s.settings.ScanType = BatchScanMultipleWithDelay)
    (hCount : s.settings.ScanCount = (N : Int)) (hk : 1 ≤ k) (hkN : k < N)
    (hok : ∀ j, j < k → (env.driver (s.nScan + j)).err = none ∧
      (env.driver (s.nScan + j)).results ≠ [])
    (hwait : ∀ j, j + 1 < k → env.wait (s.nWait + j) = none)
    (hcancel : env.wait (s.nWait + (k - 1)) = some e) :
    (s.input env).2 = some e ∧
    (s.input env).1.scans =
      s.scans ++ (List.range k).map (fun j => (env.driver (s.nScan + j)).results) ∧
    (s.input env).1.nScan = s.nScan + k ∧
    ∃ l, (s.input env).1.trace = s.trace ++ l ∧ (l.filter isScan).length = k ∧
      (l.filter isWait).length = k := by
  obtain ⟨n, rfl⟩ : ∃ a, N = a + 1 := ⟨N - 1, by omega⟩
  obtain ⟨m, rfl⟩ : ∃ a, k = a + 1 := ⟨k - 1, by omega⟩
  have hok1 : ∀ j, j < m + 1 → oneScanErr (env.driver (s.nScan + j)) = none :=
    fun j hj => (oneScanErr_eq_none_iff _).2 (hok j hj)
  have hinput : s.input env = inputDelayLoop env (n + 1) 0 s := by
    rw [input_of_delay env s hType, hCount]
    rfl
  obtain ⟨l0, h0, e0⟩ := inputDelayLoop_first env n s
  have hs0 : l0.filter isScan = [Event.scan s.scannerID s.settings.ScanParams] := by
    rw [filter_of_filter_isCall (f := isScan) (by intro e; cases e <;> simp [isScan, isCall]), h0]
    simp [isScan]
  have hw0 : l0.filter isWait = [] := by
    rw [filter_of_filter_isCall (f := isWait) (by intro e; cases e <;> simp [isWait, isCall]), h0]
    simp [isWait]
  rw [hinput, e0]
  have hd0 : oneScanErr (env.driver s.nScan) = none := by simpa using hok1 0 (Nat.succ_pos m)
  obtain ⟨l1, h1, e1⟩ := inputDelayLoop_later_cancel env e m n 1
    { s with
      trace := s.trace ++ l0
      nScan := s.nScan + 1
      scans := s.scans ++ oneScanBatch (env.driver s.nScan) }
    (by omega) (by omega)
    (by intro j hj; simpa [Nat.add_assoc, Nat.add_comm 1 j] using hok1 (j + 1) (by omega))
    (by intro j hj; simpa using hwait j (by omega))
    (by simpa using hcancel)
  simp only [hd0, e1]
  refine ⟨trivial, ?_, ?_, l0 ++ l1, by simp, ?_, ?_⟩
  · simp [List.range_succ_eq_map, Nat.add_assoc, Nat.add_comm 1, Function.comp_def,
      (oneScanBatch_of_ok hd0).1]
  · simp [Nat.add_assoc, Nat.add_comm 1]
  · rw [List.filter_append, hs0,
      filter_of_filter_isCall (f := isScan) (l := l1)
        (by intro e; cases e <;> simp [isScan, isCall]), h1]
    have := (laterCalls_filter_scan
      { s with
        trace := s.trace ++ l0
        nScan := s.nScan + 1
        scans := s.scans ++ oneScanBatch (env.driver s.nScan) } m).1
    simp [List.filter_append, this, isScan, Nat.add_comm]
  · rw [List.filter_append, hw0,
      filter_of_filter_isCall (f := isWait) (l := l1)
        (by intro e; cases e <;> simp [isWait, isCall]), h1]
    have := (laterCalls_filter_scan
      { s with
        trace := s.trace ++ l0
        nScan := s.nScan + 1
        scans := s.scans ++ oneScanBatch (env.driver s.nScan) } m).2
    simp [List.filter_append, this, isWait]

end batchState

namespace batchState

/-- C26, as the code has it. In a `MultipleWithDelay` run with scan count
`N` in which the first `k` invocations succeed (`1 ≤ k < N`), no wait before
the wait number `k` is cancelled and the wait number `k`, the one between
invocations `k` and `k + 1`, is cancelled with `e`: `PerformBatchScan` returns
exactly the `k` batches of the invocations made, in order, the driver has
been called `k` times and no more, and the error returned is `e`, or `e`
wrapped with the error of `output` when saving fails as well.  For the
second wait of a run of five this is two batches. -/
theorem delay_cancelled_wait_keeps_batches (env : Env) (scannerID : GoString)
    (settings : BatchSettings) (N k : Nat) (e : GoError)
    (hType : settings.ScanType = BatchScanMultipleWithDelay)
    (hCount : settings.ScanCount = (N : Int)) (hk : 1 ≤ k) (hkN : k < N)
    (hok : ∀ j, j < k → (env.driver j).err = none ∧ (env.driver j).results ≠ [])
    (hwait : ∀ j, j + 1 < k → env.wait j = none)
    (hcancel : env.wait (k - 1) = some e) :
    (PerformBatchScan env scannerID settings).1 =
      (List.range k).map (fun j => (env.driver j).results) ∧
    (PerformBatchScan env scannerID settings).1.length = k ∧
    (PerformBatchScan env scannerID settings).2.2.nScan = k ∧
    ((PerformBatchScan env scannerID settings).2.1 = some e ∨
      ∃ saveErr : GoError, (PerformBatchScan env scannerID settings).2.1 =
        some (GoError.wrap ("input failed: ".toList ++ e.Error
          ++ ", output failed: ".toList ++ saveErr.Error) e)) := by
  obtain ⟨herr, hscans, hn, -⟩ := input_delay_cancel env (initialState scannerID settings) N k e
    hType hCount hk hkN (by intro j hj; simpa [initialState] using hok j hj)
    (by intro j hj; simpa [initialState] using hwait j hj)
    (by simpa [initialState] using hcancel)
  obtain ⟨hstate, hres⟩ := do_state (initialState scannerID settings) env
  have herror := do_error (initialState scannerID settings) env
  obtain ⟨lo, a, b, -, eo⟩ := output_frame ((initialState scannerID settings).input env).1 env
  have h1 : (PerformBatchScan env scannerID settings).1 =
      (List.range k).map (fun j => (env.driver j).results) := by
    show ((initialState scannerID settings).do_ env).1 = _
    rw [hres, hscans]
    simp [initialState]
  refine ⟨h1, by rw [h1]; simp, ?_, ?_⟩
  · show ((initialState scannerID settings).do_ env).2.2.nScan = k
    rw [hstate, eo]
    show ((initialState scannerID settings).input env).1.nScan = k
    rw [hn]
    simp [initialState]
  · show ((initialState scannerID settings).do_ env).2.1 = some e ∨
      ∃ saveErr : GoError, ((initialState scannerID settings).do_ env).2.1 = _
    rw [herror, herr]
    cases ho : (((initialState scannerID settings).input env).1.output env).2 with
    | none => exact Or.inl rfl
    | some saveErr => exact Or.inr ⟨saveErr, rfl⟩

/-- Witness of C26: five scans with a delay on a device that returns three
pages at each call, the second wait cancelled. -/
theorem delay_cancelled_wait_keeps_batches_witness :
    (PerformBatchScan (cancelEnv 1) [] fiveDemo).1 =
      (List.range 2).map (fun j => ((cancelEnv 1).driver j).results) ∧
    (PerformBatchScan (cancelEnv 1) [] fiveDemo).1.length = 2 ∧
    (PerformBatchScan (cancelEnv 1) [] fiveDemo).2.2.nScan = 2 ∧
    ((PerformBatchScan (cancelEnv 1) [] fiveDemo).2.1 =
        some (GoError.leaf "context canceled".toList) ∨
      ∃ saveErr : GoError, (PerformBatchScan (cancelEnv 1) [] fiveDemo).2.1 =
        some (GoError.wrap ("input failed: ".toList
          ++ (GoError.leaf "context canceled".toList).Error
          ++ ", output failed: ".toList ++ saveErr.Error)
          (GoError.leaf "context canceled".toList))) :=
  delay_cancelled_wait_keeps_batches (cancelEnv 1) [] fiveDemo 5 2
    (GoError.leaf "context canceled".toList) rfl rfl (by decide) (by decide)
    (fun j _ => ⟨rfl, show demoPages ≠ [] by decide⟩)
    (fun j hj => by
      have : j = 0 := by omega
      subst this
      rfl)
    rfl

set_option maxRecDepth 100000 in
/-- Counterexample to C26 as stated: five scans with a delay, every
invocation returning three pages, the first wait passing and the second wait
cancelled.  Two invocations were made before the second wait, so two batches
are returned, not one, with the cancellation error; the waits made are two
and the driver is called twice. -/
theorem second_wait_cancelled_two_batches :
    fiveDemo.ScanType = BatchScanMultipleWithDelay ∧ fiveDemo.ScanCount = 5 ∧
    (∀ j, ((cancelEnv 1).driver j).err = none ∧ ((cancelEnv 1).driver j).results ≠ []) ∧
    (cancelEnv 1).wait 0 = none ∧
    (cancelEnv 1).wait 1 = some (GoError.leaf "context canceled".toList) ∧
    (PerformBatchScan (cancelEnv 1) [] fiveDemo).1 = [demoPages, demoPages] ∧
    (PerformBatchScan (cancelEnv 1) [] fiveDemo).1.length ≠ 1 ∧
    (PerformBatchScan (cancelEnv 1) [] fiveDemo).2.1 =
      some (GoError.leaf "context canceled".toList) ∧
    ((PerformBatchScan (cancelEnv 1) [] fiveDemo).2.2.trace.filter isScan).length = 2 ∧
    ((PerformBatchScan (cancelEnv 1) [] fiveDemo).2.2.trace.filter isWait).length = 2 := by
  refine ⟨rfl, rfl, fun j => ⟨rfl, show demoPages ≠ [] by decide⟩, rfl, rfl, ?_, ?_, ?_, ?_, ?_⟩ <;>
    decide

end batchState

namespace WindowsDriver

/-- The steps of the worker for a page that is saved and kept are the
enabled steps in the order blank check, scale, crop, quality. -/
theorem saveWorker_steps (env : WiaEnv) (params : ScanParams) (p : Nat)
    (hsave : env.saveFile p = none)
    (hkeep : env.isBlankPage (detectorOf params) p ≠ some true) :
    (saveWorker env params p).2 = enabledSteps params := by
  unfold saveWorker enabledSteps workerSteps
  rw [hsave]
  cases hx : params.ExcludeBlankPages
  · simp
  · cases hb : env.isBlankPage (detectorOf params) p with
    | none => simp
    | some b =>
      cases b
      · simp
      · exact absurd hb hkeep

/-- The steps of `Scan` outside feeder mode are the quality step, then the
scale step, then the crop step, each when enabled, and never the blank
check. -/
theorem flatbedSteps_eq (params : ScanParams) :
    flatbedSteps params =
      (enabledSteps params).filter (fun s => decide (s = PostStep.imageQuality)) ++
      (enabledSteps params).filter
        (fun s => decide (s = PostStep.scaleRatio ∨ s = PostStep.cropToPageSize)) := by
  unfold flatbedSteps enabledSteps
  cases params.ExcludeBlankPages <;>
    cases params.MaxQuality <;>
    cases params.CropToPageSize <;>
    cases params.StretchToPageSize <;>
    by_cases h1 : params.ScaleRatio > 1 <;>
    by_cases h2 : params.JpegQuality > 0 <;>
    simp [h1, h2]

set_option maxRecDepth 100000 in
/-- C21. In feeder mode a page that is saved and not dropped as blank gets
exactly the enabled steps in the order blank check, scale, crop, quality.
Outside feeder mode `Scan` runs the quality step first, then scale, then
crop, and never the blank check: with scale ratio 2, crop to the page size,
JPEG quality 75 and blank pages excluded the single page gets quality,
scale, crop, where the claimed order is blank check, scale, crop,
quality. -/
theorem flatbed_steps_out_of_order :
    (∀ (env : WiaEnv) (params : ScanParams) (p : Nat),
      env.saveFile p = none → env.isBlankPage (detectorOf params) p ≠ some true →
      (saveWorker env params p).2 = enabledSteps params) ∧
    (∀ params : ScanParams,
      flatbedSteps params =
        (enabledSteps params).filter (fun s => decide (s = PostStep.imageQuality)) ++
        (enabledSteps params).filter
          (fun s => decide (s = PostStep.scaleRatio ∨ s = PostStep.cropToPageSize))) ∧
    (Scan (feederEnv 1 (TransferReply.failed paperEmpty) SelectCase.result)
        flatbedParams).steps =
      [(0, PostStep.imageQuality), (0, PostStep.scaleRatio), (0, PostStep.cropToPageSize)] ∧
    enabledSteps flatbedParams =
      [PostStep.blankCheck, PostStep.scaleRatio, PostStep.cropToPageSize,
        PostStep.imageQuality] ∧
    (Scan (feederEnv 1 (TransferReply.failed paperEmpty) SelectCase.result)
        { flatbedParams with UseFeeder := true }).steps =
      (enabledSteps flatbedParams).map (fun st => (1, st)) :=
  ⟨saveWorker_steps, flatbedSteps_eq, by decide, by decide, by decide⟩

/-- A `select` of the collection loop with nothing on `errChan` and a
context that is not done takes a page when there is one and waits
otherwise. -/
theorem selectCase_quiet (env : WiaEnv) (i : Nat) (resultChan : List ScanResult)
    (hc : env.ctxDoneCollect i = false) :
    selectCase env i resultChan [] =
      match resultChan with
      | r :: rest => Selected.result r rest
      | [] => Selected.wait := by
  unfold selectCase
  rw [hc]
  cases env.choose i <;> cases resultChan <;> rfl

/-- The collection loop waits for ever when fewer pages were sent than it
has iterations left, nothing is on `errChan` and the context is never
done. -/
theorem collectLoop_blocked (env : WiaEnv) (scannedPages : Nat)
    (hc : ∀ i, env.ctxDoneCollect i = false) (hl : env.ctxDoneLater = false) :
    ∀ (n i : Nat) (resultChan results : List ScanResult) (progress : List Int),
      resultChan.length < n →
      (collectLoop env scannedPages n i resultChan [] results progress).1 =
        ScanOutcome.blocked := by
  intro n
  induction n with
  | zero => intro i rc _ _ h; exact absurd h (Nat.not_lt_zero _)
  | succ n ih =>
    intro i rc results progress h
    rw [collectLoop, selectCase_quiet env i rc (hc i)]
    cases rc with
    | nil => simp [hl]
    | cons r rest =>
      simp only
      exact ih _ _ _ _ (by simpa using h)

/-- The pages sent are fewer than the pages captured when one of them sends
nothing. -/
theorem resultsOf_length_lt (msgs : List WorkerMsg) (h : WorkerMsg.excluded ∈ msgs) :
    (resultsOf msgs).length < msgs.length := by
  induction msgs with
  | nil => simp at h
  | cons m t ih =>
    have hle : ∀ l : List WorkerMsg, (resultsOf l).length ≤ l.length :=
      fun l => List.length_filterMap_le _ l
    rcases List.mem_cons.mp h with h | h
    · subst h
      have := hle t
      simp only [resultsOf, List.filterMap_cons, List.length_cons] at this ⊢
      omega
    · have := ih h
      cases m <;> simp only [resultsOf, List.filterMap_cons, List.length_cons] at this ⊢ <;> omega

/-- No error is sent when no message is an error. -/
theorem errorsOf_eq_nil (msgs : List WorkerMsg) (h : ∀ m ∈ msgs, ∀ e, m ≠ WorkerMsg.failed e) :
    errorsOf msgs = [] := by
  unfold errorsOf
  rw [List.filterMap_eq_nil_iff]
  intro m hm
  cases m with
  | failed e => exact absurd rfl (h _ hm e)
  | excluded => rfl
  | page r => rfl

/-- C29. A feeder scan with blank-page exclusion in which the capture loop
ends without an error, every page is saved, at least one captured page is
detected blank and the context is never done does not return: the worker
sends nothing for a blank page, and the collection loop, which makes one
`select` per captured page, waits for ever for the missing message. -/
theorem scanADFBatch_blank_page_blocks (env : WiaEnv) (pageCount : Int) (params : ScanParams)
    (hpos : 0 ≤ (if pageCount = 0 then 9999 else pageCount))
    (hcap : (captureLoop env pageCount (if pageCount = 0 then 9999 else pageCount).toNat 0
      { scannedPages := 0, transfers := 0, progress := [] }).2 = none)
    (hsave : ∀ p, env.saveFile p = none)
    (hex : params.ExcludeBlankPages = true)
    (hblank : ∃ p ∈ pageNumbers (captureLoop env pageCount
        (if pageCount = 0 then 9999 else pageCount).toNat 0
        { scannedPages := 0, transfers := 0, progress := [] }).1.scannedPages,
      env.isBlankPage (detectorOf params) p = some true)
    (hc : ∀ i, env.ctxDoneCollect i = false) (hl : env.ctxDoneLater = false) :
    (scanADFBatch env pageCount params).outcome = ScanOutcome.blocked := by
  unfold scanADFBatch
  dsimp only
  rw [if_neg (by omega)]
  generalize (if pageCount = 0 then 9999 else pageCount) = M at hcap hblank ⊢
  generalize captureLoop env pageCount M.toNat 0
    { scannedPages := 0, transfers := 0, progress := [] } = cap at hcap hblank ⊢
  obtain ⟨c, e⟩ := cap
  simp only at hcap hblank ⊢
  subst hcap
  simp only
  obtain ⟨p, hp, hb⟩ := hblank
  have hmsg : ∀ q, (saveWorker env params q).1 = WorkerMsg.excluded ∨
      ∃ r, (saveWorker env params q).1 = WorkerMsg.page r := by
    intro q
    unfold saveWorker
    rw [hsave q, hex]
    simp only [if_true]
    split
    · exact Or.inl rfl
    · exact Or.inr ⟨_, rfl⟩
  have hp1 : (saveWorker env params p).1 = WorkerMsg.excluded := by
    unfold saveWorker
    rw [hsave p, hex]
    simp [hb]
  have herr : errorsOf ((pageNumbers c.scannedPages).map
      (fun q => (saveWorker env params q).1)) = [] := by
    apply errorsOf_eq_nil
    intro m hm e he
    obtain ⟨q, -, rfl⟩ := List.mem_map.mp hm
    rcases hmsg q with h | ⟨r, h⟩ <;> rw [h] at he <;> cases he
  have hlt := resultsOf_length_lt ((pageNumbers c.scannedPages).map
      (fun q => (saveWorker env params q).1))
    (List.mem_map.mpr ⟨p, hp, hp1⟩)
  rw [herr]
  apply collectLoop_blocked env _ hc hl
  have hlen : ((pageNumbers c.scannedPages).map
      (fun q => (saveWorker env params q).1)).length = c.scannedPages := by
    simp [pageNumbers]
  omega

set_option maxRecDepth 100000 in
/-- Witness of C29: a feeder with two sheets and a page limit of two, the
first page detected blank. -/
theorem scanADFBatch_blank_page_blocks_witness :
    (scanADFBatch (blankEnv 2 1) 2 (blankParams 2)).outcome = ScanOutcome.blocked :=
  scanADFBatch_blank_page_blocks (blankEnv 2 1) 2 (blankParams 2) (by decide) (by decide)
    (fun _ => rfl) rfl ⟨1, by decide, by decide⟩ (fun _ => rfl) rfl

end WindowsDriver

namespace CombinedWindowsDriver

/-- The prefix block panics exactly for an ID of five bytes that does not
start with `wia:`. -/
theorem byPrefix_panicked_iff {α : Type} (d : CombinedWindowsDriver) (scannerID : GoString)
    (wia twain : SubDriver → GoString → α) (fallback : GoString → α) :
    byPrefix d scannerID wia twain fallback = Ret.panicked ↔
      byteLen scannerID = 5 ∧ scannerID.take 4 ≠ "wia:".toList := by
  unfold byPrefix slicePrefixEq
  by_cases h4 : byteLen scannerID > 4
  · rw [if_pos h4, if_neg (by omega)]
    by_cases hw : scannerID.take 4 = "wia:".toList
    · simp only [hw, decide_True]
      constructor
      · intro h
        cases hd : d.wiaDriver <;> rw [hd] at h <;> cases h
      · intro h
        exact absurd rfl h.2
    · simp only [hw, decide_False]
      by_cases h6 : byteLen scannerID < 6
      · rw [if_pos h6]
        exact ⟨fun _ => ⟨by omega, hw⟩, fun _ => rfl⟩
      · rw [if_neg h6]
        constructor
        · intro h
          by_cases ht : scannerID.take 6 = "twain:".toList
          · simp only [ht, decide_True] at h
            cases hd : d.twainDriver <;> rw [hd] at h <;> cases h
          · simp only [ht, decide_False] at h
            cases h
        · intro h
          omega
  · rw [if_neg h4]
    constructor
    · intro h
      cases h
    · intro h
      omega

set_option maxRecDepth 100000 in
/-- C30. The prefix dispatch of `GetScanner`, `Scan`, `CancelScan` and
`WatchLidStatus` slices the ID to six bytes after checking only that it is
longer than four: each of the four methods panics exactly when the ID has
five bytes and does not start with `wia:`, whatever the two drivers are, and
so for the ID `abcde`. -/
theorem dispatch_panics_on_five_bytes :
    (byteLen "abcde".toList = 5 ∧
      GetScanner demoCombined "abcde".toList = Ret.panicked ∧
      Scan demoCombined "abcde".toList demoParams = Ret.panicked ∧
      CancelScan demoCombined "abcde".toList = Ret.panicked ∧
      WatchLidStatus demoCombined "abcde".toList = Ret.panicked) ∧
    ∀ (d : CombinedWindowsDriver) (scannerID : GoString) (params : ScanParams),
      (GetScanner d scannerID = Ret.panicked ↔
        byteLen scannerID = 5 ∧ scannerID.take 4 ≠ "wia:".toList) ∧
      (Scan d scannerID params = Ret.panicked ↔
        byteLen scannerID = 5 ∧ scannerID.take 4 ≠ "wia:".toList) ∧
      (CancelScan d scannerID = Ret.panicked ↔
        byteLen scannerID = 5 ∧ scannerID.take 4 ≠ "wia:".toList) ∧
      (WatchLidStatus d scannerID = Ret.panicked ↔
        byteLen scannerID = 5 ∧ scannerID.take 4 ≠ "wia:".toList) := by
  refine ⟨⟨by decide, ?_, ?_, ?_, ?_⟩, fun d scannerID params =>
    ⟨byPrefix_panicked_iff _ _ _ _ _, byPrefix_panicked_iff _ _ _ _ _,
      byPrefix_panicked_iff _ _ _ _ _, byPrefix_panicked_iff _ _ _ _ _⟩⟩
  · exact (byPrefix_panicked_iff _ _ _ _ _).2 ⟨by decide, by decide⟩
  · exact (byPrefix_panicked_iff _ _ _ _ _).2 ⟨by decide, by decide⟩
  · exact (byPrefix_panicked_iff _ _ _ _ _).2 ⟨by decide, by decide⟩
  · exact (byPrefix_panicked_iff _ _ _ _ _).2 ⟨by decide, by decide⟩

end CombinedWindowsDriver

namespace WindowsDriver

/-- The extension of a path that ends in `.jpg`. -/
theorem filepathExt_jpg (base : GoString) :
    filepathExt true (base ++ ".jpg".toList) = ".jpg".toList := by
  unfold filepathExt
  have : (base ++ ".jpg".toList).reverse = 'g' :: 'p' :: 'j' :: '.' :: base.reverse := by
    simp
  rw [this]
  simp [extScan, isPathSeparator]

/-- The path written for a path that ends in `.jpg` when `MaxQuality` is
set. -/
theorem losslessPath_jpg (base : GoString) :
    losslessPath (base ++ ".jpg".toList) = base ++ ".png".toList := by
  unfold losslessPath
  rw [filepathExt_jpg]
  simp

/-- The file of a page of a feeder scan ends in `.jpg`. -/
theorem pagePath_jpg (env : WiaEnv) (p : Nat) :
    pagePath env p =
      joinScans ("scan_".toList ++ baseTimestamp env.now ++ "_page_".toList ++ fmtD p)
        ++ ".jpg".toList := by
  simp [pagePath, joinScans]

/-- C22. In feeder mode with `MaxQuality` set, for a page that is saved and
kept and whose re-encoding succeeds: `applyImageQuality` writes the file
with the extension `.png` and removes the file with the extension `.jpg`,
and the page that the worker then sends still has the removed `.jpg` path as
`FilePath` and `JPEG` as `Format`; the quality step is the last step of the
worker. -/
theorem lossless_page_names_removed_file (env : WiaEnv) (io : QualityEnv)
    (params : ScanParams) (p : Nat) (files : List GoString)
    (hmax : params.MaxQuality = true) (hsave : env.saveFile p = none)
    (hkeep : env.isBlankPage (detectorOf params) p ≠ some true)
    (hfile : pagePath env p ∈ files)
    (hopen : io.openErr (pagePath env p) = none)
    (hdecode : io.decodeErr (pagePath env p) = none)
    (hcreate : io.createErr (losslessPath (pagePath env p)) = none)
    (hencode : io.encodeErr (losslessPath (pagePath env p)) = none)
    (hremove : io.removes (pagePath env p) = true) :
    ∃ base, pagePath env p = base ++ ".jpg".toList ∧
      (applyImageQuality io files (pagePath env p) params).2 = none ∧
      base ++ ".png".toList ∈ (applyImageQuality io files (pagePath env p) params).1 ∧
      pagePath env p ∉ (applyImageQuality io files (pagePath env p) params).1 ∧
      (saveWorker env params p).2.getLast? = some PostStep.imageQuality ∧
      ∃ r, (saveWorker env params p).1 = WorkerMsg.page r ∧
        r.FilePath = pagePath env p ∧ r.Format = "JPEG".toList := by
  refine ⟨_, pagePath_jpg env p, ?_⟩
  have hne : losslessPath (pagePath env p) ≠ pagePath env p := by
    rw [pagePath_jpg, losslessPath_jpg]
    intro h
    have := List.append_cancel_left h
    revert this
    decide
  have hq : applyImageQuality io files (pagePath env p) params =
      ((created files (losslessPath (pagePath env p))).filter
        (fun f => decide (f ≠ pagePath env p)), none) := by
    unfold applyImageQuality
    simp [hmax, hfile, hopen, hdecode, hcreate, hencode, hremove, hne]
  have hpng : losslessPath (pagePath env p) =
      joinScans ("scan_".toList ++ baseTimestamp env.now ++ "_page_".toList ++ fmtD p)
        ++ ".png".toList := by
    rw [pagePath_jpg, losslessPath_jpg]
  rw [hq]
  refine ⟨rfl, ?_, ?_, ?_, ?_⟩
  · rw [← hpng]
    simp only [List.mem_filter, decide_eq_true_eq]
    refine ⟨?_, hne⟩
    unfold created
    split
    · assumption
    · simp
  · simp
  · rw [saveWorker_steps env params p hsave hkeep]
    unfold enabledSteps
    simp [hmax]
  · unfold saveWorker
    rw [hsave]
    cases hx : params.ExcludeBlankPages
    · exact ⟨_, rfl, rfl, rfl⟩
    · cases hb : env.isBlankPage (detectorOf params) p with
      | none => exact ⟨_, rfl, rfl, rfl⟩
      | some b =>
        cases b
        · exact ⟨_, rfl, rfl, rfl⟩
        · exact absurd hb hkeep

end WindowsDriver

namespace WindowsDriver

/-- Witness of C22: the first page of a feeder scan with `MaxQuality` set,
with file and codec calls that never fail. -/
theorem lossless_page_names_removed_file_witness :
    ∃ base, pagePath (feederEnv 1 (TransferReply.failed paperEmpty) SelectCase.result) 1 =
        base ++ ".jpg".toList ∧
      (applyImageQuality plainFiles
        [pagePath (feederEnv 1 (TransferReply.failed paperEmpty) SelectCase.result) 1]
        (pagePath (feederEnv 1 (TransferReply.failed paperEmpty) SelectCase.result) 1)
        (losslessParams 1)).2 = none ∧
      base ++ ".png".toList ∈ (applyImageQuality plainFiles
        [pagePath (feederEnv 1 (TransferReply.failed paperEmpty) SelectCase.result) 1]
        (pagePath (feederEnv 1 (TransferReply.failed paperEmpty) SelectCase.result) 1)
        (losslessParams 1)).1 ∧
      pagePath (feederEnv 1 (TransferReply.failed paperEmpty) SelectCase.result) 1 ∉
        (applyImageQuality plainFiles
          [pagePath (feederEnv 1 (TransferReply.failed paperEmpty) SelectCase.result) 1]
          (pagePath (feederEnv 1 (TransferReply.failed paperEmpty) SelectCase.result) 1)
          (losslessParams 1)).1 ∧
      (saveWorker (feederEnv 1 (TransferReply.failed paperEmpty) SelectCase.result)
        (losslessParams 1) 1).2.getLast? = some PostStep.imageQuality ∧
      ∃ r, (saveWorker (feederEnv 1 (TransferReply.failed paperEmpty) SelectCase.result)
          (losslessParams 1) 1).1 = WorkerMsg.page r ∧
        r.FilePath =
          pagePath (feederEnv 1 (TransferReply.failed paperEmpty) SelectCase.result) 1 ∧
        r.Format = "JPEG".toList :=
  lossless_page_names_removed_file
    (feederEnv 1 (TransferReply.failed paperEmpty) SelectCase.result) plainFiles
    (losslessParams 1) 1
    [pagePath (feederEnv 1 (TransferReply.failed paperEmpty) SelectCase.result) 1]
    rfl rfl (by decide) (List.mem_singleton.mpr rfl) rfl rfl rfl rfl rfl

end WindowsDriver

namespace batchState

/-! ### A single scan does not read the scan count -/

theorem sendProgress_withScanCount (s : batchState) (env : Env) (c : Int) (stage : GoString)
    (currentScan totalScans currentPage totalPages : Int) (message : GoString) :
    (s.withScanCount c).sendProgress env stage currentScan totalScans currentPage totalPages
        message =
      (s.sendProgress env stage currentScan totalScans currentPage totalPages
        message).withScanCount c := by
  unfold sendProgress
  split <;> rfl

theorem scanProgress_withScanCount (s : batchState) (env : Env) (c pageNumber : Int) :
    (s.withScanCount c).scanProgress env (-1) pageNumber =
      (s.scanProgress env (-1) pageNumber).withScanCount c := by
  unfold scanProgress
  rw [if_pos rfl, if_pos rfl, sendProgress_withScanCount]

theorem driverTicks_withScanCount (env : Env) (c : Int) :
    ∀ (n : Nat) (pageNumber : Int) (s : batchState),
      driverTicks env (-1) n pageNumber (s.withScanCount c) =
        (driverTicks env (-1) n pageNumber s).withScanCount c := by
  intro n
  induction n with
  | zero => intro _ _; rfl
  | succ n ih =>
    intro pageNumber s
    rw [driverTicks, driverTicks, scanProgress_withScanCount, ih]

theorem inputOneScan_withScanCount (s : batchState) (env : Env) (c : Int) :
    (s.withScanCount c).inputOneScan env (-1) =
      ((s.inputOneScan env (-1)).1.withScanCount c, (s.inputOneScan env (-1)).2) := by
  unfold inputOneScan
  simp only [scanProgress_withScanCount]
  have h := driverTicks_withScanCount env c (env.driver (s.scanProgress env (-1) 1).nScan).ticks 1
    { s.scanProgress env (-1) 1 with
      trace := (s.scanProgress env (-1) 1).trace ++
        [Event.scan (s.scanProgress env (-1) 1).scannerID
          (s.scanProgress env (-1) 1).settings.ScanParams]
      nScan := (s.scanProgress env (-1) 1).nScan + 1 }
  simp only [withScanCount] at h ⊢
  rw [h]
  cases (env.driver (s.scanProgress env (-1) 1).nScan).err with
  | some e => simp
  | none =>
    dsimp only
    split_ifs <;> rfl

theorem copyFile_withScanCount (s : batchState) (env : Env) (c : Int) (src dst : GoString) :
    (s.withScanCount c).copyFile env src dst =
      ((s.copyFile env src dst).1.withScanCount c, (s.copyFile env src dst).2) := by
  unfold copyFile
  simp only [withScanCount]
  cases env.io s.nIO with
  | some e => rfl
  | none =>
    simp only
    cases env.io (s.nIO + 1) <;> rfl

theorem saveIndexed_withScanCount (env : Env) (c : Int) (savePath : GoString) :
    ∀ (images : List ScanResult) (i : Int) (s : batchState),
      saveIndexed env savePath images i (s.withScanCount c) =
        ((saveIndexed env savePath images i s).1.withScanCount c,
          (saveIndexed env savePath images i s).2) := by
  intro images
  induction images with
  | nil => intro _ _; rfl
  | cons image rest ih =>
    intro i s
    rw [saveIndexed, saveIndexed, copyFile_withScanCount]
    cases h : s.copyFile env image.FilePath (addIndexToPath env.windows savePath i) with
    | mk s1 r =>
      cases r with
      | some e => rfl
      | none => exact ih _ _

theorem saveBody_withScanCount (s : batchState) (env : Env) (c index : Int)
    (images : List ScanResult) :
    (s.withScanCount c).saveBody env index images =
      ((s.saveBody env index images).1.withScanCount c, (s.saveBody env index images).2) := by
  unfold saveBody
  cases images with
  | nil => rfl
  | cons image0 rest =>
    simp only
    have hc := copyFile_withScanCount
    have hi := saveIndexed_withScanCount
    simp only [withScanCount] at hc hi ⊢
    cases env.io s.nIO with
    | some e => rfl
    | none =>
      simp only
      split
      · rfl
      · split
        · exact hc
            { s with
              nNow := s.nNow + 1
              trace := s.trace ++ [Event.mkdirAll (substitutePlaceholders (env.now s.nNow)
                (env.mapOrder s.nNow) s.settings.SavePath index)]
              nIO := s.nIO + 1 } env c _ _
        · exact hi env c _ _ _
            { s with
              nNow := s.nNow + 1
              trace := s.trace ++ [Event.mkdirAll (substitutePlaceholders (env.now s.nNow)
                (env.mapOrder s.nNow) s.settings.SavePath index)]
              nIO := s.nIO + 1 }

theorem save_withScanCount (s : batchState) (env : Env) (c index : Int)
    (images : List ScanResult) :
    (s.withScanCount c).save env index images =
      ((s.save env index images).1.withScanCount c, (s.save env index images).2) := by
  unfold save
  have h := saveBody_withScanCount { s with trace := s.trace ++ [Event.saveBegin index images] }
    env c index images
  simp only [withScanCount] at h ⊢
  rw [h]

theorem saveEach_withScanCount (env : Env) (c : Int) :
    ∀ (calls : List (Int × List ScanResult)) (s : batchState),
      saveEach env calls (s.withScanCount c) =
        ((saveEach env calls s).1.withScanCount c, (saveEach env calls s).2) := by
  intro calls
  induction calls with
  | nil => intro _; rfl
  | cons call rest ih =>
    intro s
    obtain ⟨i, images⟩ := call
    rw [saveEach, saveEach, save_withScanCount]
    cases h : s.save env i images with
    | mk s1 r =>
      cases r with
      | some e => rfl
      | none => exact ih _

theorem output_withScanCount (s : batchState) (env : Env) (c : Int) :
    (s.withScanCount c).output env =
      ((s.output env).1.withScanCount c, (s.output env).2) := by
  have ha : (s.withScanCount c).afterSaving env = (s.afterSaving env).withScanCount c := rfl
  have hm : multipleCalls (s.withScanCount c) = multipleCalls s := rfl
  have ht : (s.withScanCount c).settings.OutputType = s.settings.OutputType := rfl
  have hs : (s.withScanCount c).scans = s.scans := rfl
  rw [output_eq_saving (s.withScanCount c) env, output_eq_saving s env, ha, hm, ht, hs]
  split_ifs
  · rfl
  · exact save_withScanCount _ env c _ _
  · rfl
  · exact saveEach_withScanCount env c _ _
  · rfl

/-- With scan type `Single` the run is the same for every scan count, up to
the scan count held in the settings of the state. -/
theorem do_single_withScanCount (s : batchState) (env : Env) (c : Int)
    (h : s.settings.ScanType = BatchScanSingle) :
    (s.withScanCount c).do_ env =
      ((s.do_ env).1, (s.do_ env).2.1, (s.do_ env).2.2.withScanCount c) := by
  unfold do_
  rw [input_of_single env (s.withScanCount c) h, input_of_single env s h,
    inputOneScan_withScanCount]
  cases hi : s.inputOneScan env (-1) with
  | mk s1 r1 =>
    cases ho : s1.output env with
    | mk s2 r2 =>
      cases r1 <;> cases r2 <;> simp only [output_withScanCount, ho] <;> rfl

set_option maxRecDepth 100000 in
/-- C24. With scan type `MultipleWithPrompt` the progress updates depend on
the scan count: `inputOneScan` is called with scan number 0 and sends the
scan count as the total number of scans, so on the same device the runs
with scan counts 1 and 5 return the same batches and the same error and send
the percentages 25, 50, 50, 50, 100 and 25, 10, 10, 10, 100.  With scan
type `Single` two runs that differ in the scan count only return the same
batches and the same error and make the same outside calls and progress
updates, for every device and every settings. -/
theorem prompt_progress_depends_on_scan_count :
    ((PerformBatchScan (demoEnv none) [] (promptDemo 1)).1 =
        (PerformBatchScan (demoEnv none) [] (promptDemo 5)).1 ∧
      (PerformBatchScan (demoEnv none) [] (promptDemo 1)).2.1 =
        (PerformBatchScan (demoEnv none) [] (promptDemo 5)).2.1 ∧
      (progressOf (PerformBatchScan (demoEnv none) [] (promptDemo 1)).2.2.trace).map
        (fun p => (p.TotalScans, p.PercentComplete)) =
        [(-1, 25), (1, 50), (1, 50), (1, 50), (0, 100)] ∧
      (progressOf (PerformBatchScan (demoEnv none) [] (promptDemo 5)).2.2.trace).map
        (fun p => (p.TotalScans, p.PercentComplete)) =
        [(-1, 25), (5, 10), (5, 10), (5, 10), (0, 100)]) ∧
    ∀ (env : Env) (scannerID : GoString) (settings : BatchSettings) (scanCount : Int),
      settings.ScanType = BatchScanSingle →
      (PerformBatchScan env scannerID { settings with ScanCount := scanCount }).1 =
        (PerformBatchScan env scannerID settings).1 ∧
      (PerformBatchScan env scannerID { settings with ScanCount := scanCount }).2.1 =
        (PerformBatchScan env scannerID settings).2.1 ∧
      (PerformBatchScan env scannerID { settings with ScanCount := scanCount }).2.2.trace =
        (PerformBatchScan env scannerID settings).2.2.trace := by
  refine ⟨by decide, ?_⟩
  intro env scannerID settings scanCount h
  have key := do_single_withScanCount (initialState scannerID settings) env scanCount h
  have e : PerformBatchScan env scannerID { settings with ScanCount := scanCount } =
      ((initialState scannerID settings).withScanCount scanCount).do_ env := rfl
  have e2 : PerformBatchScan env scannerID settings =
      (initialState scannerID settings).do_ env := rfl
  rw [e, e2, key]
  exact ⟨rfl, rfl, rfl⟩

end batchState

namespace batchState

/-! ### The progress update of the last scan of a run with a delay -/

/-- The update of the delay loop when there is a callback. -/
theorem sendProgress_waiting (s : batchState) (env : Env) (hcb : env.hasCallback = true)
    (i : Int) :
    s.sendProgress env "scanning".toList (i + 1) s.settings.ScanCount 0 0
        ("Waiting for scan ".toList ++ fmtD (i + 1) ++ " of ".toList
          ++ fmtD s.settings.ScanCount) =
      { s with trace := s.trace ++
          [Event.progress (waitingUpdate (i + 1) s.settings.ScanCount)] } := by
  unfold sendProgress waitingUpdate
  rw [if_neg (by rw [hcb]; decide)]
  simp

/-- The iterations of the delay loop after the first, as long as every scan
succeeds and no wait is cancelled: after `m` of them the loop goes on from a
state with a longer trace and the same settings. -/
theorem inputDelayLoop_later_steps (env : Env) : ∀ (m n : Nat) (i : Int) (s : batchState),
    0 < i →
    (∀ j, j < m → oneScanErr (env.driver (s.nScan + j)) = none) →
    (∀ j, j < m → env.wait (s.nWait + j) = none) →
    ∃ (l : List Event) (bs : List (List ScanResult)),
      inputDelayLoop env (m + n) i s =
        inputDelayLoop env n (i + (m : Int))
          { s with
            trace := s.trace ++ l
            nScan := s.nScan + m
            nWait := s.nWait + m
            scans := s.scans ++ bs } := by
  intro m
  induction m with
  | zero =>
    intro n i s _ _ _
    exact ⟨[], [], by simp⟩
  | succ m ih =>
    intro n i s hi hd hw
    obtain ⟨l0, h0, e0⟩ := sendProgress_eq s env "scanning".toList (i + 1) s.settings.ScanCount 0 0
      ("Waiting for scan ".toList ++ fmtD (i + 1) ++ " of ".toList ++ fmtD s.settings.ScanCount)
    have hw0 : env.wait s.nWait = none := by simpa using hw 0 (Nat.succ_pos m)
    have hd0 : oneScanErr (env.driver s.nScan) = none := by simpa using hd 0 (Nat.succ_pos m)
    have hi0 : i ≠ 0 := by omega
    obtain ⟨l1, l2, h1, h2, e1⟩ := inputOneScan_eq
      { s with
        trace := s.trace ++ l0 ++ [Event.wait s.settings.ScanIntervalSeconds]
        nWait := s.nWait + 1 } env i
    obtain ⟨l3, bs, e3⟩ := ih n (i + 1)
      { s with
        trace := s.trace ++ l0 ++ [Event.wait s.settings.ScanIntervalSeconds]
          ++ (l1 ++ Event.scan s.scannerID s.settings.ScanParams :: l2)
        nWait := s.nWait + 1
        nScan := s.nScan + 1
        scans := s.scans ++ [(env.driver s.nScan).results] }
      (by omega)
      (by intro j hj; simpa [Nat.add_assoc, Nat.add_comm 1 j] using hd (j + 1) (by omega))
      (by intro j hj; simpa [Nat.add_assoc, Nat.add_comm 1 j] using hw (j + 1) (by omega))
    refine ⟨l0 ++ [Event.wait s.settings.ScanIntervalSeconds]
      ++ (l1 ++ Event.scan s.scannerID s.settings.ScanParams :: l2) ++ l3,
      [(env.driver s.nScan).results] ++ bs, ?_⟩
    have hn : m + 1 + n = (m + n) + 1 := by omega
    rw [hn, inputDelayLoop]
    simp only [e0, hi0, ne_eq, not_false_eq_true, if_true, hw0] at e1 ⊢
    simp only [e1, hd0, (oneScanBatch_of_ok hd0).1]
    simp only [e3]
    have hcast : i + 1 + (m : Int) = i + ((m + 1 : Nat) : Int) := by push_cast; ring
    rw [hcast]
    simp [Nat.add_assoc, Nat.add_comm 1]

/-- The last iteration of the delay loop sends its update first, whatever
follows. -/
theorem inputDelayLoop_last_progress (env : Env) (hcb : env.hasCallback = true) (i : Int)
    (s : batchState) (hi : 0 < i) :
    ∃ l, (inputDelayLoop env 1 i s).1.trace =
      s.trace ++ Event.progress (waitingUpdate (i + 1) s.settings.ScanCount) :: l := by
  have e0 := sendProgress_waiting s env hcb i
  have hi0 : i ≠ 0 := by omega
  obtain ⟨l1, l2, h1, h2, e1⟩ := inputOneScan_eq
    { s with
      trace := s.trace ++ [Event.progress (waitingUpdate (i + 1) s.settings.ScanCount)]
        ++ [Event.wait s.settings.ScanIntervalSeconds]
      nWait := s.nWait + 1 } env i
  rw [inputDelayLoop]
  simp only [e0, hi0, ne_eq, not_false_eq_true, if_true] at e1 ⊢
  cases hw : env.wait s.nWait with
  | some e => exact ⟨[Event.wait s.settings.ScanIntervalSeconds], by simp⟩
  | none =>
    simp only [e1]
    cases hd : oneScanErr (env.driver s.nScan) with
    | some e =>
      exact ⟨Event.wait s.settings.ScanIntervalSeconds ::
        (l1 ++ Event.scan s.scannerID s.settings.ScanParams :: l2), by simp⟩
    | none =>
      simp only [inputDelayLoop]
      exact ⟨Event.wait s.settings.ScanIntervalSeconds ::
        (l1 ++ Event.scan s.scannerID s.settings.ScanParams :: l2), by simp⟩

/-- In a run with a delay of `N ≥ 2` scans in which the scans before the
last succeed and the waits before the last are not cancelled, `input` sends
the update of scan `N` of `N`. -/
theorem input_delay_last_progress (env : Env) (s : batchState) (N : Nat) (hN : 2 ≤ N)
    (hcb : env.hasCallback = true)
    (hType : s.settings.ScanType = BatchScanMultipleWithDelay)
    (hCount : s.settings.ScanCount = (N : Int))
    (hok : ∀ j, oneScanErr (env.driver j) = none)
    (hwait : ∀ j, env.wait j = none) :
    Event.progress (waitingUpdate (N : Int) (N : Int)) ∈ (s.input env).1.trace := by
  obtain ⟨m, rfl⟩ : ∃ a, N = a + 2 := ⟨N - 2, by omega⟩
  have hinput : s.input env = inputDelayLoop env (m + 1 + 1) 0 s := by
    rw [input_of_delay env s hType, hCount]
    rfl
  obtain ⟨l0, -, e0⟩ := inputDelayLoop_first env (m + 1) s
  rw [hinput, e0]
  simp only [hok]
  obtain ⟨l1, bs, e1⟩ := inputDelayLoop_later_steps env m 1 1
    { s with
      trace := s.trace ++ l0
      nScan := s.nScan + 1
      scans := s.scans ++ oneScanBatch (env.driver s.nScan) }
    (by omega) (fun j _ => hok _) (fun j _ => hwait _)
  rw [e1]
  obtain ⟨l2, e2⟩ := inputDelayLoop_last_progress env hcb (1 + (m : Int))
    { s with
      trace := s.trace ++ l0 ++ l1
      nScan := s.nScan + 1 + m
      nWait := s.nWait + m
      scans := s.scans ++ oneScanBatch (env.driver s.nScan) ++ bs }
    (by omega)
  rw [e2]
  simp only [hCount]
  have hc : (1 : Int) + (m : Int) + 1 = ((m + 2 : Nat) : Int) := by push_cast; ring
  rw [hc]
  simp

/-- The updates of `input` are among the updates of the run. -/
theorem mem_trace_of_input (env : Env) (scannerID : GoString) (settings : BatchSettings)
    (e : Event) (h : e ∈ ((initialState scannerID settings).input env).1.trace) :
    e ∈ (PerformBatchScan env scannerID settings).2.2.trace := by
  obtain ⟨hstate, -⟩ := do_state (initialState scannerID settings) env
  obtain ⟨lo, a, b, -, eo⟩ := output_frame ((initialState scannerID settings).input env).1 env
  show e ∈ ((initialState scannerID settings).do_ env).2.2.trace
  rw [hstate, eo]
  exact List.mem_append_left _ h

/-- The update of scan `hugeScanCount` of `hugeScanCount` has the percentage
-49. -/
theorem waitingUpdate_huge :
    (waitingUpdate (hugeScanCount : Int) (hugeScanCount : Int)).PercentComplete = -49 := by
  decide

/-- Counterexample to C23 as stated: a run with a delay of
184467440737095517 scans on a device whose every scan returns three pages,
no wait cancelled.  The update sent before the last scan has current scan
and total 184467440737095517; their product with 50 exceeds the range of a
64-bit `int` and wraps, and the percentage sent is -49, in the stage
`scanning`.  `sendProgress` called with these numbers gives the same. -/
theorem huge_scan_count_negative_percent :
    hugeDemo.ScanType = BatchScanMultipleWithDelay ∧
    hugeDemo.ScanCount = 184467440737095517 ∧
    (progressOf ((initialState [] hugeDemo).sendProgress (demoEnv none) "scanning".toList
        184467440737095517 184467440737095517 0 0 []).trace).map
      (fun p => p.PercentComplete) = [-49] ∧
    ∃ p ∈ progressOf (PerformBatchScan (demoEnv none) [] hugeDemo).2.2.trace,
      p.Stage = "scanning".toList ∧ p.CurrentScan = 184467440737095517 ∧
      p.TotalScans = 184467440737095517 ∧ p.PercentComplete = -49 ∧
      ¬ percentInRange p := by
  refine ⟨rfl, rfl, by decide, waitingUpdate (hugeScanCount : Int) (hugeScanCount : Int),
    ?_, rfl, rfl, rfl, waitingUpdate_huge, ?_⟩
  · rw [mem_progressOf]
    apply mem_trace_of_input
    exact input_delay_last_progress (demoEnv none) (initialState [] hugeDemo) hugeScanCount
      (by decide) rfl rfl rfl
      (fun j => (oneScanErr_eq_none_iff _).2 ⟨rfl, show demoPages ≠ [] by decide⟩)
      (fun _ => rfl)
  · intro h
    have h0 := h.1
    rw [waitingUpdate_huge] at h0
    exact absurd h0 (by decide)

end batchState

end Scan
